import Mathlib

/-!
Verification development for the dialog and message core of a SIP user agent
(`aiosip`: `message.py` and `dialog.py`).

The embedding is shallow: Python classes become Lean structures, methods become
pure functions, mutation becomes explicit state passing, and Python exceptions
become `Except SipErr`.  Randomness (`utils.gen_branch`, `uuid.uuid4`,
`utils.gen_str`) is modelled by fixed placeholder tokens: no property proved
here depends on their values.  Python byte strings are modelled as their
UTF-8 decoded text; `len(bytes)` becomes `String.utf8ByteSize`.

Modules of the repository that are not part of the source under scrutiny
(`contact.py`, `utils.py`, `auth.py`, `transaction.py`) are modelled from the
specification; each such definition carries a doc comment saying so.
-/

namespace Aiosip

/-! ## Basic string utilities (structural recursion over `List Char`) -/

/-- Lowercased character list of a string; used for the case-insensitive key
comparison of `CIMultiDict` and for `str.lower()`. -/
def lowerKey (s : String) : List Char := s.toList.map Char.toLower

/-- `str.lower()` of Python, restricted to ASCII case mapping. -/
def toLowerStr (s : String) : String := (s.toList.map Char.toLower).asString

/-- `str.upper()` of Python, restricted to ASCII case mapping. -/
def toUpperStr (s : String) : String := (s.toList.map Char.toUpper).asString

/-- Case-insensitive equality of header names, as in `CIMultiDict`. -/
def ciEq (a b : String) : Bool := lowerKey a == lowerKey b

/-- Lexicographic `≤` on character lists by code point: the order Python uses
to compare strings. -/
def clLe : List Char → List Char → Bool
  | [], _ => true
  | _ :: _, [] => false
  | a :: as, b :: bs => a < b || (a = b && clLe as bs)

/-- Python string `≤` (code-point lexicographic). -/
def nameLe (a b : String) : Bool := clLe a.toList b.toList

/-- Digits of `n`, most significant first, with explicit fuel so that the
recursion is structural. -/
def pyStrAux : Nat → Nat → List Char
  | 0, _ => []
  | _ + 1, 0 => []
  | fuel + 1, n + 1 => pyStrAux fuel ((n + 1) / 10) ++ [Char.ofNat (48 + (n + 1) % 10)]

/-- Python `str(n)` for a natural number. -/
def pyStr (n : Nat) : String := if n = 0 then "0" else (pyStrAux n n).asString

/-- Numeric value of a decimal digit character. -/
def digitVal (c : Char) : Nat := c.toNat - 48

/-- Python `int(s)` for a plain decimal literal (no sign, no surrounding
whitespace — the only forms this code base feeds to `int`). -/
def pyToNat? (s : String) : Option Nat :=
  let cs := s.toList
  if cs ≠ [] ∧ cs.all Char.isDigit then
    some (cs.foldl (fun a c => 10 * a + digitVal c) 0)
  else none

/-- Helper of `splitWsChars`: `cur` is the (reversed) token being read. -/
def splitWsAux : List Char → List Char → List (List Char)
  | cur, [] => if cur = [] then [] else [cur.reverse]
  | cur, c :: rest =>
    if c.isWhitespace then
      if cur = [] then splitWsAux [] rest else cur.reverse :: splitWsAux [] rest
    else splitWsAux (c :: cur) rest

/-- Python `str.split()` with no argument: split on whitespace runs and drop
empty fields. -/
def splitWs (s : String) : List String := (splitWsAux [] s.toList).map List.asString

/-- Split a character list at the first occurrence of the two-character
separator `": "`, as Python `line.split(': ', 1)` does; `none` when the
separator does not occur (Python then raises on unpacking). -/
def splitColonAux : List Char → Option (List Char × List Char)
  | [] => none
  | ':' :: ' ' :: rest => some ([], rest)
  | c :: rest => (splitColonAux rest).map (fun p => (c :: p.1, p.2))

/-- `line.split(': ', 1)` on a header line, rebuilt as strings. -/
def splitHeaderLine (line : String) : Option (String × String) :=
  (splitColonAux line.toList).map (fun p => (p.1.asString, p.2.asString))

/-- Whether the separator `": "` occurs in a character list; header names for
which this is false round-trip through `splitColonAux`. -/
def hasColonSpace : List Char → Bool
  | [] => false
  | ':' :: ' ' :: _ => true
  | _ :: rest => hasColonSpace rest

/-- Whether the line separator `"\r\n"` occurs in a character list; a wire
line for which this is false survives `raw.split('\r\n')` intact. -/
def hasCRLF : List Char → Bool
  | [] => false
  | '\r' :: '\n' :: _ => true
  | _ :: rest => hasCRLF rest

/-- The line separator `utils.EOL`. -/
def EOL : String := "\r\n"

/-- Python `raw.split('\r\n')`: exact-substring split keeping empty fields. -/
def splitCRLF : List Char → List (List Char)
  | [] => [[]]
  | '\r' :: '\n' :: rest => [] :: splitCRLF rest
  | c :: rest =>
    match splitCRLF rest with
    | t :: ts => (c :: t) :: ts
    | [] => [[c]]

/-! ## Header map (`CIMultiDict` as used by this code base)

A header value is either a single string or a list of strings (the parser
turns repeated headers into a list).  The map is an association list in
insertion order whose keys compare case-insensitively; every operation the
source performs keeps at most one entry per case-insensitive name. -/

inductive HVal where
  | one : String → HVal
  | many : List String → HVal
deriving DecidableEq

abbrev Headers := List (String × HVal)

/-- `k in headers` (case-insensitive membership). -/
def hContains (h : Headers) (k : String) : Bool := h.any (fun e => ciEq e.1 k)

/-- `headers[k]` as an option: first case-insensitive match. -/
def hGet? (h : Headers) (k : String) : Option HVal :=
  (h.find? (fun e => ciEq e.1 k)).map (·.2)

/-- `headers[k] = v` of `CIMultiDict`: replace the first case-insensitive
match in place (adopting the new spelling of the key), drop any further
matches, append when absent. -/
def hSet : Headers → String → HVal → Headers
  | [], k, v => [(k, v)]
  | e :: rest, k, v =>
    if ciEq e.1 k then (k, v) :: rest.filter (fun e' => ¬ ciEq e'.1 k)
    else e :: hSet rest k v

/-- The compact-header table `compact_to_long` of `message.py`. -/
def compact_to_long : List (String × String) :=
  [("v", "Via"), ("f", "From"), ("t", "To"), ("i", "Call-ID"), ("m", "Contact"),
   ("l", "Content-Length"), ("c", "Content-Type"), ("e", "Content-Encoding"),
   ("s", "Subject"), ("k", "Supported"), ("x", "Session-Expires"),
   ("r", "Refer-To"), ("b", "Referred-By"), ("j", "Reject-Contact"),
   ("a", "Accept-Contact"), ("o", "Event"), ("u", "Allow-Events"),
   ("d", "Request-Disposition"), ("y", "Identity")]

/-- `compact_to_long[k]` lookup (keys are already lowercase). -/
def compactLookup (k : String) : Option String :=
  (compact_to_long.find? (fun e => e.1 == k)).map (·.2)

/-- `long_to_compact[k]` lookup: the inverted table, queried with the exact
(case-sensitive) displayed key, as `CompactHeaderResponse._format_headers`
does. -/
def longToCompact (k : String) : Option String :=
  (compact_to_long.find? (fun e => e.2 == k)).map (·.1)

/-- One step of the duplicate-header merge of `Message.from_raw_headers`:
normalize a compact alias to its long form, then either append a fresh entry
or grow the existing entry into a list. -/
def addHeaderLine (h : Headers) (k v : String) : Headers :=
  let k := match compactLookup (toLowerStr k) with
    | some long => long
    | none => k
  match hGet? h k with
  | some (.one s0) => hSet h k (.many [s0, v])
  | some (.many l) => hSet h k (.many (l ++ [v]))
  | none => h ++ [(k, .one v)]

/-! ## Contact values (spec-modelled: `contact.py` is outside the source) -/

/-- Modelled from the spec: a SIP URI as the fields this core reads
(`uri['host']`, `uri['port']`); `contact.py` itself is outside the source. -/
structure SipUri where
  host : String
  port : Option Nat
deriving DecidableEq

/-- Modelled from the spec §3: a `Contact` value is a URI plus a parameter
mapping; the `tag` parameter contributes the dialog identity. -/
structure Contact where
  uri : SipUri
  params : List (String × String)
deriving DecidableEq

/-- `contact['params'].get(k)`. -/
def paramGet? (c : Contact) (k : String) : Option String :=
  (c.params.find? (fun e => e.1 == k)).map (·.2)

/-- `contact['params'][k] = v`: replace the first binding or append. -/
def paramSet : List (String × String) → String → String → List (String × String)
  | [], k, v => [(k, v)]
  | e :: rest, k, v => if e.1 == k then (k, v) :: rest else e :: paramSet rest k v

/-- `'tag' in contact['params']`. -/
def hasTag (c : Contact) : Bool := (paramGet? c "tag").isSome

/-- Modelled from the spec: `utils.format_host_and_port` renders
`<host>[:<port>]` (`utils.py` is outside the source). -/
def formatHostAndPort (host : String) (port : Option Nat) : String :=
  host ++ (match port with | some p => ":" ++ pyStr p | none => "")

/-- Modelled from the spec: `uri.short_uri()` of `contact.py` — the bare
`sip:<host>[:<port>]` form used in a request line. -/
def shortUri (u : SipUri) : String := "sip:" ++ formatHostAndPort u.host u.port

/-- Render a parameter list as `;k=v` pairs. -/
def printParams : List (String × String) → String
  | [] => ""
  | (k, v) :: rest => ";" ++ k ++ "=" ++ v ++ printParams rest

/-- Modelled from the spec: `str(contact)` of `contact.py` — the URI in angle
brackets followed by its parameters. -/
def printContact (c : Contact) : String :=
  "<" ++ shortUri c.uri ++ ">" ++ printParams c.params

/-- Parser helper: read characters up to (excluding) the next `stop`
character. -/
def takeUntil (stop : Char → Bool) : List Char → List Char × List Char
  | [] => ([], [])
  | c :: rest =>
    if stop c then ([], c :: rest)
    else
      let p := takeUntil stop rest
      (c :: p.1, p.2)

/-- Parse `;k=v` parameter lists (inverse of `printParams` on its range);
the fuel argument makes the recursion structural. -/
def parseParamsAux : Nat → List Char → Option (List (String × String))
  | 0, _ => none
  | _ + 1, [] => some []
  | fuel + 1, ';' :: rest =>
    let kp := takeUntil (fun c => c = '=') rest
    match kp.2 with
    | '=' :: rest2 =>
      let vp := takeUntil (fun c => c = ';') rest2
      (parseParamsAux fuel vp.2).map
        (fun ps => (kp.1.asString, vp.1.asString) :: ps)
    | _ => none
  | _ + 1, _ => none

/-- Parse `;k=v` parameter lists. -/
def parseParams (cs : List Char) : Option (List (String × String)) :=
  parseParamsAux (cs.length + 1) cs

/-- Modelled from the spec: `Contact.from_header` of `contact.py`, as the
inverse of `printContact` on its range. -/
def parseContact (s : String) : Option Contact :=
  match s.toList with
  | '<' :: 's' :: 'i' :: 'p' :: ':' :: rest =>
    let hp := takeUntil (fun c => c = ':' ∨ c = '>') rest
    match hp.2 with
    | ':' :: rest2 =>
      let pp := takeUntil (fun c => c = '>') rest2
      match pp.2 with
      | '>' :: rest3 =>
        match pyToNat? pp.1.asString with
        | some port =>
          (parseParams rest3).map
            (fun ps => ⟨⟨hp.1.asString, some port⟩, ps⟩)
        | none => none
      | _ => none
    | '>' :: rest2 =>
      (parseParams rest2).map (fun ps => ⟨⟨hp.1.asString, none⟩, ps⟩)
    | _ => none
  | _ => none

/-! ## Errors

Python exception values, as far as this code base distinguishes them.
`valueError "Not a SIP message"` is the codec's *malformed-message* error. -/

inductive SipErr where
  | valueError : String → SipErr
  | keyError : SipErr
  | typeError : SipErr
  | attributeError : SipErr
  | indexError : SipErr
deriving DecidableEq

/-! ## The Message data model (`message.py`)

One structure models `Message`, `Request`, `Response` and
`CompactHeaderResponse`.  The lazily-cached accessors of the source
(`_from_details`, `_to_details`, `_contact_details`, `_cseq`, `_method`) are
modelled by `Option`-valued cache fields that are populated exactly where the
source populates them during construction; the model assumes no further
accessor calls happen between construction and encoding (none do in the flows
verified here).  A cached `None` contact (possible in Python via a later
property read) is not representable and not needed. -/

structure Msg where
  headers : Headers
  payloadTxt : Option String
  rawPayload : Option String
  fromCache : Option Contact
  toCache : Option Contact
  contactCache : Option Contact
  cseqCache : Option Nat
  methodCache : Option String
  statusCode : Option Nat
  statusMessage : Option String
  firstLine : String
  compact : Bool
deriving DecidableEq

/-- `msg.payload` property: the text payload if truthy, else the decoded raw
payload if truthy, else the empty string. -/
def Msg.payload (m : Msg) : String :=
  if m.payloadTxt.getD "" ≠ "" then m.payloadTxt.getD ""
  else if m.rawPayload.getD "" ≠ "" then m.rawPayload.getD ""
  else ""

/-- `msg.from_details` property: the cache, or `Contact.from_header` of the
`From` header. -/
def Msg.from_details (m : Msg) : Except SipErr Contact :=
  match m.fromCache with
  | some c => .ok c
  | none =>
    match hGet? m.headers "From" with
    | some (.one s) =>
      match parseContact s with
      | some c => .ok c
      | none => .error (.valueError "contact parse")
    | some (.many _) => .error .typeError
    | none => .error .keyError

/-- `msg.to_details` property. -/
def Msg.to_details (m : Msg) : Except SipErr Contact :=
  match m.toCache with
  | some c => .ok c
  | none =>
    match hGet? m.headers "To" with
    | some (.one s) =>
      match parseContact s with
      | some c => .ok c
      | none => .error (.valueError "contact parse")
    | some (.many _) => .error .typeError
    | none => .error .keyError

/-- `msg.contact_details` property: the cache, the parsed `Contact` header,
or `None`. -/
def Msg.contact_details (m : Msg) : Except SipErr (Option Contact) :=
  match m.contactCache with
  | some c => .ok (some c)
  | none =>
    match hGet? m.headers "Contact" with
    | some (.one s) =>
      match parseContact s with
      | some c => .ok (some c)
      | none => .error (.valueError "contact parse")
    | some (.many _) => .error .typeError
    | none => .ok none

/-- `msg.cseq` property: the cache, or `int(headers['CSeq'].split(' ')[0])`. -/
def Msg.cseq (m : Msg) : Except SipErr Nat :=
  match m.cseqCache with
  | some c => .ok c
  | none =>
    match hGet? m.headers "CSeq" with
    | some (.one s) =>
      match (s.toList.splitOn ' ').head? with
      | some w =>
        match pyToNat? w.asString with
        | some n => .ok n
        | none => .error (.valueError "int")
      | none => .error (.valueError "int")
    | some (.many _) => .error .attributeError
    | none => .error .keyError

/-- `msg.method` property: the cache, or `headers['CSeq'].split(' ')[1]`. -/
def Msg.method (m : Msg) : Except SipErr String :=
  match m.methodCache with
  | some me => .ok me
  | none =>
    match hGet? m.headers "CSeq" with
    | some (.one s) =>
      match (s.toList.splitOn ' ').get? 1 with
      | some w => .ok w.asString
      | none => .error .indexError
    | some (.many _) => .error .attributeError
    | none => .error .keyError

/-- The byte string `encode()` appends after the headers (`_raw_payload`
after the re-encoding step at the top of `Message.encode`). -/
def Msg.encodedBody (m : Msg) : String :=
  if m.payloadTxt.getD "" ≠ "" then m.payloadTxt.getD ""
  else m.rawPayload.getD ""

/-- Placeholder for `utils.gen_branch(10)`: a fresh random token whose value
nothing here depends on. -/
def genBranch : String := "z9hG4bKrand"

/-- Placeholder for `uuid.uuid4()`. -/
def genUUID : String := "uuid-placeholder"

/-- The `Via` template `Message.__init__` installs when no `Via` header is
present. -/
def viaTemplate (c : Contact) : String :=
  "SIP/2.0/%(protocol)s " ++ formatHostAndPort c.uri.host c.uri.port ++
    ";branch=" ++ genBranch

/-- `Message.__init__`: require `From`/`To` context, remember explicit
details, and install a `Via` template (off the contact details) when no `Via`
header is present.  The returned record still has an empty first line; the
`Request`/`Response` constructors fill it in. -/
def message_init (headers : Headers) (payload : Option String)
    (from_details to_details contact_details : Option Contact) :
    Except SipErr Msg := do
  if from_details.isNone ∧ ¬ hContains headers "From" then
    throw (.valueError "From header or from_details is required")
  if to_details.isNone ∧ ¬ hContains headers "To" then
    throw (.valueError "To header or to_details is required")
  let m0 : Msg :=
    { headers := headers, payloadTxt := payload, rawPayload := none,
      fromCache := from_details, toCache := to_details,
      contactCache := contact_details, cseqCache := none, methodCache := none,
      statusCode := none, statusMessage := none, firstLine := "",
      compact := false }
  if hContains headers "Via" then
    pure m0
  else do
    let cd ← m0.contact_details
    match cd with
    | none => throw .typeError
    | some c =>
      pure { m0 with contactCache := some c,
                     headers := hSet m0.headers "Via" (.one (viaTemplate c)) }

/-- `Request.__init__`. -/
def request_init (method : String) (cseq : Nat)
    (from_details to_details contact_details : Option Contact)
    (headers : Headers) (payload : Option String) (first_line : Option String) :
    Except SipErr Msg := do
  let base ← message_init headers payload from_details to_details contact_details
  let m := { base with methodCache := some (toUpperStr method),
                       cseqCache := some cseq }
  match first_line with
  | some fl => pure { m with firstLine := fl }
  | none => do
    let td ← m.to_details
    pure { m with toCache := some td,
                  firstLine := toUpperStr method ++ " " ++ shortUri td.uri ++
                    " SIP/2.0" }

/-- Modelled from the spec: the slice of `utils.STATUS` this development
touches (`utils.py` is outside the source); `utils.STATUS[code]` raises
`KeyError` for unknown codes. -/
def statusLookup (code : Nat) : Except SipErr String :=
  match (([(100, "Trying"), (180, "Ringing"), (200, "OK"),
          (401, "Unauthorized"), (404, "Not Found"), (486, "Busy Here"),
          (500, "Internal Server Error")] : List (Nat × String)).find?
          (fun e => e.1 == code)).map (·.2) with
  | some s => .ok s
  | none => .error .keyError

/-- `Response.__init__` (`compact := true` builds a
`CompactHeaderResponse`, which only overrides `_format_headers`). -/
def response_init (status_code : Nat) (status_message : Option String)
    (headers : Headers) (from_details to_details contact_details : Option Contact)
    (payload : Option String) (cseq : Option Nat) (method : Option String)
    (first_line : Option String) (compact : Bool) : Except SipErr Msg := do
  let base ← message_init headers payload from_details to_details contact_details
  let sm ← if status_message.getD "" ≠ "" then pure (status_message.getD "")
           else statusLookup status_code
  let m := { base with compact := compact }
  let m ← if cseq.getD 0 ≠ 0 then pure { m with cseqCache := cseq }
          else if ¬ hContains m.headers "CSeq" then
            throw (.valueError "CSeq header or cseq is required")
          else pure m
  let m ← if method.getD "" ≠ "" then pure { m with methodCache := method }
          else if ¬ hContains m.headers "CSeq" then
            throw (.valueError "CSeq header or method is required")
          else pure m
  let m := { m with statusCode := some status_code, statusMessage := some sm }
  match first_line with
  | some fl => pure { m with firstLine := fl }
  | none =>
    pure { m with firstLine := "SIP/2.0 " ++ pyStr status_code ++ " " ++ sm }

/-! ## Serialization (`_make_headers`, `_format_headers`, `encode`) -/

/-- Render the header lines of one `(name, value)` entry. -/
def renderEntry (e : String × HVal) : List String :=
  match e.2 with
  | .one s => [e.1 ++ ": " ++ s]
  | .many l => l.map (fun s => e.1 ++ ": " ++ s)

/-- The sort relation of Python `sorted(headers.items())`: code-point order
on the displayed names.  (Python breaks ties on the values; every message
this code base builds has case-insensitively unique names, so ties cannot
arise.) -/
def hdrRel (a b : String × HVal) : Prop := nameLe a.1 b.1 = true

instance : DecidableRel hdrRel := fun a b => decEq (nameLe a.1 b.1) true

/-- One iteration of the `_format_headers` loop: `Via` entries are prepended
to the accumulator (multi-values as a block, in order), all other entries are
appended. -/
def formatStep (acc : List String) (e : String × HVal) : List String :=
  if e.1 = "Via" then renderEntry e ++ acc
  else acc ++ renderEntry e

/-- `Message._format_headers` up to the final `EOL.join`: the emitted header
lines in order. -/
def format_headers (h : Headers) : List String :=
  (List.insertionSort hdrRel h).foldl formatStep []

/-- One iteration of the `CompactHeaderResponse._format_headers` loop: like
`formatStep` but every aliasable displayed name is replaced by its compact
form. -/
def formatStepCompact (acc : List String) (e : String × HVal) : List String :=
  if e.1 = "Via" then renderEntry ((longToCompact e.1).getD e.1, e.2) ++ acc
  else acc ++ renderEntry ((longToCompact e.1).getD e.1, e.2)

/-- `CompactHeaderResponse._format_headers` up to the final `EOL.join`. -/
def compact_format_headers (h : Headers) : List String :=
  (List.insertionSort hdrRel h).foldl formatStepCompact []

/-- First stage of `Message._make_headers`: write the cached details back
into the header map. -/
def make_headers_details (m : Msg) : Headers :=
  let h := m.headers
  let h := match m.fromCache with
    | some c => hSet h "From" (.one (printContact c))
    | none => h
  let h := match m.toCache with
    | some c => hSet h "To" (.one (printContact c))
    | none => h
  match m.contactCache with
  | some c => hSet h "Contact" (.one (printContact c))
  | none => h

/-- Second stage of `Message._make_headers`: when a cseq or method is
cached, write `CSeq` from the `cseq` and `method` properties (the `cseq`
property is evaluated first, as in `'%s %s' % (self.cseq, self.method)`). -/
def make_headers_cseq (m : Msg) (h : Headers) : Except SipErr Headers :=
  if m.cseqCache.isSome ∨ m.methodCache.isSome then
    match { m with headers := h }.cseq, { m with headers := h }.method with
    | .ok c, .ok me => .ok (hSet h "CSeq" (.one (pyStr c ++ " " ++ me)))
    | .error e, _ => .error e
    | _, .error e => .error e
  else .ok h

/-- Last stage of `Message._make_headers`: publish `Content-Length` and
default `Max-Forwards` and `Call-ID`. -/
def make_headers_tail (h : Headers) (clVal : String) : Headers :=
  let h := hSet h "Content-Length" (.one clVal)
  let h := if ¬ hContains h "Max-Forwards" then hSet h "Max-Forwards" (.one "70")
           else h
  if ¬ hContains h "Call-ID" then hSet h "Call-ID" (.one genUUID) else h

/-- `Message._make_headers`. -/
def make_headers (m : Msg) : Except SipErr Headers :=
  match make_headers_cseq m (make_headers_details m) with
  | .ok h => .ok (make_headers_tail h (pyStr m.encodedBody.utf8ByteSize))
  | .error e => .error e

/-- The header lines `encode()` emits (compact form for a
`CompactHeaderResponse`). -/
def Msg.header_lines (m : Msg) : Except SipErr (List String) := do
  let h ← make_headers m
  pure (if m.compact then compact_format_headers h else format_headers h)

/-- The first line plus the header lines of the encoded form.  Joining this
list with `EOL` yields the raw block the transport hands to
`Message.from_raw_headers`, whose own `decode().split(EOL)` recovers the
list exactly when no line contains an embedded `'\r\n'` (otherwise the
split tears the line apart). -/
def Msg.enc_lines (m : Msg) : Except SipErr (List String) := do
  pure (m.firstLine :: (← m.header_lines))

/-- `encode()`: first line, `EOL`, header block (whose join contributes the
blank separator line), then the raw payload. -/
def Msg.encode (m : Msg) : Except SipErr String := do
  let hl ← m.header_lines
  pure (m.firstLine ++ EOL ++ String.intercalate EOL (hl ++ [EOL]) ++
    m.encodedBody)

/-! ## Parsing (`FIRST_LINE_PATTERN` and `Message.from_raw_headers`) -/

/-- `re.match` of `^SIP/2.0 (\d{3}) (.+)` against a start line (the `.` of
the pattern stops at a newline; the match is not anchored at the end of the
line, but `.+` is greedy, so the status message runs to the first newline or
the end). -/
def parseRespLine (line : String) : Option (Nat × String) :=
  match line.toList with
  | 'S' :: 'I' :: 'P' :: '/' :: '2' :: '.' :: '0' :: ' ' ::
      d1 :: d2 :: d3 :: ' ' :: rest =>
    if d1.isDigit ∧ d2.isDigit ∧ d3.isDigit then
      let msgTxt := rest.takeWhile (fun c => c ≠ '\n')
      if msgTxt = [] then none
      else some (100 * digitVal d1 + 10 * digitVal d2 + digitVal d3,
                 msgTxt.asString)
    else none
  | _ => none

/-- Scanner for the tail of the request pattern `(.+) SIP/2.0`: some
non-empty run of non-newline characters followed by the literal
`" SIP/2.0"`. -/
def reqTailCheck : List Char → Bool
  | [] => false
  | c :: rest =>
    c ≠ '\n' &&
      ((" SIP/2.0".toList.isPrefixOf rest) || reqTailCheck rest)

/-- `re.match` of `^([A-Za-z]+) (.+) SIP/2.0` against a start line, returning
the method (the `to_uri` group is not used by `from_raw_headers`). -/
def parseReqLine (line : String) : Option String :=
  let cs := line.toList
  let meth := cs.takeWhile Char.isAlpha
  let rest := cs.drop meth.length
  match rest with
  | ' ' :: tail => if meth ≠ [] ∧ reqTailCheck tail then some meth.asString
                   else none
  | _ => none

/-- `cseq, _ = headers['CSeq'].split()` followed by `int(cseq)` in
`from_raw_headers`: requires exactly two whitespace-separated fields. -/
def cseqFromHeaders (h : Headers) : Except SipErr Nat :=
  match hGet? h "CSeq" with
  | none => throw .keyError
  | some (.many _) => throw .attributeError
  | some (.one s) =>
    match splitWs s with
    | [a, _] =>
      match pyToNat? a with
      | some n => pure n
      | none => throw (.valueError "int")
    | _ => throw (.valueError "unpack")

/-- The header-folding loop of `Message.from_raw_headers`: each line is
split at `': '` (raising on failure) and merged into the map. -/
def parse_header_lines (h : Headers) (lines : List String) :
    Except SipErr Headers :=
  lines.foldlM
    (fun h line =>
      match splitHeaderLine line with
      | none => throw (.valueError "unpack")
      | some (k, v) => pure (addHeaderLine h k v))
    h

/-- `Message.from_raw_headers` after the initial `decode().split(EOL)`: fold
the header lines into a map (merging duplicates, normalizing compact names),
then dispatch on the start line. -/
def from_lines (lines : List String) : Except SipErr Msg := do
  match lines with
  | [] => throw .indexError
  | first :: rest => do
    let headers ← parse_header_lines [] rest
    match parseRespLine first with
    | some (code, msgText) =>
      response_init code (some msgText) headers none none none none none none
        (some first) false
    | none =>
      match parseReqLine first with
      | some meth => do
        let cs ← cseqFromHeaders headers
        request_init meth cs none none none headers none (some first)
      | none => throw (.valueError "Not a SIP message")

/-- `Message.from_raw_headers` on the raw byte block (modelled as text). -/
def from_raw_headers (raw : String) : Except SipErr Msg :=
  from_lines ((splitCRLF raw.toList).map List.asString)

instance {ε α : Type} [DecidableEq ε] [DecidableEq α] :
    DecidableEq (Except ε α) := fun a b =>
  match a, b with
  | .ok x, .ok y =>
    if h : x = y then isTrue (by rw [h])
    else isFalse (by intro hc; cases hc; exact h rfl)
  | .error x, .error y =>
    if h : x = y then isTrue (by rw [h])
    else isFalse (by intro hc; cases hc; exact h rfl)
  | .ok _, .error _ => isFalse (by intro hc; cases hc)
  | .error _, .ok _ => isFalse (by intro hc; cases hc)

/-! ## Application collaborators (`dialog.py` context)

The `Application` is outside the source; per the spec it provides `defaults`
(`user_agent`, `dialog_closing_delay`), the mutable `dialogs` registry keyed
by the frozenset dialog id, and the event loop.  The registry is modelled as
an association list from canonical key lists (compared as sets, like
`frozenset`) to dialog object identities. -/

structure AppDefaults where
  user_agent : String
  dialog_closing_delay : Nat
deriving DecidableEq

/-- A dialog id: the underlying elements of the Python `frozenset`
(`None`-able tags and the call id), deduplicated in insertion order and
compared as sets. -/
abbrev DKey := List (Option String)

/-- Build the frozenset of `(to_tag, from_tag, call_id)`. -/
def mkKey (toTag fromTag : Option String) (callId : String) : DKey :=
  ([toTag, fromTag, some callId]).foldl
    (fun acc x => if x ∈ acc then acc else acc ++ [x]) []

/-- `frozenset` equality: same elements. -/
def keyEq (x y : DKey) : Bool := x.all (· ∈ y) && y.all (· ∈ x)

abbrev Registry := List (DKey × Nat)

/-- `app._dialogs[k]` lookup. -/
def regGet? (r : Registry) (k : DKey) : Option Nat :=
  (r.find? (fun e => keyEq e.1 k)).map (·.2)

/-- `del app._dialogs[k]`: `none` models the `KeyError` on a missing key. -/
def regDel (r : Registry) (k : DKey) : Option Registry :=
  if r.any (fun e => keyEq e.1 k) then
    some (r.filter (fun e => ¬ keyEq e.1 k))
  else none

/-- `app._dialogs[k] = v`. -/
def regSet : Registry → DKey → Nat → Registry
  | [], k, v => [(k, v)]
  | e :: rest, k, v =>
    if keyEq e.1 k then (k, v) :: rest else e :: regSet rest k v

/-! ## Digest authentication (spec-modelled: `auth.py` is outside the source) -/

/-- Modelled from the spec: the `AuthenticateAuth` challenge descriptor a 401
carries (nonce, realm, method, algorithm). -/
structure Authenticate where
  nonce : String
  realm : String
  method : String
  algorithm : String
deriving DecidableEq

/-- Modelled from the spec: the `AuthorizationAuth` block of an
`Authorization` header (username, uri, digest response). -/
structure Authorization where
  username : String
  uri : String
  response : String
deriving DecidableEq

/-- Modelled from the spec: the md5 digest primitive of `auth.py`, as an
injective concrete combiner of its inputs. -/
def digestOf (ch : Authenticate) (password username uri payload : String) :
    String :=
  String.intercalate "|"
    [ch.nonce, ch.realm, ch.algorithm, password, username, uri, payload]

/-- Modelled from the spec: `AuthenticateAuth.validate_authorization`
compares the block's digest with the one computed from the stored challenge,
the password, and the username/uri/payload. -/
def validate_authorization (ch : Authenticate) (a : Authorization)
    (password username uri payload : String) : Bool :=
  a.response == digestOf ch password username uri payload

/-- Render an `Authorization` block as a header value (the inverse of
`msgAuth?` on its range). -/
def printAuthorization (a : Authorization) : String :=
  printParams [("username", a.username), ("uri", a.uri),
               ("response", a.response)]

/-- Modelled from the spec: `Auth.from_message` yields an `AuthorizationAuth`
exactly when the message carries a (parsable) `Authorization` header. -/
def msgAuth? (m : Msg) : Option Authorization :=
  match hGet? m.headers "Authorization" with
  | some (.one s) =>
    match parseParams s.toList with
    | some ps =>
      match (ps.find? (fun e => e.1 == "username")).map (·.2),
            (ps.find? (fun e => e.1 == "uri")).map (·.2),
            (ps.find? (fun e => e.1 == "response")).map (·.2) with
      | some u, some ur, some r => some ⟨u, ur, r⟩
      | _, _, _ => none
    | none => none
  | _ => none

/-! ## `DialogBase` state and operations (`dialog.py`) -/

inductive CallState where
  | Calling
  | Proceeding
  | Completed
  | Terminated
deriving DecidableEq

/-- The mutable state of a `DialogBase`.  `selfId` stands for the Python
object identity stored as the registry value.  `original_method` is
`original_msg.method`; `original_msg.to_details` / `from_details` are the
same objects as `self.to_details` / `self.from_details` (aliasing through
`_prepare_request`), so the dialog id is computed from the latter.
`closing` is the pending timed-close delay (`None` after a cancel: a
cancelled task never fires). -/
structure Dialog where
  selfId : Nat
  app : AppDefaults
  from_details : Contact
  to_details : Contact
  contact_details : Contact
  call_id : String
  password : Option String
  cseq : Nat
  inbound : Bool
  transactions : List ((String × Nat) × Bool)
  auth : Option Authenticate
  original_method : String
  closed : Bool
  closing : Option Nat
deriving DecidableEq

/-- `DialogBase.dialog_id`: the frozenset of the to-tag (`.get`, so
possibly `None`), the from-tag and the call id. -/
def Dialog.dialog_id (d : Dialog) : DKey :=
  mkKey (paramGet? d.to_details "tag") (paramGet? d.from_details "tag")
    d.call_id

/-- `DialogBase._prepare_request`: bump the cseq unless an explicit (truthy)
one is given, default `User-Agent`, pin `Call-ID`, and build the `Request`.
Returns the mutated dialog and the request (or the constructor's error). -/
def prepare_request (d : Dialog) (method : String)
    (contact_details : Option Contact) (headers : Headers)
    (payload : Option String) (cseq : Option Nat)
    (to_details : Option Contact) : Dialog × Except SipErr Msg :=
  let d := if cseq.getD 0 = 0 then { d with cseq := d.cseq + 1 } else d
  let d := match contact_details with
    | some c => { d with contact_details := c }
    | none => d
  let headers := if ¬ hContains headers "User-Agent" then
      hSet headers "User-Agent" (.one d.app.user_agent)
    else headers
  let headers := hSet headers "Call-ID" (.one d.call_id)
  (d, request_init method (if cseq.getD 0 ≠ 0 then cseq.getD 0 else d.cseq)
       (some d.from_details) (some (to_details.getD d.to_details))
       (some d.contact_details) headers payload none)

/-- `DialogBase.ack`: copy the `Via` of the acknowledged message, then
prepare an `ACK` with that message's cseq and to-details and send it.  The
returned message is the one handed to `peer.send_message`. -/
def ack (d : Dialog) (m : Msg) (headers : Headers) :
    Dialog × Except SipErr Msg :=
  match hGet? m.headers "Via" with
  | none => (d, .error .keyError)
  | some via =>
    match m.cseq with
    | .error e => (d, .error e)
    | .ok mc =>
      match m.to_details with
      | .error e => (d, .error e)
      | .ok mto =>
        prepare_request d "ACK" none (hSet headers "Via" via) none (some mc)
          (some mto)

/-- `DialogBase.validate_auth`.  Accessing `self.auth.validate_authorization`
with no stored challenge is Python's `AttributeError` on `None`. -/
def validate_auth (d : Dialog) (m : Msg) (password : String) :
    Except SipErr Bool :=
  match msgAuth? m with
  | some a =>
    match d.auth with
    | none => .error .attributeError
    | some ch =>
      if validate_authorization ch a password a.username a.uri m.payload then
        .ok true
      else do
        let me ← m.method
        if me = "CANCEL" then pure true else pure false
  | none => do
    let me ← m.method
    if me = "CANCEL" then pure true else pure false

/-- Result of `close_later`: the dialog with the newly scheduled close, plus
whether a previously scheduled close was cancelled first. -/
structure CloseLaterOut where
  dialog : Dialog
  cancelledPrev : Bool
deriving DecidableEq

/-- `DialogBase.close_later`: default the delay from the application config,
cancel any pending close, schedule the new one. -/
def close_later (d : Dialog) (delay : Option Nat) : CloseLaterOut :=
  ⟨{ d with closing := some (delay.getD d.app.dialog_closing_delay) },
   d.closing.isSome⟩

/-- `DialogBase._maybe_close`.  `int(expire * 1.1)` is modelled as
`11 * expire / 10`, which agrees with the Python float computation for every
realistic `Expires` value. -/
def maybe_close (d : Dialog) (m : Msg) : Except SipErr CloseLaterOut := do
  let me ← m.method
  if (me = "REGISTER" ∨ me = "SUBSCRIBE") ∧ ¬ d.inbound then do
    let expire ← match hGet? m.headers "Expires" with
      | none => pure 0
      | some (.one s) =>
        match pyToNat? s with
        | some n => pure n
        | none => throw (.valueError "int")
      | some (.many _) => throw .typeError
    let delay := if expire ≠ 0 then some (11 * expire / 10) else none
    pure (close_later d delay)
  else if me = "NOTIFY" then
    pure ⟨d, false⟩
  else
    pure (close_later d none)

/-- Dialog-plus-registry state after `_close`. -/
structure CloseStateOut where
  dialog : Dialog
  registry : Registry
deriving DecidableEq

/-- `DialogBase._close`: cancel the pending timed close, close every live
transaction, and remove the dialog id from the registry, suppressing
`KeyError`. -/
def close_state (d : Dialog) (reg : Registry) : CloseStateOut :=
  let d := { d with closing := none,
                    transactions := d.transactions.map (fun t => (t.1, false)) }
  ⟨d, reg.filter (fun e => ¬ keyEq e.1 d.dialog_id)⟩

/-- `transactions[method][cseq] = transaction` with a fresh open
transaction. -/
def tSet : List ((String × Nat) × Bool) → String × Nat →
    List ((String × Nat) × Bool)
  | [], k => [(k, true)]
  | e :: rest, k => if e.1 == k then (k, true) :: rest else e :: tSet rest k

/-- Outcome of `Dialog.close`: final dialog and registry, the requests handed
to the transport, and the returned value or propagated exception. -/
structure DialogCloseOut where
  dialog : Dialog
  registry : Registry
  sent : List Msg
  result : Except SipErr (Option Msg)
deriving DecidableEq

/-- `Dialog.close(headers, fast)`.  The awaited transport outcome of the
deregistration `request` is a parameter (`outcome`): the peer and the event
loop are outside the source.  The `try/finally` of the source runs `_close`
on every exit path of the request; the non-deregistration paths run it
directly. -/
def dialog_close (d : Dialog) (reg : Registry) (headers : Headers)
    (fast : Bool) (outcome : Except SipErr Msg) : DialogCloseOut :=
  if d.closed then ⟨d, reg, [], .ok none⟩
  else
    let d := { d with closed := true }
    if ¬ fast ∧ ¬ d.inbound ∧
        (d.original_method = "REGISTER" ∨ d.original_method = "SUBSCRIBE") then
      let headers := if hContains headers "Expires" = true then headers
        else hSet headers "Expires" (.one "0")
      let pr := prepare_request d d.original_method none headers none none none
      match pr.2 with
      | .error e =>
        let cs := close_state pr.1 reg
        ⟨cs.dialog, cs.registry, [], .error e⟩
      | .ok msg =>
        let t2 := tSet pr.1.transactions
          (msg.methodCache.getD "", msg.cseqCache.getD 0)
        let d := { pr.1 with transactions := t2 }
        match outcome with
        | .ok resp =>
          let cs := close_state d reg
          let cs2 := close_state cs.dialog cs.registry
          ⟨cs2.dialog, cs2.registry, [msg], .ok (some resp)⟩
        | .error e =>
          let cs := close_state d reg
          ⟨cs.dialog, cs.registry, [msg], .error e⟩
    else
      let cs := close_state d reg
      ⟨cs.dialog, cs.registry, [], .ok none⟩

/-- Outcome of an inbound-response delivery. -/
structure ReceiveOut where
  dialog : Dialog
  registry : Registry
  delivered : Option ((String × Nat) × Msg)
  err : Option SipErr
deriving DecidableEq

/-- The `try/except KeyError` transaction dispatch at the bottom of
`_receive_response`.  `transactions` is a `defaultdict`, so only the cseq
lookup can raise the caught `KeyError`; a `KeyError` out of the `msg.method`
property is caught and then re-raised by the handler's own `msg.method`
access. -/
def deliverToTransaction (d : Dialog) (reg : Registry) (m : Msg) :
    ReceiveOut :=
  match m.method with
  | .error e => ⟨d, reg, none, some e⟩
  | .ok me =>
    match m.cseq with
    | .error .keyError => ⟨d, reg, none, none⟩
    | .error e => ⟨d, reg, none, some e⟩
    | .ok mc =>
      if (d.transactions.find? (fun t => t.1 == (me, mc))).isSome then
        ⟨d, reg, some ((me, mc), m), none⟩
      else ⟨d, reg, none, none⟩

/-- `DialogBase._receive_response`: when the remote tag is unknown, delete
the old registry key, store the tag taken from the message, and re-insert
under the new key — then dispatch to the matching transaction.  Each partial
mutation before an exception persists. -/
def receive_response (d : Dialog) (reg : Registry) (m : Msg) : ReceiveOut :=
  if ¬ hasTag d.to_details then
    match regDel reg d.dialog_id with
    | none => ⟨d, reg, none, some .keyError⟩
    | some reg1 =>
      match m.to_details with
      | .error e => ⟨d, reg1, none, some e⟩
      | .ok mto =>
        match paramGet? mto "tag" with
        | none => ⟨d, reg1, none, some .keyError⟩
        | some tg =>
          let d := { d with to_details :=
            ⟨d.to_details.uri, paramSet d.to_details.params "tag" tg⟩ }
          deliverToTransaction d (regSet reg1 d.dialog_id d.selfId) m
  else deliverToTransaction d reg m

/-! ## `Dialog` variant inbound handling and the outbound cseq discipline -/

/-- Whether a message is a `Response` object (`isinstance(msg, Response)`):
in this model, exactly the messages carrying a status code. -/
def Msg.isResponse (m : Msg) : Bool := m.statusCode.isSome

/-- An outbound operation a `Dialog` can perform between inbound deliveries,
as far as the cseq counter is concerned. -/
inductive DialogOp where
  | request : String → DialogOp
  | ackResp : Nat → DialogOp
  | recv : Nat → DialogOp

/-- One step of the cseq discipline: `request(method)` goes through
`_prepare_request` with no explicit cseq; `ack(msg)` goes through it with
`cseq=msg.cseq`; `receive_message` raises the counter to the incoming cseq
(`if self.cseq < msg.cseq: self.cseq = msg.cseq`).  Emits the
`(is_ack, cseq)` of any request handed to the transport. -/
def opStep (d : Dialog) : DialogOp → Dialog × List (Bool × Nat)
  | .request me =>
    let pr := prepare_request d me none [] none none none
    (pr.1, match pr.2 with
      | .ok msg => [(false, msg.cseqCache.getD 0)]
      | .error _ => [])
  | .ackResp rc =>
    let pr := prepare_request d "ACK" none [("Via", .one "SIP/2.0/UDP h")]
      none (some rc) none
    (pr.1, match pr.2 with
      | .ok msg => [(true, msg.cseqCache.getD 0)]
      | .error _ => [])
  | .recv mc => (if d.cseq < mc then { d with cseq := mc } else d, [])

/-- Run a sequence of operations, collecting the emitted `(is_ack, cseq)`
pairs in order. -/
def runOps : Dialog → List DialogOp → Dialog × List (Bool × Nat)
  | d, [] => (d, [])
  | d, op :: rest =>
    let s := opStep d op
    let r := runOps s.1 rest
    (r.1, s.2 ++ r.2)

/-! ## `InviteDialog` (`dialog.py`): the INVITE client state machine -/

/-- The state of an `InviteDialog`: the base dialog plus the call state, the
user-visible inbound queue and the `ready()` waiter future. -/
structure InvDialog where
  d : Dialog
  state : CallState
  queue : List Msg
  waiter : Option Msg
deriving DecidableEq

/-- Outcome of `InviteDialog.receive_message`: the new state and registry,
the `ACK` requests handed to the transport, any transaction delivery, and
any exception that escaped (partial mutations persist). -/
structure InvOut where
  s : InvDialog
  registry : Registry
  acks : List Msg
  delivered : Option ((String × Nat) × Msg)
  err : Option SipErr
deriving DecidableEq

/-- The nested `set_result` of `receive_message`: ACK the message and
complete the waiter if it is not already done. -/
def invite_set_result (s : InvDialog) (reg : Registry) (m : Msg) : InvOut :=
  let ackr := ack s.d m []
  match ackr.2 with
  | .error e => ⟨{ s with d := ackr.1 }, reg, [], none, some e⟩
  | .ok amsg =>
    ⟨{ s with d := ackr.1,
              waiter := if s.waiter.isNone then some m else s.waiter },
     reg, [amsg], none, none⟩

/-- Tail of `InviteDialog._receive_request`: apply `_maybe_close` to the
already-updated dialog. -/
def invite_receive_request_tail (s : InvDialog) (reg : Registry)
    (d' : Dialog) (m : Msg) : InvOut :=
  match maybe_close d' m with
  | .error e => ⟨{ s with d := d' }, reg, [], none, some e⟩
  | .ok out => ⟨{ s with d := out.dialog }, reg, [], none, none⟩

/-- `InviteDialog._receive_request`: remember the remote tag from
`From: tag`, mark the dialog closed on `BYE`, and apply `_maybe_close`. -/
def invite_receive_request (s : InvDialog) (reg : Registry) (m : Msg) :
    InvOut :=
  match m.from_details with
  | .error e => ⟨s, reg, [], none, some e⟩
  | .ok mfrom =>
    let d := match paramGet? mfrom "tag" with
      | some tg =>
        { s.d with to_details :=
          ⟨s.d.to_details.uri, paramSet s.d.to_details.params "tag" tg⟩ }
      | none => s.d
    match m.method with
    | .error e => ⟨{ s with d := d }, reg, [], none, some e⟩
    | .ok me =>
      invite_receive_request_tail s reg
        (if me = "BYE" then { d with closed := true } else d) m

/-- The per-state dispatch of `receive_message` (everything after the
enqueue). -/
def invite_dispatch (s : InvDialog) (reg : Registry) (m : Msg) : InvOut :=
  match s.state with
  | .Calling =>
    match m.statusCode with
    | none => ⟨s, reg, [], none, some .attributeError⟩
    | some sc =>
      if 100 ≤ sc ∧ sc < 200 then
        ⟨{ s with state := .Proceeding }, reg, [], none, none⟩
      else if sc = 200 then
        invite_set_result { s with state := .Terminated } reg m
      else if 300 ≤ sc ∧ sc < 700 then
        invite_set_result { s with state := .Completed } reg m
      else ⟨s, reg, [], none, none⟩
  | .Proceeding =>
    match m.statusCode with
    | none => ⟨s, reg, [], none, some .attributeError⟩
    | some sc =>
      if 100 ≤ sc ∧ sc < 200 then ⟨s, reg, [], none, none⟩
      else if sc = 200 then
        invite_set_result { s with state := .Terminated } reg m
      else if 300 ≤ sc ∧ sc < 700 then
        invite_set_result { s with state := .Completed } reg m
      else ⟨s, reg, [], none, none⟩
  | .Completed =>
    let ackr := ack s.d m []
    match ackr.2 with
    | .error e => ⟨{ s with d := ackr.1 }, reg, [], none, some e⟩
    | .ok amsg => ⟨{ s with d := ackr.1 }, reg, [amsg], none, none⟩
  | .Terminated =>
    if m.isResponse then
      let ro := receive_response s.d reg m
      ⟨{ s with d := ro.dialog }, ro.registry, [], ro.delivered, ro.err⟩
    else
      match m.method with
      | .error e => ⟨s, reg, [], none, some e⟩
      | .ok me =>
        if me = "ACK" then
          let ro := receive_response s.d reg m
          ⟨{ s with d := ro.dialog }, ro.registry, [], ro.delivered, ro.err⟩
        else invite_receive_request s reg m

/-- `InviteDialog.receive_message`: re-key when the remote tag is unknown and
the message carries a `To: tag` (both conditions checked here, unlike the
base `_receive_response`), enqueue the message, then dispatch by state. -/
def invite_receive_message (s : InvDialog) (reg : Registry) (m : Msg) :
    InvOut :=
  if ¬ hasTag s.d.to_details then
    match m.to_details with
    | .error e => ⟨s, reg, [], none, some e⟩
    | .ok mto =>
      match paramGet? mto "tag" with
      | some tg =>
        match regDel reg s.d.dialog_id with
        | none => ⟨s, reg, [], none, some .keyError⟩
        | some reg1 =>
          let d := { s.d with to_details :=
            ⟨s.d.to_details.uri, paramSet s.d.to_details.params "tag" tg⟩ }
          let s := { s with d := d }
          let reg2 := regSet reg1 d.dialog_id d.selfId
          invite_dispatch { s with queue := s.queue ++ [m] } reg2 m
      | none => invite_dispatch { s with queue := s.queue ++ [m] } reg m
  else invite_dispatch { s with queue := s.queue ++ [m] } reg m

/-- The initial invite state (`InviteDialog.__init__`): state `Calling`,
empty queue, pending waiter. -/
def invite_init (d : Dialog) : InvDialog := ⟨d, .Calling, [], none⟩

/-- The waiter invariant of an `InviteDialog`: while the state machine is
still in `Calling` or `Proceeding`, the `ready()` waiter is pending — so the
first final response really is delivered to it. -/
def InvWF (s : InvDialog) : Prop :=
  (s.state = .Calling ∨ s.state = .Proceeding) → s.waiter = none

/-- The dialog state right before the `finally` `_close` on the
deregistration path of `Dialog.close`: the prepared request's dialog with
the new transaction installed. -/
def close_dereg_dialog (d : Dialog) (hh : Headers) (msg : Msg) : Dialog :=
  { (prepare_request d d.original_method none hh none none none).1 with
    transactions :=
      tSet (prepare_request d d.original_method none hh none none
        none).1.transactions
        (msg.methodCache.getD "", msg.cseqCache.getD 0) }

/-- The cseq values of the non-ACK requests among a list of emissions. -/
def reqCs (l : List (Bool × Nat)) : List Nat :=
  (l.filter (fun e => ¬ e.1)).map (·.2)

/-! ## Analysis helpers for the wire format

These definitions name the pieces the serializer's fold produces; they are
stated over the source definitions above. -/

/-- Case-insensitively distinct keys: the invariant `CIMultiDict` maintains
for every map this code base builds (at most one entry per name). -/
def ciNodupKeys (h : Headers) : Prop :=
  h.Pairwise (fun a b => ciEq a.1 b.1 = false)

instance : DecidablePred ciNodupKeys := fun h =>
  inferInstanceAs (Decidable (h.Pairwise _))

/-- The block of lines contributed by the `Via`-named entries of a fold over
`l` with per-entry renderer `g`, blocks in reversed entry order (each
prepend puts a later `Via` entry in front of the earlier ones). -/
def viaRevJoin (g : String × HVal → List String) (l : Headers) : List String :=
  (((l.filter (fun e => e.1 == "Via")).map g).reverse).flatten

/-- The block of lines contributed by the non-`Via` entries, in entry
order. -/
def nonViaJoin (g : String × HVal → List String) (l : Headers) : List String :=
  ((l.filter (fun e => ¬ (e.1 == "Via"))).map g).flatten

/-- The display entry `CompactHeaderResponse._format_headers` renders: the
name replaced by its compact alias when one exists. -/
def compactDisp (e : String × HVal) : String × HVal :=
  ((longToCompact e.1).getD e.1, e.2)

/-- How `addHeaderLine` grows the stored value of a name that repeats:
the second occurrence turns a string into a two-element list, later ones
append. -/
def growVal (c : HVal) (v : String) : HVal :=
  match c with
  | .one s => .many [s, v]
  | .many l => .many (l ++ [v])

/-- No whitespace characters in a string. -/
def allNoWs (s : String) : Prop := ∀ c ∈ s.toList, c.isWhitespace = false

/-- Only ASCII letters in a string (the `[A-Za-z]+` of the request-line
pattern). -/
def allAlpha (s : String) : Prop := ∀ c ∈ s.toList, c.isAlpha = true

/-- No newline characters in a string (the `.` of the first-line patterns
stops at a newline). -/
def noNl (s : String) : Prop := ∀ c ∈ s.toList, c ≠ '\n'

/-- A header name that survives the encode/parse cycle: non-empty, free of
the `': '` separator and of newlines (the raw block is split at `'\r\n'`
before the lines are split at `': '`), and not a compact alias (so the
parser's normalization leaves it unchanged). -/
def keyWF (k : String) : Prop :=
  k ≠ "" ∧ hasColonSpace k.toList = false ∧
  compactLookup (toLowerStr k) = none ∧ noNl k

/-- A header value that survives the cycle: newline-free (values containing
`'\r\n'` would be torn apart by the raw-block split), and a multi-value
needs at least two items, since the parser only builds a list when a name
repeats. -/
def valWF : HVal → Prop
  | .one s => noNl s
  | .many l => 2 ≤ l.length ∧ ∀ s ∈ l, noNl s

/-- A header map that survives the cycle. -/
def headersWF (h : Headers) : Prop :=
  ciNodupKeys h ∧ ∀ e ∈ h, keyWF e.1 ∧ valWF e.2

/-- A contact value whose printed form parses back to itself. -/
def contactRT (c : Contact) : Prop := parseContact (printContact c) = some c

/-- Well-formedness of the contact-details argument: an explicit contact
must round-trip; with no explicit contact, either a `Via` header is present
(so `__init__` resolves nothing) or the `Contact` header holds a
round-tripping printed contact for the `Via` template to be built from. -/
def contactArgWF (headers : Headers) (cd : Option Contact) : Prop :=
  match cd with
  | some c => contactRT c ∧ noNl (printContact c)
  | none => hContains headers "Via" = true ∨
      ∃ c, hGet? headers "Contact" = some (.one (printContact c)) ∧ contactRT c

/-- The constructor-level description of a message this code base can build:
the arguments of `Request(...)` or `Response(...)` (a `CompactHeaderResponse`
when `compact` is set). -/
inductive MsgSpec where
  | req (method : String) (cseq : Nat) (fromD toD : Contact)
      (contactD : Option Contact) (headers : Headers) (payload : Option String)
  | resp (status : Nat) (reason : String) (fromD toD : Contact)
      (contactD : Option Contact) (headers : Headers) (payload : Option String)
      (cseq : Nat) (method : String) (compact : Bool)

/-- Run the described constructor. -/
def buildMsg : MsgSpec → Except SipErr Msg
  | .req me c f t cd hs p => request_init me c (some f) (some t) cd hs p none
  | .resp st re f t cd hs p c me compact =>
      response_init st (some re) hs (some f) (some t) cd p (some c) (some me)
        none compact

/-- Well-formedness of the constructor arguments: headers and contacts
survive the cycle, the status is three digits, reason and method are
non-empty and free of the delimiters the first-line patterns and
`CSeq`-splitting key on, and the cseq of a response is non-zero (a zero is
falsy and would be dropped by the constructor). -/
def specWF : MsgSpec → Prop
  | .req me _ f t cd hs _ =>
      headersWF hs ∧ contactRT f ∧ contactRT t ∧ contactArgWF hs cd ∧
      me ≠ "" ∧ allAlpha me ∧ toUpperStr me = me ∧ noNl (shortUri t.uri) ∧
      noNl (printContact f) ∧ noNl (printContact t)
  | .resp st re f t cd hs _ c me _ =>
      headersWF hs ∧ contactRT f ∧ contactRT t ∧ contactArgWF hs cd ∧
      100 ≤ st ∧ st ≤ 999 ∧ re ≠ "" ∧ noNl re ∧
      c ≠ 0 ∧ me ≠ "" ∧ allNoWs me ∧
      noNl (printContact f) ∧ noNl (printContact t)

instance : DecidablePred allNoWs := fun s =>
  inferInstanceAs (Decidable (∀ c ∈ s.toList, _))

instance : DecidablePred allAlpha := fun s =>
  inferInstanceAs (Decidable (∀ c ∈ s.toList, _))

instance : DecidablePred noNl := fun s =>
  inferInstanceAs (Decidable (∀ c ∈ s.toList, _))

instance : DecidablePred keyWF := fun _ =>
  inferInstanceAs (Decidable (_ ∧ _ ∧ _ ∧ _))

instance : DecidablePred valWF := fun v =>
  match v with
  | .one s => inferInstanceAs (Decidable (noNl s))
  | .many l => inferInstanceAs (Decidable (_ ∧ _))

instance : DecidablePred headersWF := fun _ =>
  inferInstanceAs (Decidable (_ ∧ _))

instance : DecidablePred contactRT := fun _ =>
  inferInstanceAs (Decidable (_ = _))

/-- Agreement of the semantic accessors of two messages. -/
def accessorsAgree (m mp : Msg) : Prop :=
  mp.from_details = m.from_details ∧ mp.to_details = m.to_details ∧
  mp.contact_details = m.contact_details ∧ mp.cseq = m.cseq ∧
  mp.method = m.method ∧ mp.statusCode = m.statusCode ∧
  mp.statusMessage = m.statusMessage

/-- The header name of an emitted wire line (the part before `': '`). -/
def lineKey (line : String) : String :=
  match splitHeaderLine line with
  | some p => p.1
  | none => ""

/-- Whether a wire line is a `Via` line under case-insensitive naming. -/
def isViaLine (line : String) : Bool := ciEq (lineKey line) "Via"

/-- Whether every (case-insensitive) `Via` line precedes every other line. -/
def viaFirstLines (lines : List String) : Bool :=
  (lines.dropWhile isViaLine).all (fun l => ¬ isViaLine l)

/-- Case-insensitive name comparison of two wire lines. -/
def ciNameLeLine (a b : String) : Bool :=
  clLe (lowerKey (lineKey a)) (lowerKey (lineKey b))

/-- Whether successive wire lines carry case-insensitively ascending
names. -/
def ciAscendingLines : List String → Bool
  | [] => true
  | [_] => true
  | a :: b :: rest => ciNameLeLine a b && ciAscendingLines (b :: rest)

/-! ## Concrete sample values (used by witnesses and counterexamples) -/

/-- A remote contact with a tag. -/
def cAlice : Contact := ⟨⟨"alice.example.com", some 5060⟩, [("tag", "atag")]⟩

/-- A local contact without a tag. -/
def cBob : Contact := ⟨⟨"bob.example.com", none⟩, []⟩

/-- A local contact with a tag (dialog-side from-details). -/
def cBobT : Contact := ⟨⟨"bob.example.com", none⟩, [("tag", "btag")]⟩

/-- Sample application defaults. -/
def appX : AppDefaults := ⟨"test-agent", 42⟩

/-- A sample outbound dialog: remote tag still unknown, one pending timed
close, one open transaction. -/
def dX : Dialog :=
  { selfId := 1, app := appX, from_details := cBobT, to_details := cBob,
    contact_details := cBob, call_id := "cid1", password := none, cseq := 5,
    inbound := false, transactions := [(("INVITE", 5), true)], auth := none,
    original_method := "REGISTER", closed := false, closing := some 7 }

/-- A registry holding `dX` under its current id. -/
def regX : Registry := [(dX.dialog_id, dX.selfId)]

/-- A well-formed inbound `200 OK` response (as `from_raw_headers` would
produce it) whose `To` carries a tag. -/
def respOf (status : Nat) (reason : String) (cseqv : Nat) (meth : String)
    (toHdr : String) : Msg :=
  { headers := [("Via", .one "SIP/2.0/UDP h"), ("From", .one "<sip:bob.example.com>;tag=btag"),
                ("To", .one toHdr), ("CSeq", .one (pyStr cseqv ++ " " ++ meth)),
                ("Call-ID", .one "cid1")],
    payloadTxt := none, rawPayload := none, fromCache := none, toCache := none,
    contactCache := none, cseqCache := none, methodCache := none,
    statusCode := some status, statusMessage := some reason,
    firstLine := "SIP/2.0 " ++ pyStr status ++ " " ++ reason, compact := false }

/-- A `200 OK` whose `To` carries the remote tag. -/
def resp200 : Msg := respOf 200 "OK" 5 "INVITE" "<sip:alice.example.com:5060>;tag=atag"

/-- A `202 Accepted`: final per the spec's `status ≥ 200`, yet handled by no
branch of the state machine. -/
def resp202 : Msg := respOf 202 "Accepted" 5 "INVITE" "<sip:alice.example.com:5060>;tag=atag"

/-- A `180 Ringing` provisional response. -/
def resp180 : Msg := respOf 180 "Ringing" 5 "INVITE" "<sip:alice.example.com:5060>;tag=atag"

/-- A response whose `To` carries no tag. -/
def respNoTag : Msg := respOf 200 "OK" 5 "REGISTER" "<sip:alice.example.com:5060>"

/-- A response with `CSeq: 0` (legal in SIP). -/
def respCseq0 : Msg := respOf 200 "OK" 0 "INVITE" "<sip:alice.example.com:5060>;tag=atag"

/-- A `200 OK` to a REGISTER with `Expires: 3600`. -/
def respRegExp3600 : Msg :=
  { respOf 200 "OK" 5 "REGISTER" "<sip:alice.example.com:5060>;tag=atag" with
    headers := [("Via", .one "SIP/2.0/UDP h"),
                ("From", .one "<sip:bob.example.com>;tag=btag"),
                ("To", .one "<sip:alice.example.com:5060>;tag=atag"),
                ("CSeq", .one "5 REGISTER"), ("Call-ID", .one "cid1"),
                ("Expires", .one "3600")] }

/-- A `200 OK` to a REGISTER with `Expires: 0`. -/
def respRegExp0 : Msg :=
  { respOf 200 "OK" 5 "REGISTER" "<sip:alice.example.com:5060>;tag=atag" with
    headers := [("Via", .one "SIP/2.0/UDP h"),
                ("From", .one "<sip:bob.example.com>;tag=btag"),
                ("To", .one "<sip:alice.example.com:5060>;tag=atag"),
                ("CSeq", .one "5 REGISTER"), ("Call-ID", .one "cid1"),
                ("Expires", .one "0")] }

/-- A message with a text payload. -/
def respHello : Msg := { respRegExp0 with payloadTxt := some "hello" }

/-- A sample stored challenge. -/
def chX : Authenticate := ⟨"nonce12345", "sip", "REGISTER", "md5"⟩

/-- A REGISTER request carrying an `Authorization` block whose digest
validates against `chX` and the password `"pw"`. -/
def regWithValidAuth : Msg :=
  { headers := [("Via", .one "SIP/2.0/UDP h"),
                ("From", .one "<sip:bob.example.com>;tag=btag"),
                ("To", .one "<sip:alice.example.com:5060>"),
                ("CSeq", .one "6 REGISTER"), ("Call-ID", .one "cid1"),
                ("Authorization", .one (printAuthorization
                  ⟨"u", "sip:x", digestOf chX "pw" "u" "sip:x" ""⟩))],
    payloadTxt := none, rawPayload := none, fromCache := none, toCache := none,
    contactCache := none, cseqCache := some 6, methodCache := some "REGISTER",
    statusCode := none, statusMessage := none,
    firstLine := "REGISTER sip:alice.example.com:5060 SIP/2.0",
    compact := false }

/-- `dX` with the challenge `chX` stored. -/
def dXch : Dialog := { dX with auth := some chX }

/-- A CANCEL request carrying an `Authorization` block. -/
def cancelWithAuth : Msg :=
  { headers := [("Via", .one "SIP/2.0/UDP h"),
                ("From", .one "<sip:bob.example.com>;tag=btag"),
                ("To", .one "<sip:alice.example.com:5060>"),
                ("CSeq", .one "6 CANCEL"), ("Call-ID", .one "cid1"),
                ("Authorization", .one (printAuthorization ⟨"u", "sip:x", "r"⟩))],
    payloadTxt := none, rawPayload := none, fromCache := none, toCache := none,
    contactCache := none, cseqCache := some 6, methodCache := some "CANCEL",
    statusCode := none, statusMessage := none,
    firstLine := "CANCEL sip:alice.example.com:5060 SIP/2.0", compact := false }

/-- A raw message whose `Via` header arrived spelled `via`. -/
def linesLowerVia : List String :=
  ["SIP/2.0 200 OK", "via: SIP/2.0/UDP h",
   "From: <sip:bob.example.com>;tag=b", "To: <sip:alice.example.com>",
   "CSeq: 3 OPTIONS"]

/-- The message parsed from `linesLowerVia`. -/
def msgLowerVia : Msg := (from_lines linesLowerVia).toOption.getD resp200

/-- The wire header lines of `msgLowerVia`. -/
def wireLowerVia : List String := (msgLowerVia.header_lines).toOption.getD []

/-- A sample header map with a multi-valued `Via` (the shape
`from_raw_headers` produces for repeated `Via` lines). -/
def hWire : Headers :=
  [("b-header", .one "1"), ("Via", .many ["SIP/2.0/UDP h1", "SIP/2.0/UDP h2"]),
   ("Accept", .one "*")]

/-- A concrete constructor description with an empty payload. -/
def specRT : MsgSpec := .resp 200 "OK" cBobT cAlice (some cBob) [] none 7 "OPTIONS" false

/-- The message `specRT` builds. -/
def msgRT : Msg := (buildMsg specRT).toOption.getD resp200

/-- The wire line list of `msgRT`. -/
def wireRT : List String := (msgRT.enc_lines).toOption.getD []

/-- `specRT` with the text payload `"hello"`. -/
def specPayload : MsgSpec :=
  .resp 200 "OK" cBobT cAlice (some cBob) [] (some "hello") 7 "OPTIONS" false

/-- The message `specPayload` builds. -/
def msgPayload : Msg := (buildMsg specPayload).toOption.getD resp200

/-- The wire line list of `msgPayload` (first line plus header block: the
portion `from_raw_headers` receives; the body travels after the blank
line). -/
def wirePayload : List String := (msgPayload.enc_lines).toOption.getD []

/-! # Lemmas and theorems -/

/-! ## Toolkit: case-insensitive keys, header-map operations -/

theorem ciEq_refl (k : String) : ciEq k k = true := by
  simp [ciEq]

theorem ciEq_symm {a b : String} (h : ciEq a b = true) : ciEq b a = true := by
  simp [ciEq] at *
  exact h.symm

theorem ciEq_trans {a b c : String} (h1 : ciEq a b = true)
    (h2 : ciEq b c = true) : ciEq a c = true := by
  simp [ciEq] at *
  exact h1.trans h2

theorem find?_filter_of_imp {α : Type} (p q : α → Bool) (l : List α)
    (h : ∀ a, q a = true → p a = true) :
    (l.filter p).find? q = l.find? q := by
  induction l with
  | nil => rfl
  | cons a rest ih =>
    by_cases hp : p a = true
    · by_cases hq : q a = true
      · simp [List.filter, hp, List.find?, hq]
      · simp only [Bool.not_eq_true] at hq
        simp [List.filter, hp, List.find?, hq, ih]
    · have hq : q a = false := by
        by_contra hx
        simp only [Bool.not_eq_false] at hx
        exact hp (h a hx)
      simp only [Bool.not_eq_true] at hp
      simp [List.filter, hp, List.find?, hq, ih]

theorem except_throw {α : Type} (e : SipErr) :
    (throw e : Except SipErr α) = .error e := rfl

theorem hGet?_hSet_self (h : Headers) (k : String) (v : HVal) :
    hGet? (hSet h k v) k = some v := by
  induction h with
  | nil => simp [hSet, hGet?, List.find?, ciEq_refl]
  | cons e rest ih =>
    by_cases hc : ciEq e.1 k = true
    · simp [hSet, hc, hGet?, List.find?, ciEq_refl]
    · simp only [hSet, hc, if_false]
      simp only [Bool.not_eq_true] at hc
      simp [hGet?, List.find?, hc] at ih ⊢
      exact ih

theorem hGet?_hSet_other (h : Headers) {k k' : String} (v : HVal)
    (hne : ciEq k k' = false) : hGet? (hSet h k v) k' = hGet? h k' := by
  induction h with
  | nil => simp [hSet, hGet?, List.find?, hne]
  | cons e rest ih =>
    by_cases hc : ciEq e.1 k = true
    · have he : ciEq e.1 k' = false := by
        by_contra hx
        simp only [Bool.not_eq_false] at hx
        have := ciEq_trans (ciEq_symm hc) hx
        simp [this] at hne
      simp only [hSet, hc, if_true]
      simp [hGet?, List.find?, hne, he]
      have hfun : (fun a : String × HVal => !ciEq a.1 k && ciEq a.1 k') =
          (fun a : String × HVal => ciEq a.1 k') := by
        funext a
        by_cases hq : ciEq a.1 k' = true
        · have hak : ciEq a.1 k = false := by
            by_contra hx
            simp only [Bool.not_eq_false] at hx
            have := ciEq_trans (ciEq_symm hx) hq
            simp [this] at hne
          simp [hq, hak]
        · simp only [Bool.not_eq_true] at hq
          simp [hq]
      rw [hfun]
    · simp only [hSet, hc, if_false]
      by_cases he : ciEq e.1 k' = true
      · simp [hGet?, List.find?, he]
      · simp only [Bool.not_eq_true] at he
        simp [hGet?, List.find?, he] at ih ⊢
        exact ih

theorem hContains_eq_isSome (h : Headers) (k : String) :
    hContains h k = (hGet? h k).isSome := by
  induction h with
  | nil => simp [hContains, hGet?, List.find?]
  | cons e rest ih =>
    by_cases he : ciEq e.1 k = true
    · simp [hContains, hGet?, List.find?, he]
    · simp only [Bool.not_eq_true] at he
      simp [hContains, hGet?, List.find?, he] at ih ⊢
      exact ih

theorem hContains_hSet_self (h : Headers) (k : String) (v : HVal) :
    hContains (hSet h k v) k = true := by
  rw [hContains_eq_isSome, hGet?_hSet_self]
  rfl

theorem hContains_hSet_other (h : Headers) {k k' : String} (v : HVal)
    (hne : ciEq k k' = false) :
    hContains (hSet h k v) k' = hContains h k' := by
  rw [hContains_eq_isSome, hContains_eq_isSome, hGet?_hSet_other h v hne]

/-! ## C4 — `_maybe_close` / `close_later` policy -/

/-- C4 (amended): on a non-inbound dialog, `_maybe_close` of a
REGISTER/SUBSCRIBE message schedules a close after `⌊1.1 × Expires⌋` when the
`Expires` value is a non-zero number, and after the application's default
closing delay when `Expires` is zero or absent (the code passes `None` to
`close_later`, which substitutes the default — the close is *not*
indefinite); `NOTIFY` schedules nothing and cancels nothing; any other
method (and REGISTER/SUBSCRIBE on inbound dialogs) schedules the default
delay; and every scheduling cancels a previously scheduled close first
(`cancelledPrev` is exactly whether one was pending). -/
theorem maybe_close_policy (d : Dialog) (m : Msg) (meth : String)
    (hm : m.method = .ok meth) :
    ((meth = "REGISTER" ∨ meth = "SUBSCRIBE") → d.inbound = false →
      (∀ s e, hGet? m.headers "Expires" = some (.one s) → pyToNat? s = some e →
        e ≠ 0 →
        maybe_close d m =
          .ok ⟨{ d with closing := some (11 * e / 10) }, d.closing.isSome⟩) ∧
      (∀ s, hGet? m.headers "Expires" = some (.one s) → pyToNat? s = some 0 →
        maybe_close d m =
          .ok ⟨{ d with closing := some d.app.dialog_closing_delay },
               d.closing.isSome⟩) ∧
      (hGet? m.headers "Expires" = none →
        maybe_close d m =
          .ok ⟨{ d with closing := some d.app.dialog_closing_delay },
               d.closing.isSome⟩)) ∧
    (meth = "NOTIFY" → maybe_close d m = .ok ⟨d, false⟩) ∧
    ((meth = "REGISTER" ∨ meth = "SUBSCRIBE" → d.inbound = true) →
      meth ≠ "NOTIFY" →
      maybe_close d m =
        .ok ⟨{ d with closing := some d.app.dialog_closing_delay },
             d.closing.isSome⟩) := by
  refine ⟨fun hrs hin => ⟨?_, ?_, ?_⟩, fun hn => ?_, fun hother hnn => ?_⟩
  · intro s e hs he hne
    simp [maybe_close, hm, Bind.bind, Except.bind, Pure.pure, Except.pure, hrs, hin, hs, he, hne, close_later]
  · intro s hs he
    simp [maybe_close, hm, Bind.bind, Except.bind, Pure.pure, Except.pure, hrs, hin, hs, he, close_later]
  · intro hs
    simp [maybe_close, hm, Bind.bind, Except.bind, Pure.pure, Except.pure, hrs, hin, hs, close_later]
  · have h1 : ¬ (meth = "REGISTER" ∨ meth = "SUBSCRIBE") := by
      rintro (h | h) <;> simp [h] at hn
    simp [maybe_close, hm, Bind.bind, Except.bind, Pure.pure, Except.pure, h1, hn]
  · by_cases hrs : meth = "REGISTER" ∨ meth = "SUBSCRIBE"
    · have := hother hrs
      simp [maybe_close, hm, Bind.bind, Except.bind, Pure.pure, Except.pure,
        hrs, this, hnn, close_later]
    · simp [maybe_close, hm, Bind.bind, Except.bind, Pure.pure, Except.pure, hrs, hnn, close_later]

/-- C4 witness: evaluating the policy on a concrete non-inbound REGISTER
dialog with `Expires: 3600` (scheduling a close after `3960` seconds) and
with `Expires: 0` (scheduling the default delay `42`, cancelling the
previously pending close). -/
theorem maybe_close_policy_witness :
    maybe_close dX respRegExp3600 =
      .ok ⟨{ dX with closing := some 3960 }, true⟩ ∧
    maybe_close dX respRegExp0 =
      .ok ⟨{ dX with closing := some 42 }, true⟩ := by
  constructor
  · have h := (maybe_close_policy dX respRegExp3600 "REGISTER" (by decide)).1
      (Or.inl rfl) (by decide)
    have h2 := h.1 "3600" 3600 (by decide) (by decide) (by decide)
    rw [h2]
    decide
  · have h := (maybe_close_policy dX respRegExp0 "REGISTER" (by decide)).1
      (Or.inl rfl) (by decide)
    have h2 := h.2.1 "0" (by decide) (by decide)
    rw [h2]
    decide

/-- C4 counterexample: the claim says no close ever fires when `Expires` is
zero, but on a non-inbound REGISTER dialog with `Expires: 0` the code
schedules a close after the default delay (`42` here). -/
theorem maybe_close_claim_false :
    ¬ ((maybe_close dX respRegExp0).map (fun o => o.dialog.closing) =
        .ok none) := by
  decide

/-! ## C6 — outbound cseq discipline -/

theorem opStep_request (d : Dialog) (me : String) :
    opStep d (.request me) =
      ({ d with cseq := d.cseq + 1 }, [(false, d.cseq + 1)]) := rfl

theorem opStep_ack0 (d : Dialog) :
    opStep d (.ackResp 0) =
      ({ d with cseq := d.cseq + 1 }, [(true, d.cseq + 1)]) := rfl

theorem opStep_ackNZ (d : Dialog) {rc : Nat} (hrc : rc ≠ 0) :
    opStep d (.ackResp rc) = (d, [(true, rc)]) := by
  simp [opStep, prepare_request, hrc, request_init, message_init,
    Bind.bind, Except.bind, Pure.pure, Except.pure, hContains, hSet,
    ciEq, lowerKey, hGet?, List.find?, Msg.to_details, Msg.contact_details]

theorem reqCs_append (a b : List (Bool × Nat)) :
    reqCs (a ++ b) = reqCs a ++ reqCs b := by
  simp [reqCs]

/-- The invariant behind the cseq discipline: every emitted non-ACK cseq
exceeds the starting counter, and the emitted non-ACK cseqs strictly
increase. -/
theorem runOps_invariant (ops : List DialogOp) :
    ∀ d : Dialog,
      (∀ x ∈ reqCs (runOps d ops).2, d.cseq < x) ∧
      List.Chain' (· < ·) (reqCs (runOps d ops).2) := by
  induction ops with
  | nil => intro d; simp [runOps, reqCs]
  | cons op rest ih =>
    intro d
    match op with
    | .request me =>
      have hrun : runOps d (.request me :: rest) =
          ((runOps { d with cseq := d.cseq + 1 } rest).1,
           [(false, d.cseq + 1)] ++
             (runOps { d with cseq := d.cseq + 1 } rest).2) := by
        simp [runOps, opStep_request]
      rw [hrun]
      rw [reqCs_append]
      have hh : reqCs [(false, d.cseq + 1)] = [d.cseq + 1] := by simp [reqCs]
      rw [hh, List.singleton_append]
      obtain ⟨ihall, ihchain⟩ := ih { d with cseq := d.cseq + 1 }
      constructor
      · intro x hx
        rcases List.mem_cons.mp hx with h | h
        · omega
        · have := ihall x h
          simp at this
          omega
      · rw [List.chain'_cons']
        refine ⟨?_, ihchain⟩
        intro b hb
        have hbmem := List.mem_of_mem_head? hb
        have := ihall b hbmem
        simp at this
        omega
    | .ackResp rc =>
      by_cases hrc : rc = 0
      · subst hrc
        have hrun : runOps d (.ackResp 0 :: rest) =
            ((runOps { d with cseq := d.cseq + 1 } rest).1,
             [(true, d.cseq + 1)] ++
               (runOps { d with cseq := d.cseq + 1 } rest).2) := by
          simp [runOps, opStep_ack0]
        rw [hrun, reqCs_append]
        have hh : reqCs [(true, d.cseq + 1)] = [] := by simp [reqCs]
        rw [hh]
        obtain ⟨ihall, ihchain⟩ := ih { d with cseq := d.cseq + 1 }
        refine ⟨?_, by simpa using ihchain⟩
        intro x hx
        simp at hx
        have := ihall x (by simpa using hx)
        simp at this
        omega
      · have hrun : runOps d (.ackResp rc :: rest) =
            ((runOps d rest).1, [(true, rc)] ++ (runOps d rest).2) := by
          simp [runOps, opStep_ackNZ d hrc]
        rw [hrun, reqCs_append]
        have hh : reqCs [(true, rc)] = [] := by simp [reqCs]
        rw [hh]
        simpa using ih d
    | .recv mc =>
      by_cases hlt : d.cseq < mc
      · have hrun : runOps d (.recv mc :: rest) =
            ((runOps { d with cseq := mc } rest).1,
             [] ++ (runOps { d with cseq := mc } rest).2) := by
          simp [runOps, opStep, hlt]
        rw [hrun]
        obtain ⟨ihall, ihchain⟩ := ih { d with cseq := mc }
        refine ⟨?_, by simpa using ihchain⟩
        intro x hx
        have := ihall x (by simpa using hx)
        simp at this
        omega
      · have hrun : runOps d (.recv mc :: rest) =
            ((runOps d rest).1, [] ++ (runOps d rest).2) := by
          simp [runOps, opStep, hlt]
        rw [hrun]
        simpa using ih d

/-- C6 (amended): across any sequence of dialog operations the cseq values
of the non-ACK requests issued through `request()` are strictly increasing;
and `ack(msg)` sends an ACK carrying exactly `msg.cseq` whenever that cseq is
non-zero (a zero cseq is falsy in Python, so `_prepare_request` increments
the counter and uses the new value instead), leaving the dialog's counter
untouched. -/
theorem cseq_discipline :
    (∀ (d : Dialog) (ops : List DialogOp),
      List.Chain' (· < ·) (reqCs (runOps d ops).2)) ∧
    (∀ (d : Dialog) (m : Msg) (h : Headers) (rc : Nat) (via : HVal)
      (mto : Contact),
      hGet? m.headers "Via" = some via → m.cseq = .ok rc → rc ≠ 0 →
      m.to_details = .ok mto →
      (ack d m h).1 = d ∧
      ((ack d m h).2).map (fun msg => msg.cseqCache) = .ok (some rc)) := by
  constructor
  · intro d ops
    exact (runOps_invariant ops d).2
  · intro d m h rc via mto hvia hc hrc hto
    have hcont : hContains (hSet h "Via" via) "Via" = true :=
      hContains_hSet_self h "Via" via
    have hcont2 : hContains (hSet (hSet h "Via" via) "User-Agent"
        (.one d.app.user_agent)) "Via" = true := by
      rw [hContains_hSet_other _ _ (by decide)]
      exact hcont
    constructor
    · simp [ack, hvia, hc, hto, prepare_request, hrc]
    · simp only [ack, hvia, hc, hto]
      by_cases hua : hContains (hSet h "Via" via) "User-Agent" = true
      · simp only [prepare_request, Option.getD, hrc, if_neg hrc,
          request_init, message_init]
        simp [hua, hrc, hContains_hSet_self, Bind.bind, Except.bind,
          Pure.pure, Except.pure, hcont, Msg.to_details, Except.map,
          hContains_hSet_other _ _ (show ciEq "Call-ID" "Via" = false by decide)]
      · simp only [prepare_request, Option.getD, hrc, if_neg hrc,
          request_init, message_init]
        simp [hua, hrc, hContains_hSet_self, Bind.bind, Except.bind,
          Pure.pure, Except.pure, hcont, hcont2, Msg.to_details, Except.map,
          hContains_hSet_other _ _ (show ciEq "Call-ID" "Via" = false by decide)]

/-- C6 witness: a two-request trace emits the strictly increasing cseqs
`6, 7`; acknowledging a `CSeq: 5` response sends an ACK with cseq `5`. -/
theorem cseq_discipline_witness :
    List.Chain' (· < ·)
      (reqCs (runOps dX [.request "REGISTER", .request "REGISTER"]).2) ∧
    ((ack dX resp200 []).2).map (fun msg => msg.cseqCache) = .ok (some 5) := by
  constructor
  · exact cseq_discipline.1 dX [.request "REGISTER", .request "REGISTER"]
  · exact (cseq_discipline.2 dX resp200 [] 5 (.one "SIP/2.0/UDP h")
      ⟨⟨"alice.example.com", some 5060⟩, [("tag", "atag")]⟩
      (by decide) (by decide) (by decide) (by decide)).2

/-- C6 counterexample: the claim says an ACK carries exactly the CSeq of the
response it acknowledges, but acknowledging a response with `CSeq: 0` sends
an ACK with cseq `6` (the incremented counter), not `0`. -/
theorem ack_cseq_claim_false :
    respCseq0.cseq = .ok 0 ∧
    ¬ (((ack dX respCseq0 []).2).map (fun msg => msg.cseqCache) =
        .ok (some 0)) := by
  decide

/-! ## C8 — `validate_auth` -/

/-- C8 (amended): `validate_auth(message, password)` returns `true` iff the
message carries an Authorization block whose digest validates against the
dialog's stored challenge, the given password, and the block's
username/uri together with the message payload, or the method is CANCEL; it
returns `false` in every other case — *provided* the dialog has a stored
challenge whenever the message carries an Authorization block.  When the
message carries an Authorization block and no challenge is stored, the call
raises (`AttributeError` on `None`), even for CANCEL. -/
theorem validate_auth_spec (d : Dialog) (m : Msg) (pw meth : String)
    (hm : m.method = .ok meth) :
    (∀ a ch, msgAuth? m = some a → d.auth = some ch →
      validate_auth d m pw =
        .ok (validate_authorization ch a pw a.username a.uri m.payload ||
             meth == "CANCEL")) ∧
    (msgAuth? m = none → validate_auth d m pw = .ok (meth == "CANCEL")) ∧
    (∀ a, msgAuth? m = some a → d.auth = none →
      validate_auth d m pw = .error .attributeError) := by
  refine ⟨fun a ch ha hch => ?_, fun hn => ?_, fun a ha hch => ?_⟩
  · by_cases hv : validate_authorization ch a pw a.username a.uri m.payload = true
    · simp [validate_auth, ha, hch, hv]
    · simp only [Bool.not_eq_true] at hv
      by_cases hcan : meth = "CANCEL"
      · simp [validate_auth, ha, hch, hv, hm, hcan, Bind.bind, Except.bind,
          Pure.pure, Except.pure]
      · simp [validate_auth, ha, hch, hv, hm, hcan, Bind.bind, Except.bind,
          Pure.pure, Except.pure]
  · by_cases hcan : meth = "CANCEL"
    · simp [validate_auth, hn, hm, hcan, Bind.bind, Except.bind, Pure.pure,
        Except.pure]
    · simp [validate_auth, hn, hm, hcan, Bind.bind, Except.bind, Pure.pure,
        Except.pure]
  · simp [validate_auth, ha, hch]

/-- C8 witness: a concrete Authorization block validating against the stored
challenge yields `true`; the same dialog accepts a bare CANCEL. -/
theorem validate_auth_spec_witness :
    validate_auth dXch regWithValidAuth "pw" = .ok true ∧
    validate_auth dX (respOf 200 "OK" 6 "CANCEL" "<sip:a>") "pw" =
      .ok true := by
  constructor
  · have h := (validate_auth_spec dXch regWithValidAuth "pw" "REGISTER"
      (by decide)).1 ⟨"u", "sip:x", digestOf chX "pw" "u" "sip:x" ""⟩ chX
      (by decide) (by decide)
    rw [h]
    decide
  · have h := (validate_auth_spec dX (respOf 200 "OK" 6 "CANCEL" "<sip:a>")
      "pw" "CANCEL" (by decide)).2.1 (by decide)
    rw [h]
    decide

/-- C8 counterexample: the claim says a CANCEL always validates, but a CANCEL
carrying an Authorization block while no challenge is stored raises instead
of returning `true`. -/
theorem validate_auth_claim_false :
    cancelWithAuth.method = .ok "CANCEL" ∧
    validate_auth dX cancelWithAuth "pw" ≠ .ok true := by
  decide

/-! ## C9 — `Content-Length` equals the payload byte length -/

theorem make_headers_tail_CL (h : Headers) (cl : String) :
    hGet? (make_headers_tail h cl) "Content-Length" = some (.one cl) := by
  unfold make_headers_tail
  by_cases h1 : hContains (hSet h "Content-Length" (.one cl)) "Max-Forwards" = true
  · by_cases h2 : hContains (hSet h "Content-Length" (.one cl)) "Call-ID" = true
    · simp [h1, h2, hGet?_hSet_self]
    · simp [h1, h2,
        hGet?_hSet_other _ _ (show ciEq "Call-ID" "Content-Length" = false by decide),
        hGet?_hSet_self]
  · by_cases h2 : hContains
      (hSet (hSet h "Content-Length" (.one cl)) "Max-Forwards" (.one "70"))
      "Call-ID" = true
    · simp [h1, h2,
        hGet?_hSet_other _ _ (show ciEq "Max-Forwards" "Content-Length" = false by decide),
        hGet?_hSet_self]
    · simp [h1, h2,
        hGet?_hSet_other _ _ (show ciEq "Call-ID" "Content-Length" = false by decide),
        hGet?_hSet_other _ _ (show ciEq "Max-Forwards" "Content-Length" = false by decide),
        hGet?_hSet_self]

/-- C9 (confirmed): in the headers `_make_headers` emits, `Content-Length`
is exactly the byte length of the payload that `encode()` appends; when
neither a text payload nor a raw payload is present the body is empty and
`Content-Length` is `0`; and `encode()` is the first line, the header block
and that payload. -/
theorem content_length_spec (m : Msg) (h' : Headers)
    (hmk : make_headers m = .ok h') :
    hGet? h' "Content-Length" =
      some (.one (pyStr m.encodedBody.utf8ByteSize)) ∧
    (m.payloadTxt = none → m.rawPayload = none →
      m.encodedBody = "" ∧ hGet? h' "Content-Length" = some (.one "0")) ∧
    (∀ lines, m.header_lines = .ok lines →
      m.encode = .ok (m.firstLine ++ EOL ++
        String.intercalate EOL (lines ++ [EOL]) ++ m.encodedBody)) := by
  have hshape : ∃ h0, make_headers_cseq m (make_headers_details m) = .ok h0 ∧
      h' = make_headers_tail h0 (pyStr m.encodedBody.utf8ByteSize) := by
    unfold make_headers at hmk
    cases hC : make_headers_cseq m (make_headers_details m) with
    | ok h0 =>
      rw [hC] at hmk
      have hmk' : Except.ok
          (make_headers_tail h0 (pyStr m.encodedBody.utf8ByteSize)) =
          (Except.ok h' : Except SipErr Headers) := hmk
      injection hmk' with hh
      exact ⟨h0, rfl, hh.symm⟩
    | error e =>
      rw [hC] at hmk
      exact Except.noConfusion hmk
  obtain ⟨h0, hC, hshape⟩ := hshape
  refine ⟨?_, fun hp hr => ?_, fun lines hl => ?_⟩
  · rw [hshape]; exact make_headers_tail_CL _ _
  · have hbody : m.encodedBody = "" := by
      simp [Msg.encodedBody, hp, hr]
    refine ⟨hbody, ?_⟩
    rw [hshape, hbody]
    have : pyStr ("" : String).utf8ByteSize = "0" := by decide
    rw [this]
    exact make_headers_tail_CL _ _
  · simp only [Msg.encode, Msg.header_lines, hmk, Bind.bind, Except.bind,
      Pure.pure, Except.pure] at hl ⊢
    cases hl
    rfl

/-- C9 witness: a concrete message with payload `"hello"` publishes
`Content-Length: 5`. -/
theorem content_length_spec_witness :
    hGet? ((make_headers respHello).toOption.getD []) "Content-Length" =
      some (.one "5") := by
  have h := (content_length_spec respHello
    ((make_headers respHello).toOption.getD []) (by decide)).1
  rw [h]
  decide

/-! ## C10 — `Via` insertion needs contact details -/

/-- C10 (confirmed): constructing a `Message` whose header map has no `Via`
header succeeds exactly when contact details are available — as an explicit
argument or as a parsable single-valued `Contact` header; when both are
absent the construction fails with `TypeError` (`None` subscripted), which is
distinct from the codec's malformed-message `ValueError`. -/
theorem message_init_via_contact (headers : Headers) (payload : Option String)
    (fromD toD contactD : Option Contact)
    (hFrom : ¬ (fromD = none ∧ hContains headers "From" = false))
    (hTo : ¬ (toD = none ∧ hContains headers "To" = false))
    (hVia : hContains headers "Via" = false) :
    ((∃ m, message_init headers payload fromD toD contactD = .ok m) ↔
      (contactD.isSome ∨
        ∃ s c, hGet? headers "Contact" = some (.one s) ∧
          parseContact s = some c)) ∧
    (contactD = none → hGet? headers "Contact" = none →
      message_init headers payload fromD toD contactD = .error .typeError ∧
      SipErr.typeError ≠ SipErr.valueError "Not a SIP message") := by
  constructor
  · constructor
    · intro hex
      cases hcd : contactD with
      | some c => exact Or.inl (by simp [hcd])
      | none =>
        cases hg : hGet? headers "Contact" with
        | none =>
          exfalso
          obtain ⟨m, hm⟩ := hex
          rw [hcd] at hm
          simp [message_init, hFrom, hTo, hVia, Msg.contact_details, hg,
            Bind.bind, Except.bind, Pure.pure, Except.pure, except_throw] at hm
        | some v =>
          cases v with
          | one s =>
            cases hp : parseContact s with
            | some c => exact Or.inr ⟨s, c, rfl, hp⟩
            | none =>
              exfalso
              obtain ⟨m, hm⟩ := hex
              rw [hcd] at hm
              simp [message_init, hFrom, hTo, hVia, Msg.contact_details, hg,
                hp, Bind.bind, Except.bind, Pure.pure, Except.pure, except_throw] at hm
          | many l =>
            exfalso
            obtain ⟨m, hm⟩ := hex
            rw [hcd] at hm
            simp [message_init, hFrom, hTo, hVia, Msg.contact_details, hg,
              Bind.bind, Except.bind, Pure.pure, Except.pure, except_throw] at hm
    · rintro (hcd | ⟨s, c, hg, hp⟩)
      · obtain ⟨c, hc⟩ := Option.isSome_iff_exists.mp hcd
        cases hres : message_init headers payload fromD toD contactD with
        | ok m => exact ⟨m, rfl⟩
        | error e =>
          exfalso
          rw [hc] at hres
          simp [message_init, hFrom, hTo, hVia, Msg.contact_details,
            Bind.bind, Except.bind, Pure.pure, Except.pure, except_throw] at hres
      · cases hres : message_init headers payload fromD toD contactD with
        | ok m => exact ⟨m, rfl⟩
        | error e =>
          exfalso
          cases hcd : contactD with
          | some c2 =>
            rw [hcd] at hres
            simp [message_init, hFrom, hTo, hVia, Msg.contact_details,
              Bind.bind, Except.bind, Pure.pure, Except.pure, except_throw] at hres
          | none =>
            rw [hcd] at hres
            simp [message_init, hFrom, hTo, hVia, Msg.contact_details, hg, hp,
              Bind.bind, Except.bind, Pure.pure, Except.pure, except_throw] at hres
  · intro hcdn hg
    refine ⟨?_, by decide⟩
    rw [hcdn]
    simp [message_init, hFrom, hTo, hVia, Msg.contact_details, hg,
      Bind.bind, Except.bind, Pure.pure, Except.pure, except_throw]

/-- C10 witness: a header map with `From`/`To` but no `Via` and no contact
fails with `TypeError`; adding a parsable `Contact` header makes the
construction succeed. -/
theorem message_init_via_contact_witness :
    message_init [("From", .one "<sip:a>"), ("To", .one "<sip:b>")] none
      none none none = .error .typeError ∧
    (∃ m, message_init
      [("From", .one "<sip:a>"), ("To", .one "<sip:b>"),
       ("Contact", .one "<sip:bob.example.com>")] none none none none =
        .ok m) := by
  constructor
  · exact ((message_init_via_contact _ none none none none
      (by decide) (by decide) (by decide)).2 rfl (by decide)).1
  · exact (message_init_via_contact _ none none none none
      (by decide) (by decide) (by decide)).1.mpr
      (Or.inr ⟨"<sip:bob.example.com>", ⟨⟨"bob.example.com", none⟩, []⟩,
        by decide, by decide⟩)

/-! ## C5 — dialog re-keying on the first tagged response -/

theorem keyEq_refl (k : DKey) : keyEq k k = true := by
  simp [keyEq]

theorem regGet?_regSet_self (r : Registry) (k : DKey) (v : Nat) :
    regGet? (regSet r k v) k = some v := by
  induction r with
  | nil => simp [regSet, regGet?, List.find?, keyEq_refl]
  | cons e rest ih =>
    by_cases hc : keyEq e.1 k = true
    · simp [regSet, hc, regGet?, List.find?, keyEq_refl]
    · simp only [regSet, hc, if_false]
      simp only [Bool.not_eq_true] at hc
      simp [regGet?, List.find?, hc] at ih ⊢
      exact ih

theorem regDel_get_none (r : Registry) (k : DKey) (r1 : Registry)
    (h : regDel r k = some r1) : regGet? r1 k = none := by
  unfold regDel at h
  by_cases hc : r.any (fun e => keyEq e.1 k) = true
  · rw [if_pos hc] at h
    injection h with h
    subst h
    simp only [regGet?, Option.map_eq_none']
    rw [List.find?_eq_none]
    intro a ha
    have := (List.mem_filter.mp ha).2
    simpa using this
  · rw [if_neg hc] at h
    exact Option.noConfusion h

/-- C5 (amended): when the remote tag is unknown and a response carrying a
`To: tag` arrives, both `InviteDialog.receive_message` and the base
`_receive_response` re-key the dialog within that delivery: the old key is
deleted, the tag is stored, and the dialog is re-inserted under the new key.
The invite handler checks both conditions, so a tagless response leaves the
registry untouched there; the base handler, however, guards only on the
unknown remote tag: a tagless response still deletes the old key and then
raises `KeyError` (from `msg.to_details['params']['tag']`) without
re-inserting the dialog. -/
theorem rekey_spec :
    (∀ (d : Dialog) (reg : Registry) (m : Msg) (mto : Contact) (tg : String)
      (reg1 : Registry),
      hasTag d.to_details = false → m.to_details = .ok mto →
      paramGet? mto "tag" = some tg → regDel reg d.dialog_id = some reg1 →
      receive_response d reg m =
        deliverToTransaction
          { d with to_details :=
            ⟨d.to_details.uri, paramSet d.to_details.params "tag" tg⟩ }
          (regSet reg1
            (Dialog.dialog_id { d with to_details :=
              ⟨d.to_details.uri, paramSet d.to_details.params "tag" tg⟩ })
            d.selfId) m ∧
      regGet? reg1 d.dialog_id = none ∧
      regGet?
        (regSet reg1
          (Dialog.dialog_id { d with to_details :=
            ⟨d.to_details.uri, paramSet d.to_details.params "tag" tg⟩ })
          d.selfId)
        (Dialog.dialog_id { d with to_details :=
          ⟨d.to_details.uri, paramSet d.to_details.params "tag" tg⟩ }) =
        some d.selfId) ∧
    (∀ (d : Dialog) (reg : Registry) (m : Msg),
      hasTag d.to_details = true →
      receive_response d reg m = deliverToTransaction d reg m) ∧
    (∀ (d : Dialog) (reg : Registry) (m : Msg) (mto : Contact)
      (reg1 : Registry),
      hasTag d.to_details = false → m.to_details = .ok mto →
      paramGet? mto "tag" = none → regDel reg d.dialog_id = some reg1 →
      receive_response d reg m = ⟨d, reg1, none, some .keyError⟩) ∧
    (∀ (s : InvDialog) (reg : Registry) (m : Msg) (mto : Contact)
      (tg : String) (reg1 : Registry),
      hasTag s.d.to_details = false → m.to_details = .ok mto →
      paramGet? mto "tag" = some tg → regDel reg s.d.dialog_id = some reg1 →
      invite_receive_message s reg m =
        invite_dispatch
          { s with
            d := { s.d with to_details :=
              ⟨s.d.to_details.uri, paramSet s.d.to_details.params "tag" tg⟩ },
            queue := s.queue ++ [m] }
          (regSet reg1
            (Dialog.dialog_id { s.d with to_details :=
              ⟨s.d.to_details.uri, paramSet s.d.to_details.params "tag" tg⟩ })
            s.d.selfId) m) ∧
    (∀ (s : InvDialog) (reg : Registry) (m : Msg) (mto : Contact),
      hasTag s.d.to_details = false → m.to_details = .ok mto →
      paramGet? mto "tag" = none →
      invite_receive_message s reg m =
        invite_dispatch { s with queue := s.queue ++ [m] } reg m) := by
  refine ⟨fun d reg m mto tg reg1 hna hto htg hdel => ⟨?_, ?_, ?_⟩,
    fun d reg m hta => ?_, fun d reg m mto reg1 hna hto htg hdel => ?_,
    fun s reg m mto tg reg1 hna hto htg hdel => ?_,
    fun s reg m mto hna hto htg => ?_⟩
  · simp [receive_response, hna, hto, htg, hdel]
  · exact regDel_get_none reg _ reg1 hdel
  · exact regGet?_regSet_self _ _ _
  · simp [receive_response, hta]
  · simp [receive_response, hna, hto, htg, hdel]
  · simp [invite_receive_message, hna, hto, htg, hdel]
  · simp [invite_receive_message, hna, hto, htg]

/-- C5 witness: delivering a tagged `200 OK` to `dX` (remote tag unknown,
registered under `{None, btag, cid1}`) re-keys it under
`{atag, btag, cid1}` and delivers to the matching transaction. -/
theorem rekey_spec_witness :
    (receive_response dX regX resp200).registry =
      [([some "atag", some "btag", some "cid1"], 1)] ∧
    (receive_response dX regX resp200).delivered = some (("INVITE", 5), resp200) ∧
    (receive_response dX regX resp200).err = none := by
  have h := (rekey_spec.1 dX regX resp200
    ⟨⟨"alice.example.com", some 5060⟩, [("tag", "atag")]⟩ "atag" []
    (by decide) (by decide) (by decide) (by decide)).1
  rw [h]
  decide

/-- C5 counterexample: the claim says responses are only re-keyed when the
message carries a `To` tag, but the base `_receive_response` of a dialog
with unknown remote tag mutates the registry (deleting the dialog's key) and
raises `KeyError` even when the response has no `To` tag. -/
theorem rekey_claim_false :
    (receive_response dX regX respNoTag).err = some SipErr.keyError ∧
    (receive_response dX regX respNoTag).registry ≠ regX := by
  decide

/-! ## C7 — `Dialog.close` teardown -/

theorem regGet?_filter_none (r : Registry) (k : DKey) :
    regGet? (r.filter (fun e => ¬ keyEq e.1 k)) k = none := by
  simp only [regGet?, Option.map_eq_none']
  rw [List.find?_eq_none]
  intro a ha
  have := (List.mem_filter.mp ha).2
  simpa using this

theorem close_state_facts (d : Dialog) (reg : Registry) :
    (close_state d reg).dialog.closing = none ∧
    (close_state d reg).dialog.closed = d.closed ∧
    (∀ t ∈ (close_state d reg).dialog.transactions, t.2 = false) ∧
    regGet? (close_state d reg).registry
      ((close_state d reg).dialog.dialog_id) = none := by
  refine ⟨rfl, rfl, ?_, ?_⟩
  · intro t ht
    simp only [close_state, List.mem_map] at ht
    obtain ⟨u, _, hut⟩ := ht
    rw [← hut]
  · exact regGet?_filter_none reg _

/-- `_prepare_request` (with no explicit contact) always succeeds, marks the
request with the uppercased method, and preserves every header other than
`User-Agent`, `Call-ID` and `Via`. -/
theorem prepare_request_headers (d : Dialog) (method : String)
    (headers : Headers) (payload : Option String) (cseqArg : Option Nat)
    (toD : Option Contact) (k : String)
    (h1 : ciEq "User-Agent" k = false) (h2 : ciEq "Call-ID" k = false)
    (h3 : ciEq "Via" k = false) :
    ∃ msg, (prepare_request d method none headers payload cseqArg toD).2 =
        .ok msg ∧
      msg.methodCache = some (toUpperStr method) ∧
      hGet? msg.headers k = hGet? headers k := by
  have hmap : ((prepare_request d method none headers payload cseqArg
      toD).2).map (fun msg => (msg.methodCache, hGet? msg.headers k)) =
      .ok (some (toUpperStr method), hGet? headers k) := by
    by_cases hua : hContains headers "User-Agent" = true
    · by_cases hvia : hContains (hSet headers "Call-ID" (.one d.call_id))
        "Via" = true
      · simp [prepare_request, hua, request_init, message_init, hvia,
          Msg.to_details, Bind.bind, Except.bind, Pure.pure, Except.pure,
          Except.map, apply_ite Dialog.call_id, apply_ite Dialog.app,
          apply_ite Dialog.from_details, apply_ite Dialog.to_details,
          apply_ite Dialog.contact_details, apply_ite AppDefaults.user_agent,
          hGet?_hSet_other _ _ h2]
      · simp [prepare_request, hua, request_init, message_init, hvia,
          Msg.contact_details, Msg.to_details, Bind.bind, Except.bind,
          Pure.pure, Except.pure, Except.map, apply_ite Dialog.call_id,
          apply_ite Dialog.app, apply_ite Dialog.from_details,
          apply_ite Dialog.to_details, apply_ite Dialog.contact_details,
          apply_ite AppDefaults.user_agent,
          hGet?_hSet_other _ _ h3, hGet?_hSet_other _ _ h2]
    · by_cases hvia : hContains
        (hSet (hSet headers "User-Agent" (.one d.app.user_agent)) "Call-ID"
          (.one d.call_id)) "Via" = true
      · simp [prepare_request, hua, request_init, message_init, hvia,
          Msg.to_details, Bind.bind, Except.bind, Pure.pure, Except.pure,
          Except.map, apply_ite Dialog.call_id, apply_ite Dialog.app,
          apply_ite Dialog.from_details, apply_ite Dialog.to_details,
          apply_ite Dialog.contact_details, apply_ite AppDefaults.user_agent,
          hGet?_hSet_other _ _ h2,
          hGet?_hSet_other _ _ h1]
      · simp [prepare_request, hua, request_init, message_init, hvia,
          Msg.contact_details, Msg.to_details, Bind.bind, Except.bind,
          Pure.pure, Except.pure, Except.map, apply_ite Dialog.call_id,
          apply_ite Dialog.app, apply_ite Dialog.from_details,
          apply_ite Dialog.to_details, apply_ite Dialog.contact_details,
          apply_ite AppDefaults.user_agent,
          hGet?_hSet_other _ _ h3,
          hGet?_hSet_other _ _ h2, hGet?_hSet_other _ _ h1]
  cases hres : (prepare_request d method none headers payload cseqArg
      toD).2 with
  | error e =>
    rw [hres] at hmap
    exact Except.noConfusion hmap
  | ok msg =>
    rw [hres] at hmap
    have hp : (msg.methodCache, hGet? msg.headers k) =
        (some (toUpperStr method), hGet? headers k) := by
      injection hmap
    exact ⟨msg, rfl, congrArg Prod.fst hp, congrArg Prod.snd hp⟩

/-- On an open dialog, every branch of `Dialog.close` ends in `_close`: the
final dialog and registry are a `close_state` of some already-closed
dialog. -/
theorem dialog_close_closes (d : Dialog) (reg : Registry) (headers : Headers)
    (fast : Bool) (outcome : Except SipErr Msg) (hc : d.closed = false) :
    ∃ d0 reg0,
      (dialog_close d reg headers fast outcome).dialog =
        (close_state d0 reg0).dialog ∧
      (dialog_close d reg headers fast outcome).registry =
        (close_state d0 reg0).registry ∧
      d0.closed = true := by
  by_cases hbr : ¬ fast = true ∧ ¬ d.inbound = true ∧
      (d.original_method = "REGISTER" ∨ d.original_method = "SUBSCRIBE")
  · by_cases hexp2 : hContains headers "Expires" = true
    · obtain ⟨msg, hok, -, -⟩ := prepare_request_headers
        { d with closed := true } d.original_method headers
        none none none "Expires" (by decide) (by decide) (by decide)
      have hinb : d.inbound = false := by simpa using hbr.2.1
      rw [hinb] at hok
      cases outcome with
      | ok resp =>
        refine ⟨(close_state (close_dereg_dialog { d with closed := true }
            headers msg) reg).dialog,
          (close_state (close_dereg_dialog { d with closed := true }
            headers msg) reg).registry, ?_, ?_, rfl⟩
        · simp [dialog_close, hc, hbr, hexp2, hok, close_dereg_dialog]
        · simp [dialog_close, hc, hbr, hexp2, hok, close_dereg_dialog]
      | error e =>
        refine ⟨close_dereg_dialog { d with closed := true } headers msg,
          reg, ?_, ?_, rfl⟩
        · simp [dialog_close, hc, hbr, hexp2, hok, close_dereg_dialog]
        · simp [dialog_close, hc, hbr, hexp2, hok, close_dereg_dialog]
    · obtain ⟨msg, hok, -, -⟩ := prepare_request_headers
        { d with closed := true } d.original_method
        (hSet headers "Expires" (.one "0"))
        none none none "Expires" (by decide) (by decide) (by decide)
      have hinb : d.inbound = false := by simpa using hbr.2.1
      rw [hinb] at hok
      cases outcome with
      | ok resp =>
        refine ⟨(close_state (close_dereg_dialog { d with closed := true }
            (hSet headers "Expires" (.one "0")) msg) reg).dialog,
          (close_state (close_dereg_dialog { d with closed := true }
            (hSet headers "Expires" (.one "0")) msg) reg).registry,
          ?_, ?_, rfl⟩
        · simp [dialog_close, hc, hbr, hexp2, hok, close_dereg_dialog]
        · simp [dialog_close, hc, hbr, hexp2, hok, close_dereg_dialog]
      | error e =>
        refine ⟨close_dereg_dialog { d with closed := true }
          (hSet headers "Expires" (.one "0")) msg, reg, ?_, ?_, rfl⟩
        · simp [dialog_close, hc, hbr, hexp2, hok, close_dereg_dialog]
        · simp [dialog_close, hc, hbr, hexp2, hok, close_dereg_dialog]
  · refine ⟨{ d with closed := true }, reg, ?_, ?_, rfl⟩
    · simp only [dialog_close, hc, Bool.false_eq_true, if_false]
      rw [if_neg hbr]
    · simp only [dialog_close, hc, Bool.false_eq_true, if_false]
      rw [if_neg hbr]

/-- C7 (confirmed): `Dialog.close` is idempotent; teardown (cancelled timed
close, all transactions closed, registry key absent, missing key tolerated)
runs on every exit path, including when the deregistration request raises;
and for a non-inbound REGISTER/SUBSCRIBE dialog closed without `fast`, it
issues exactly one request of the original method carrying `Expires: 0`,
returning the transport outcome (or propagating its exception). -/
theorem dialog_close_spec :
    (∀ (d : Dialog) (reg : Registry) (headers : Headers) (fast : Bool)
      (outcome : Except SipErr Msg), d.closed = true →
      dialog_close d reg headers fast outcome = ⟨d, reg, [], .ok none⟩) ∧
    (∀ (d : Dialog) (reg : Registry) (headers : Headers) (fast : Bool)
      (outcome : Except SipErr Msg), d.closed = false →
      (dialog_close d reg headers fast outcome).dialog.closed = true ∧
      (dialog_close d reg headers fast outcome).dialog.closing = none ∧
      (∀ t ∈ (dialog_close d reg headers fast outcome).dialog.transactions,
        t.2 = false) ∧
      regGet? (dialog_close d reg headers fast outcome).registry
        ((dialog_close d reg headers fast outcome).dialog.dialog_id) =
          none) ∧
    (∀ (d : Dialog) (reg : Registry) (headers : Headers)
      (outcome : Except SipErr Msg), d.closed = false → d.inbound = false →
      (d.original_method = "REGISTER" ∨ d.original_method = "SUBSCRIBE") →
      hContains headers "Expires" = false →
      ∃ msg, (dialog_close d reg headers false outcome).sent = [msg] ∧
        msg.methodCache = some (toUpperStr d.original_method) ∧
        hGet? msg.headers "Expires" = some (.one "0") ∧
        (dialog_close d reg headers false outcome).result =
          outcome.map some) ∧
    (∀ (d : Dialog) (reg : Registry) (headers : Headers) (fast : Bool)
      (outcome : Except SipErr Msg), d.closed = false →
      (fast = true ∨ d.inbound = true ∨
        (d.original_method ≠ "REGISTER" ∧ d.original_method ≠ "SUBSCRIBE")) →
      (dialog_close d reg headers fast outcome).sent = [] ∧
      (dialog_close d reg headers fast outcome).result = .ok none) := by
  refine ⟨fun d reg headers fast outcome hc => ?_,
    fun d reg headers fast outcome hc => ?_,
    fun d reg headers outcome hc hin hrs hexp => ?_,
    fun d reg headers fast outcome hc hskip => ?_⟩
  · simp [dialog_close, hc]
  · obtain ⟨d0, reg0, hdlg, hreg, hcl⟩ :=
      dialog_close_closes d reg headers fast outcome hc
    have hf := close_state_facts d0 reg0
    rw [hdlg, hreg]
    exact ⟨hf.2.1.trans hcl, hf.1, hf.2.2.1, hf.2.2.2⟩
  · have hbr : ¬ (false : Bool) = true ∧ ¬ d.inbound = true ∧
        (d.original_method = "REGISTER" ∨ d.original_method = "SUBSCRIBE") := by
      refine ⟨by simp, by simp [hin], hrs⟩
    obtain ⟨msg, hok, hmeth, hhd⟩ := prepare_request_headers
      { d with closed := true } d.original_method
      (hSet headers "Expires" (.one "0"))
      none none none "Expires" (by decide) (by decide) (by decide)
    rw [hin] at hok
    refine ⟨msg, ?_, hmeth, ?_, ?_⟩
    · cases outcome with
      | ok resp => simp [dialog_close, hc, hbr, hexp, hok]
      | error e => simp [dialog_close, hc, hbr, hexp, hok]
    · rw [hhd, hGet?_hSet_self]
    · cases outcome with
      | ok resp => simp [dialog_close, hc, hbr, hexp, hok, Except.map]
      | error e => simp [dialog_close, hc, hbr, hexp, hok, Except.map]
  · have hbr : ¬ (¬ fast = true ∧ ¬ d.inbound = true ∧
        (d.original_method = "REGISTER" ∨ d.original_method = "SUBSCRIBE")) := by
      rcases hskip with h | h | h
      · simp [h]
      · simp [h]
      · rintro ⟨_, _, hx⟩
        rcases hx with hx | hx
        · exact h.1 hx
        · exact h.2 hx
    constructor
    · simp only [dialog_close, hc, Bool.false_eq_true, if_false]
      rw [if_neg hbr]
    · simp only [dialog_close, hc, Bool.false_eq_true, if_false]
      rw [if_neg hbr]

/-- C7 witness: closing `dX` (an open, non-fast, non-inbound REGISTER
dialog) issues one deregistration with `Expires: 0`, returns the transport's
`200 OK`, and leaves the registry without the dialog's id, the timer
cancelled and all transactions closed. -/
theorem dialog_close_spec_witness :
    (∃ msg, (dialog_close dX regX [] false (.ok resp200)).sent = [msg] ∧
      hGet? msg.headers "Expires" = some (.one "0")) ∧
    (dialog_close dX regX [] false (.ok resp200)).result =
      .ok (some resp200) ∧
    regGet? (dialog_close dX regX [] false (.ok resp200)).registry
      ((dialog_close dX regX [] false (.ok resp200)).dialog.dialog_id) =
        none ∧
    dialog_close { dX with closed := true } regX [] false (.ok resp200) =
      ⟨{ dX with closed := true }, regX, [], .ok none⟩ := by
  obtain ⟨msg, hsent, hmeth, hexp, hres⟩ := dialog_close_spec.2.2.1 dX regX []
    (.ok resp200) rfl rfl (Or.inl rfl) (by decide)
  have hb := (dialog_close_spec.2.1 dX regX [] false (.ok resp200) rfl).2.2.2
  have ha := dialog_close_spec.1 { dX with closed := true } regX [] false
    (.ok resp200) rfl
  exact ⟨⟨msg, hsent, hexp⟩, hres.trans rfl, hb, ha⟩

/-! ## C1 — the INVITE client state machine -/

theorem ack_ok (d : Dialog) (m : Msg) (via : HVal) (mc : Nat) (mto : Contact)
    (hvia : hGet? m.headers "Via" = some via) (hc : m.cseq = .ok mc)
    (hto : m.to_details = .ok mto) :
    ∃ amsg, (ack d m []).2 = .ok amsg := by
  obtain ⟨amsg, hok, -, -⟩ := prepare_request_headers d "ACK"
    (hSet [] "Via" via) none (some mc) (some mto) "Expires"
    (by decide) (by decide) (by decide)
  exact ⟨amsg, by simp [ack, hvia, hc, hto, hok]⟩

theorem invite_set_result_facts (s : InvDialog) (reg : Registry) (m : Msg) :
    (invite_set_result s reg m).s.queue = s.queue ∧
    (invite_set_result s reg m).s.state = s.state ∧
    (invite_set_result s reg m).registry = reg ∧
    ((invite_set_result s reg m).err = none →
      (invite_set_result s reg m).s.waiter =
        (if s.waiter.isNone then some m else s.waiter) ∧
      (invite_set_result s reg m).acks.length = 1) ∧
    ((invite_set_result s reg m).err ≠ none →
      (invite_set_result s reg m).s.waiter = s.waiter ∧
      (invite_set_result s reg m).acks = []) := by
  unfold invite_set_result
  cases hack : (ack s.d m []).2 <;> simp [hack]

theorem invite_set_result_ok (s : InvDialog) (reg : Registry) (m : Msg)
    (via : HVal) (mc : Nat) (mto : Contact)
    (hvia : hGet? m.headers "Via" = some via) (hc : m.cseq = .ok mc)
    (hto : m.to_details = .ok mto) :
    (invite_set_result s reg m).err = none := by
  obtain ⟨amsg, hok⟩ := ack_ok s.d m via mc mto hvia hc hto
  simp [invite_set_result, hok]

theorem invite_receive_request_proj (s : InvDialog) (reg : Registry)
    (m : Msg) :
    (invite_receive_request s reg m).s.queue = s.queue ∧
    (invite_receive_request s reg m).s.state = s.state ∧
    (invite_receive_request s reg m).s.waiter = s.waiter ∧
    (invite_receive_request s reg m).registry = reg := by
  have htail : ∀ (d' : Dialog),
      (invite_receive_request_tail s reg d' m).s.queue = s.queue ∧
      (invite_receive_request_tail s reg d' m).s.state = s.state ∧
      (invite_receive_request_tail s reg d' m).s.waiter = s.waiter ∧
      (invite_receive_request_tail s reg d' m).registry = reg := by
    intro d'
    unfold invite_receive_request_tail
    cases hmc : maybe_close d' m <;> simp
  unfold invite_receive_request
  refine ⟨?_, ?_, ?_, ?_⟩ <;> (repeat' split) <;>
    simp [htail]

/-- The per-state dispatch projections needed below: `invite_dispatch` never
touches the inbound queue. -/
theorem invite_dispatch_queue (s : InvDialog) (reg : Registry) (m : Msg) :
    (invite_dispatch s reg m).s.queue = s.queue := by
  unfold invite_dispatch
  cases hst : s.state
  · cases hsc : m.statusCode with
    | none => simp
    | some sc =>
      by_cases h1 : 100 ≤ sc ∧ sc < 200
      · simp [h1]
      · by_cases h2 : sc = 200
        · have := (invite_set_result_facts
            { s with state := .Terminated } reg m).1
          simp [h1, h2, this]
        · by_cases h3 : 300 ≤ sc ∧ sc < 700
          · have := (invite_set_result_facts
              { s with state := .Completed } reg m).1
            simp [h1, h2, h3, this]
          · simp [h1, h2, h3]
  · cases hsc : m.statusCode with
    | none => simp
    | some sc =>
      by_cases h1 : 100 ≤ sc ∧ sc < 200
      · simp [h1]
      · by_cases h2 : sc = 200
        · have := (invite_set_result_facts
            { s with state := .Terminated } reg m).1
          simp [h1, h2, this]
        · by_cases h3 : 300 ≤ sc ∧ sc < 700
          · have := (invite_set_result_facts
              { s with state := .Completed } reg m).1
            simp [h1, h2, h3, this]
          · simp [h1, h2, h3]
  · cases hack : (ack s.d m []).2 <;> simp [hack]
  · by_cases hr : m.isResponse = true
    · simp [hr]
    · simp only [hr, Bool.false_eq_true, if_false]
      cases m.method with
      | error e => simp [hr]
      | ok me =>
        by_cases hme : me = "ACK"
        · simp [hr, hme]
        · have := (invite_receive_request_proj s reg m).1
          simp [hr, hme, this]

theorem invite_dispatch_wf (s : InvDialog) (reg : Registry) (m : Msg)
    (hwf : InvWF s) : InvWF (invite_dispatch s reg m).s := by
  unfold invite_dispatch
  cases hst : s.state <;> dsimp only
  case Calling =>
    cases hsc : m.statusCode with
    | none =>
      intro hpre
      exact hwf (by simpa using hpre)
    | some sc =>
      dsimp only
      by_cases h1 : 100 ≤ sc ∧ sc < 200
      · rw [if_pos h1]
        intro _
        simpa using hwf (Or.inl hst)
      · by_cases h2 : sc = 200
        · have hT : (invite_set_result { s with state := .Terminated }
              reg m).s.state = CallState.Terminated := by
            simpa using (invite_set_result_facts
              { s with state := .Terminated } reg m).2.1
          rw [if_neg h1, if_pos h2]
          intro hpre
          rw [hT] at hpre
          rcases hpre with h | h <;> exact CallState.noConfusion h
        · by_cases h3 : 300 ≤ sc ∧ sc < 700
          · have hT : (invite_set_result { s with state := .Completed }
                reg m).s.state = CallState.Completed := by
              simpa using (invite_set_result_facts
                { s with state := .Completed } reg m).2.1
            rw [if_neg h1, if_neg h2, if_pos h3]
            intro hpre
            rw [hT] at hpre
            rcases hpre with h | h <;> exact CallState.noConfusion h
          · rw [if_neg h1, if_neg h2, if_neg h3]
            intro hpre
            exact hwf (by simpa using hpre)
  case Proceeding =>
    cases hsc : m.statusCode with
    | none =>
      intro hpre
      exact hwf (by simpa using hpre)
    | some sc =>
      dsimp only
      by_cases h1 : 100 ≤ sc ∧ sc < 200
      · rw [if_pos h1]
        intro hpre
        exact hwf (by simpa using hpre)
      · by_cases h2 : sc = 200
        · have hT : (invite_set_result { s with state := .Terminated }
              reg m).s.state = CallState.Terminated := by
            simpa using (invite_set_result_facts
              { s with state := .Terminated } reg m).2.1
          rw [if_neg h1, if_pos h2]
          intro hpre
          rw [hT] at hpre
          rcases hpre with h | h <;> exact CallState.noConfusion h
        · by_cases h3 : 300 ≤ sc ∧ sc < 700
          · have hT : (invite_set_result { s with state := .Completed }
                reg m).s.state = CallState.Completed := by
              simpa using (invite_set_result_facts
                { s with state := .Completed } reg m).2.1
            rw [if_neg h1, if_neg h2, if_pos h3]
            intro hpre
            rw [hT] at hpre
            rcases hpre with h | h <;> exact CallState.noConfusion h
          · rw [if_neg h1, if_neg h2, if_neg h3]
            intro hpre
            exact hwf (by simpa using hpre)
  case Completed =>
    cases hack : (ack s.d m []).2 <;>
      (intro hpre; exfalso; simp [hack, hst] at hpre)
  case Terminated =>
    by_cases hr : m.isResponse = true
    · simp only [hr, if_true]
      intro hpre
      simp [hst] at hpre
    · simp only [hr, Bool.false_eq_true, if_false]
      cases m.method with
      | error e =>
        intro hpre
        simp [hst] at hpre
      | ok me =>
        by_cases hme : me = "ACK"
        · simp only [hme, if_true]
          intro hpre
          simp [hst] at hpre
        · simp only [hme, if_false]
          have := (invite_receive_request_proj s reg m).2.1
          intro hpre
          rw [this, hst] at hpre
          rcases hpre with h | h <;> exact CallState.noConfusion h

theorem invite_receive_wf (s : InvDialog) (reg : Registry) (m : Msg)
    (hwf : InvWF s) : InvWF (invite_receive_message s reg m).s := by
  have hq : ∀ (s' : InvDialog), InvWF s' →
      ∀ q d', InvWF { s' with queue := q, d := d' } := by
    intro s' hwf' q d' hpre
    exact hwf' (by simpa using hpre)
  unfold invite_receive_message
  by_cases hna : ¬ hasTag s.d.to_details = true
  · rw [if_pos hna]
    cases m.to_details with
    | error e => exact fun hpre => hwf (by simpa using hpre)
    | ok mto =>
      dsimp only
      cases paramGet? mto "tag" with
      | none =>
        dsimp only
        exact invite_dispatch_wf _ reg m (hq s hwf (s.queue ++ [m]) s.d)
      | some tg =>
        dsimp only
        cases regDel reg s.d.dialog_id with
        | none => exact fun hpre => hwf (by simpa using hpre)
        | some reg1 =>
          dsimp only
          exact invite_dispatch_wf _ _ m (hq s hwf (s.queue ++ [m]) _)
  · rw [if_neg hna]
    exact invite_dispatch_wf _ reg m (hq s hwf (s.queue ++ [m]) s.d)

/-- C1 (amended): for an `InviteDialog` starting in `Calling`, every
delivered message is enqueued to the inbound queue before the per-state
dispatch (which never touches the queue); the dispatch follows the §4.5
table with these code-level provisos: a `2xx` other than `200` (and any
status `≥ 700`) in `Calling` or `Proceeding` is absorbed with *no* action,
no ACK and no state change; in `Terminated` messages are routed through the
base response/request handlers, which send no ACK.  A `1xx` in
`Calling`/`Proceeding` moves to `Proceeding` with no action; a `200` sends
exactly one ACK, completes the pending waiter and moves to `Terminated`; a
`3xx`–`6xx` sends exactly one ACK, completes the waiter and moves to
`Completed`; in `Completed` any message is ACKed once and absorbed without
changing the state or the waiter.  The waiter is pending whenever the state
is still `Calling`/`Proceeding` (true initially and preserved by every
delivery), so the first `200`/`3xx`–`6xx` really completes it. -/
theorem invite_state_machine :
    (∀ (s : InvDialog) (reg : Registry) (m : Msg),
      hasTag s.d.to_details = true →
      invite_receive_message s reg m =
        invite_dispatch { s with queue := s.queue ++ [m] } reg m) ∧
    (∀ (s : InvDialog) (reg : Registry) (m : Msg),
      (invite_dispatch s reg m).s.queue = s.queue) ∧
    (∀ (s : InvDialog) (reg : Registry) (m : Msg) (sc : Nat),
      m.statusCode = some sc → 100 ≤ sc → sc < 200 →
      (s.state = .Calling ∨ s.state = .Proceeding) →
      invite_dispatch s reg m =
        ⟨{ s with state := .Proceeding }, reg, [], none, none⟩) ∧
    (∀ (s : InvDialog) (reg : Registry) (m : Msg) (via : HVal) (mc : Nat)
      (mto : Contact),
      m.statusCode = some 200 → hGet? m.headers "Via" = some via →
      m.cseq = .ok mc → m.to_details = .ok mto →
      (s.state = .Calling ∨ s.state = .Proceeding) →
      (invite_dispatch s reg m).s.state = .Terminated ∧
      (invite_dispatch s reg m).s.waiter =
        (if s.waiter = none then some m else s.waiter) ∧
      (invite_dispatch s reg m).acks.length = 1 ∧
      (invite_dispatch s reg m).err = none ∧
      (invite_dispatch s reg m).registry = reg) ∧
    (∀ (s : InvDialog) (reg : Registry) (m : Msg) (sc : Nat) (via : HVal)
      (mc : Nat) (mto : Contact),
      m.statusCode = some sc → 300 ≤ sc → sc < 700 →
      hGet? m.headers "Via" = some via → m.cseq = .ok mc →
      m.to_details = .ok mto →
      (s.state = .Calling ∨ s.state = .Proceeding) →
      (invite_dispatch s reg m).s.state = .Completed ∧
      (invite_dispatch s reg m).s.waiter =
        (if s.waiter = none then some m else s.waiter) ∧
      (invite_dispatch s reg m).acks.length = 1 ∧
      (invite_dispatch s reg m).err = none ∧
      (invite_dispatch s reg m).registry = reg) ∧
    (∀ (s : InvDialog) (reg : Registry) (m : Msg) (sc : Nat),
      m.statusCode = some sc → (200 < sc ∧ sc < 300) ∨ 700 ≤ sc →
      (s.state = .Calling ∨ s.state = .Proceeding) →
      invite_dispatch s reg m = ⟨s, reg, [], none, none⟩) ∧
    (∀ (s : InvDialog) (reg : Registry) (m : Msg) (via : HVal) (mc : Nat)
      (mto : Contact),
      s.state = .Completed → hGet? m.headers "Via" = some via →
      m.cseq = .ok mc → m.to_details = .ok mto →
      (invite_dispatch s reg m).s.state = .Completed ∧
      (invite_dispatch s reg m).s.waiter = s.waiter ∧
      (invite_dispatch s reg m).acks.length = 1 ∧
      (invite_dispatch s reg m).err = none ∧
      (invite_dispatch s reg m).registry = reg) ∧
    (∀ (s : InvDialog) (reg : Registry) (m : Msg),
      s.state = .Terminated → m.isResponse = true →
      invite_dispatch s reg m =
        ⟨{ s with d := (receive_response s.d reg m).dialog },
         (receive_response s.d reg m).registry, [],
         (receive_response s.d reg m).delivered,
         (receive_response s.d reg m).err⟩) ∧
    (∀ (s : InvDialog) (reg : Registry) (m : Msg) (me : String),
      s.state = .Terminated → m.isResponse = false → m.method = .ok me →
      me ≠ "ACK" →
      invite_dispatch s reg m = invite_receive_request s reg m) ∧
    (∀ (d : Dialog), InvWF (invite_init d)) ∧
    (∀ (s : InvDialog) (reg : Registry) (m : Msg),
      InvWF s → InvWF (invite_receive_message s reg m).s) := by
  refine ⟨fun s reg m h => ?_, invite_dispatch_queue, ?_, ?_, ?_, ?_, ?_,
    ?_, ?_, fun d => ?_, invite_receive_wf⟩
  · simp [invite_receive_message, h]
  · intro s reg m sc hsc h1 h2 hst
    rcases hst with hst | hst
    · unfold invite_dispatch
      rw [hst]
      dsimp only
      rw [hsc]
      dsimp only
      rw [if_pos ⟨h1, h2⟩]
    · unfold invite_dispatch
      rw [hst]
      dsimp only
      rw [hsc]
      dsimp only
      rw [if_pos ⟨h1, h2⟩]
      cases s
      simp_all
  · intro s reg m via mc mto hsc hvia hc hto hst
    have hok := invite_set_result_ok { s with state := .Terminated } reg m
      via mc mto hvia hc hto
    have hfacts := invite_set_result_facts { s with state := .Terminated }
      reg m
    have hres := hfacts.2.2.2.1 hok
    rcases hst with hst | hst <;>
      · unfold invite_dispatch
        rw [hst]
        dsimp only
        rw [hsc]
        dsimp only
        rw [if_neg (by omega), if_pos rfl]
        refine ⟨by simpa using hfacts.2.1, by simpa using hres.1,
          hres.2, hok, hfacts.2.2.1⟩
  · intro s reg m sc via mc mto hsc h1 h2 hvia hc hto hst
    have hok := invite_set_result_ok { s with state := .Completed } reg m
      via mc mto hvia hc hto
    have hfacts := invite_set_result_facts { s with state := .Completed }
      reg m
    have hres := hfacts.2.2.2.1 hok
    rcases hst with hst | hst <;>
      · unfold invite_dispatch
        rw [hst]
        dsimp only
        rw [hsc]
        dsimp only
        rw [if_neg (by omega), if_neg (by omega), if_pos ⟨h1, h2⟩]
        refine ⟨by simpa using hfacts.2.1, by simpa using hres.1,
          hres.2, hok, hfacts.2.2.1⟩
  · intro s reg m sc hsc hrange hst
    rcases hst with hst | hst <;>
      · unfold invite_dispatch
        rw [hst]
        dsimp only
        rw [hsc]
        dsimp only
        rw [if_neg (by omega), if_neg (by omega), if_neg (by omega)]
  · intro s reg m via mc mto hst hvia hc hto
    obtain ⟨amsg, hok⟩ := ack_ok s.d m via mc mto hvia hc hto
    unfold invite_dispatch
    rw [hst]
    dsimp only
    rw [hok]
    simp [hst]
  · intro s reg m hst hr
    unfold invite_dispatch
    rw [hst]
    dsimp only
    rw [if_pos hr]
  · intro s reg m me hst hr hme hne
    unfold invite_dispatch
    rw [hst]
    dsimp only
    rw [if_neg (by simp [hr]), hme]
    dsimp only
    rw [if_neg hne]
  · intro hpre
    rfl

/-- C1 witness: on a concrete dialog, a `180` in `Calling` moves to
`Proceeding` with no action; a `200` in `Proceeding` then ACKs once,
completes the waiter with the response, and terminates. -/
theorem invite_state_machine_witness :
    invite_dispatch (invite_init dX) regX resp180 =
      ⟨{ invite_init dX with state := .Proceeding }, regX, [], none, none⟩ ∧
    (invite_dispatch { invite_init dX with state := .Proceeding } regX
      resp200).s.state = .Terminated ∧
    (invite_dispatch { invite_init dX with state := .Proceeding } regX
      resp200).s.waiter = some resp200 ∧
    (invite_dispatch { invite_init dX with state := .Proceeding } regX
      resp200).acks.length = 1 := by
  have h1 := invite_state_machine.2.2.1 (invite_init dX) regX resp180 180
    (by decide) (by decide) (by decide) (Or.inl rfl)
  have h2 := invite_state_machine.2.2.2.1
    { invite_init dX with state := .Proceeding } regX resp200
    (.one "SIP/2.0/UDP h") 5
    ⟨⟨"alice.example.com", some 5060⟩, [("tag", "atag")]⟩
    (by decide) (by decide) (by decide) (by decide) (Or.inr rfl)
  refine ⟨h1, h2.1, ?_, h2.2.2.1⟩
  rw [h2.2.1]
  decide

/-- C1 counterexample: the claim says every final (status ≥ 200) response
triggers exactly one ACK, but a `202 Accepted` delivered in `Calling` falls
through every branch of the state machine: no ACK is sent (and the state
does not change). -/
theorem invite_ack_claim_false :
    resp202.statusCode = some 202 ∧ 202 ≥ 200 ∧
    ¬ ((invite_receive_message (invite_init dX) regX resp202).acks.length =
        1) := by
  decide

/-! ## Wire order of the serialized header block (C3) -/

theorem clLe_total (a : List Char) : ∀ b, clLe a b = true ∨ clLe b a = true := by
  induction a with
  | nil => intro b; left; rfl
  | cons x xs ih =>
    intro b
    cases b with
    | nil => right; rfl
    | cons y ys =>
      rcases lt_trichotomy x y with h | h | h
      · left; simp [clLe, h]
      · subst h
        rcases ih ys with h2 | h2
        · left; simp [clLe, h2]
        · right; simp [clLe, h2]
      · right; simp [clLe, h]

theorem clLe_trans (a : List Char) :
    ∀ b c, clLe a b = true → clLe b c = true → clLe a c = true := by
  induction a with
  | nil => intro b c _ _; rfl
  | cons x xs ih =>
    intro b c h1 h2
    cases b with
    | nil => simp [clLe] at h1
    | cons y ys =>
      cases c with
      | nil => simp [clLe] at h2
      | cons z zs =>
        simp only [clLe, Bool.or_eq_true, Bool.and_eq_true,
          decide_eq_true_eq] at h1 h2 ⊢
        rcases h1 with h1 | ⟨h1, h1'⟩
        · rcases h2 with h2 | ⟨h2, _⟩
          · exact Or.inl (h1.trans h2)
          · exact Or.inl (h2 ▸ h1)
        · rcases h2 with h2 | ⟨h2, h2'⟩
          · exact Or.inl (h1 ▸ h2)
          · exact Or.inr ⟨h1.trans h2, ih ys zs h1' h2'⟩

theorem ciEq_false_symm {a b : String} (h : ciEq a b = false) :
    ciEq b a = false := by
  cases hba : ciEq b a
  · rfl
  · exact absurd (ciEq_symm hba) (by simp [h])

/-- `ciNodupKeys` transfers along permutations. -/
theorem ciNodupKeys_perm {h h' : Headers} (hp : h.Perm h')
    (hn : ciNodupKeys h) : ciNodupKeys h' :=
  (hp.pairwise_iff (fun hxy => ciEq_false_symm hxy)).mp hn

/-- A fold whose step prepends the rendered lines of `Via`-named entries and
appends everything else splits into the reversed `Via` block followed by the
other entries' lines. -/
theorem foldl_format_split (g : String × HVal → List String)
    (step : List String → String × HVal → List String)
    (hstep : ∀ acc e, step acc e =
      if e.1 = "Via" then g e ++ acc else acc ++ g e) :
    ∀ (l : Headers) (acc : List String),
      l.foldl step acc = viaRevJoin g l ++ acc ++ nonViaJoin g l := by
  intro l
  induction l with
  | nil => intro acc; simp [viaRevJoin, nonViaJoin]
  | cons e l ih =>
    intro acc
    rw [List.foldl_cons, ih, hstep]
    by_cases he : e.1 = "Via"
    · rw [if_pos he]
      simp [viaRevJoin, nonViaJoin, List.filter_cons, he]
    · rw [if_neg he]
      simp [viaRevJoin, nonViaJoin, List.filter_cons, he]

theorem list_eq_reverse_of_len_le_one {α : Type} {l : List α}
    (h : l.length ≤ 1) : l.reverse = l := by
  rcases l with _ | ⟨a, _ | ⟨b, t⟩⟩
  · rfl
  · rfl
  · simp at h

theorem perm_eq_of_length_le_one {α : Type} {l l' : List α}
    (hp : l.Perm l') (h : l.length ≤ 1) : l = l' := by
  rcases l with _ | ⟨a, _ | ⟨b, t⟩⟩
  · exact (hp.nil_eq).symm ▸ rfl
  · exact (List.perm_singleton.mp hp.symm).symm
  · simp at h

/-- Under case-insensitively distinct keys, at most one entry is named
exactly `Via`. -/
theorem via_filter_len_le_one {h : Headers} (hn : ciNodupKeys h) :
    (h.filter (fun e => e.1 == "Via")).length ≤ 1 := by
  rcases hfl : h.filter (fun e => e.1 == "Via") with _ | ⟨a, _ | ⟨b, t⟩⟩
  · rw [hfl]; simp
  · rw [hfl]; simp
  · exfalso
    have hp := hn.filter (fun e => e.1 == "Via")
    rw [hfl] at hp
    have hab := (List.pairwise_cons.mp hp).1 b (by simp)
    have ha : a ∈ h.filter (fun e => e.1 == "Via") := by
      rw [hfl]; exact List.mem_cons_self a _
    have hb : b ∈ h.filter (fun e => e.1 == "Via") := by
      rw [hfl]; simp
    have ha1 : a.1 = "Via" := by simpa using (List.mem_filter.mp ha).2
    have hb1 : b.1 = "Via" := by simpa using (List.mem_filter.mp hb).2
    rw [ha1, hb1, ciEq_refl] at hab
    exact absurd hab (by simp)

/-- **C3 (corrected).** Wire order of the serialized header block: the
entry named exactly `Via` (unique under the `CIMultiDict` invariant, and
identical in the sorted and unsorted views) is emitted first as one block in
its multi-value order, and every other entry follows in ascending
*case-sensitive* (code-point) order of its displayed name, a permutation of
the non-`Via` entries.  The compact serializer emits the same entries in the
same order with aliased names (so its lines are not sorted by displayed
name).  A `Via` header whose stored spelling differs (e.g. `via` from a
compact or lowercased inbound header) is *not* fronted: it sorts with the
rest, refuting the claim's case-insensitive reading; likewise the sort is
not the claimed case-insensitive ascending order. -/
theorem wire_header_order (h : Headers) (hn : ciNodupKeys h) :
    format_headers h =
      (((List.insertionSort hdrRel h).filter (fun e => e.1 == "Via")).map
          renderEntry).flatten ++
        (((List.insertionSort hdrRel h).filter
            (fun e => ¬ (e.1 == "Via"))).map renderEntry).flatten ∧
    (List.insertionSort hdrRel h).filter (fun e => e.1 == "Via") =
      h.filter (fun e => e.1 == "Via") ∧
    List.Sorted hdrRel
      ((List.insertionSort hdrRel h).filter (fun e => ¬ (e.1 == "Via"))) ∧
    ((List.insertionSort hdrRel h).filter (fun e => ¬ (e.1 == "Via"))).Perm
      (h.filter (fun e => ¬ (e.1 == "Via"))) ∧
    compact_format_headers h =
      (((List.insertionSort hdrRel h).filter (fun e => e.1 == "Via")).map
          (fun e => renderEntry (compactDisp e))).flatten ++
        (((List.insertionSort hdrRel h).filter
            (fun e => ¬ (e.1 == "Via"))).map
          (fun e => renderEntry (compactDisp e))).flatten := by
  haveI : IsTotal (String × HVal) hdrRel :=
    ⟨fun a b => by
      unfold hdrRel nameLe
      rcases clLe_total a.1.toList b.1.toList with h | h
      · exact Or.inl h
      · exact Or.inr h⟩
  haveI : IsTrans (String × HVal) hdrRel :=
    ⟨fun a b c h1 h2 => clLe_trans a.1.toList b.1.toList c.1.toList h1 h2⟩
  have hperm : (List.insertionSort hdrRel h).Perm h :=
    List.perm_insertionSort hdrRel h
  have hns : ciNodupKeys (List.insertionSort hdrRel h) :=
    ciNodupKeys_perm hperm.symm hn
  have hlen := via_filter_len_le_one hns
  have hvia_eq : (List.insertionSort hdrRel h).filter (fun e => e.1 == "Via") =
      h.filter (fun e => e.1 == "Via") :=
    perm_eq_of_length_le_one (hperm.filter _) hlen
  have hrev : ∀ (g : String × HVal → List String),
      viaRevJoin g (List.insertionSort hdrRel h) =
        (((List.insertionSort hdrRel h).filter
            (fun e => e.1 == "Via")).map g).flatten := by
    intro g
    unfold viaRevJoin
    rw [list_eq_reverse_of_len_le_one (by simpa using hlen)]
  refine ⟨?_, hvia_eq, ?_, hperm.filter _, ?_⟩
  · rw [format_headers,
      foldl_format_split renderEntry formatStep (fun acc e => rfl),
      hrev renderEntry]
    simp [nonViaJoin]
  · exact (List.sorted_insertionSort hdrRel h).filter _
  · rw [compact_format_headers,
      foldl_format_split (fun e => renderEntry (compactDisp e))
        formatStepCompact (fun acc e => rfl),
      hrev (fun e => renderEntry (compactDisp e))]
    simp [nonViaJoin]

/-- The claimed wire order is violated by a real parsed-then-encoded
message: with the `Via` header spelled `via` on arrival, its line is not
fronted, and the remaining lines (`CSeq` before `Call-ID`) are not in
case-insensitive ascending name order. -/
theorem wire_order_claim_false :
    msgLowerVia.header_lines = .ok wireLowerVia ∧
    ¬ (viaFirstLines wireLowerVia = true ∧
       ciAscendingLines (wireLowerVia.filter (fun l => ¬ isViaLine l)) =
         true) := by
  decide

/-- Witness: the corrected order at a concrete header map with a
multi-valued `Via` entry. -/
theorem wire_header_order_witness :
    format_headers hWire =
      (((List.insertionSort hdrRel hWire).filter (fun e => e.1 == "Via")).map
          renderEntry).flatten ++
        (((List.insertionSort hdrRel hWire).filter
            (fun e => ¬ (e.1 == "Via"))).map renderEntry).flatten ∧
    (List.insertionSort hdrRel hWire).filter (fun e => e.1 == "Via") =
      hWire.filter (fun e => e.1 == "Via") ∧
    List.Sorted hdrRel
      ((List.insertionSort hdrRel hWire).filter (fun e => ¬ (e.1 == "Via"))) ∧
    ((List.insertionSort hdrRel hWire).filter
        (fun e => ¬ (e.1 == "Via"))).Perm
      (hWire.filter (fun e => ¬ (e.1 == "Via"))) ∧
    compact_format_headers hWire =
      (((List.insertionSort hdrRel hWire).filter (fun e => e.1 == "Via")).map
          (fun e => renderEntry (compactDisp e))).flatten ++
        (((List.insertionSort hdrRel hWire).filter
            (fun e => ¬ (e.1 == "Via"))).map
          (fun e => renderEntry (compactDisp e))).flatten :=
  wire_header_order hWire (by decide)

/-! ## Decimal rendering round-trip (C2 groundwork) -/

theorem pyStrAux_zero (f : Nat) : pyStrAux f 0 = [] := by
  cases f <;> rfl

theorem pyStrAux_succ (f n : Nat) (h0 : 0 < n) (hf : n ≤ f) :
    pyStrAux f n = pyStrAux (f - 1) (n / 10) ++ [Char.ofNat (48 + n % 10)] := by
  match f, n with
  | 0, n => omega
  | f + 1, 0 => omega
  | f + 1, n + 1 => rfl

theorem pyStrAux_fuel (n : Nat) : ∀ f g, n ≤ f → n ≤ g →
    pyStrAux f n = pyStrAux g n := by
  induction n using Nat.strong_induction_on with
  | _ n ih =>
    intro f g hf hg
    match n with
    | 0 => rw [pyStrAux_zero, pyStrAux_zero]
    | n + 1 =>
      rw [pyStrAux_succ f (n + 1) (by omega) hf,
        pyStrAux_succ g (n + 1) (by omega) hg,
        ih ((n + 1) / 10) (by omega) (f - 1) (g - 1) (by omega) (by omega)]

theorem ofNat_digit_isDigit (r : Nat) (h : r < 10) :
    (Char.ofNat (48 + r)).isDigit = true := by
  interval_cases r <;> decide

theorem digitVal_ofNat (r : Nat) (h : r < 10) :
    digitVal (Char.ofNat (48 + r)) = r := by
  interval_cases r <;> decide

theorem ofNat_digit_ne_space (r : Nat) (h : r < 10) :
    ¬ (Char.ofNat (48 + r) = ' ') := by
  interval_cases r <;> decide

theorem pyStrAux_digits (f : Nat) : ∀ n, n ≤ f →
    ∀ c ∈ pyStrAux f n, c.isDigit = true := by
  induction f with
  | zero => intro n _ c hc; simp [pyStrAux] at hc
  | succ f ih =>
    intro n hn c hc
    match n with
    | 0 => simp [pyStrAux] at hc
    | n + 1 =>
      rw [pyStrAux_succ (f + 1) (n + 1) (by omega) hn] at hc
      rcases List.mem_append.mp hc with hc | hc
      · exact ih ((n + 1) / 10) (by omega) c hc
      · rw [List.mem_singleton.mp hc]
        exact ofNat_digit_isDigit _ (by omega)

theorem foldl_pyStrAux (f : Nat) : ∀ n a0, n ≤ f →
    (pyStrAux f n).foldl (fun a c => 10 * a + digitVal c) a0 =
      a0 * 10 ^ (pyStrAux f n).length + n := by
  induction f with
  | zero =>
    intro n a0 hn
    match n with
    | 0 => simp [pyStrAux]
  | succ f ih =>
    intro n a0 hn
    match n with
    | 0 => simp [pyStrAux]
    | n + 1 =>
      rw [pyStrAux_succ (f + 1) (n + 1) (by omega) hn]
      simp only [Nat.add_sub_cancel]
      rw [List.foldl_append, List.length_append,
        ih ((n + 1) / 10) a0 (by omega)]
      simp only [List.foldl_cons, List.foldl_nil, List.length_singleton]
      rw [digitVal_ofNat _ (by omega), pow_succ]
      have hdm : 10 * ((n + 1) / 10) + (n + 1) % 10 = n + 1 :=
        Nat.div_add_mod (n + 1) 10
      set k := 10 ^ (pyStrAux f ((n + 1) / 10)).length
      ring_nf
      omega

theorem pyToNat?_pyStr (n : Nat) : pyToNat? (pyStr n) = some n := by
  by_cases h0 : n = 0
  · subst h0; decide
  · unfold pyToNat? pyStr
    rw [if_neg h0]
    have htl : ((pyStrAux n n).asString).toList = pyStrAux n n := rfl
    rw [htl]
    have hne : pyStrAux n n ≠ [] := by
      rw [pyStrAux_succ n n (by omega) le_rfl]
      simp
    have hdig := pyStrAux_digits n n le_rfl
    rw [if_pos ⟨hne, List.all_eq_true.mpr (fun c hc => hdig c hc)⟩]
    rw [foldl_pyStrAux n n 0 le_rfl]
    simp

theorem pyStr_three_digits {n : Nat} (h1 : 100 ≤ n) (h2 : n ≤ 999) :
    (pyStr n).toList =
      [Char.ofNat (48 + n / 100), Char.ofNat (48 + n / 10 % 10),
       Char.ofNat (48 + n % 10)] := by
  unfold pyStr
  rw [if_neg (by omega)]
  show pyStrAux n n = _
  rw [pyStrAux_succ n n (by omega) le_rfl,
    pyStrAux_succ (n - 1) (n / 10) (by omega) (by omega),
    pyStrAux_succ (n - 1 - 1) (n / 10 / 10) (by omega) (by omega),
    show n / 10 / 10 / 10 = 0 by omega, pyStrAux_zero]
  have e1 : n / 10 / 10 % 10 = n / 100 := by omega
  have e2 : n / 10 % 10 = n / 10 % 10 := rfl
  simp [e1]

/-- A digit character is not whitespace. -/
theorem isDigit_not_ws {c : Char} (hd : c.isDigit = true) :
    c.isWhitespace = false := by
  cases hw : c.isWhitespace
  · rfl
  · exfalso
    simp [Char.isWhitespace] at hw
    rcases hw with ((h | h) | h) | h <;> subst h <;>
      exact absurd hd (by decide)

/-- An ASCII letter is not whitespace. -/
theorem isAlpha_not_ws {c : Char} (ha : c.isAlpha = true) :
    c.isWhitespace = false := by
  cases hw : c.isWhitespace
  · rfl
  · exfalso
    simp [Char.isWhitespace] at hw
    rcases hw with ((h | h) | h) | h <;> subst h <;>
      exact absurd ha (by decide)

/-- An ASCII letter is not a newline (the request-line scanner cares). -/
theorem isAlpha_ne_nl {c : Char} (ha : c.isAlpha = true) : c ≠ '\n' := by
  intro h; subst h; exact absurd ha (by decide)

/-- A digit character of `pyStr` is never a space (used to split the
`CSeq` value). -/
theorem pyStr_no_space (n : Nat) : ∀ c ∈ (pyStr n).toList,
    c.isWhitespace = false := by
  intro c hc
  by_cases h0 : n = 0
  · subst h0
    have hc0 : c = '0' := by simpa [pyStr] using hc
    subst hc0; decide
  · have : (pyStr n).toList = pyStrAux n n := by
      unfold pyStr; rw [if_neg h0]; rfl
    rw [this] at hc
    exact isDigit_not_ws (pyStrAux_digits n n le_rfl c hc)

theorem pyStr_ne_empty (n : Nat) : (pyStr n).toList ≠ [] := by
  by_cases h0 : n = 0
  · subst h0; decide
  · have : (pyStr n).toList = pyStrAux n n := by
      unfold pyStr; rw [if_neg h0]; rfl
    rw [this, pyStrAux_succ n n (by omega) le_rfl]
    simp

/-! ## Line splitting round-trips (C2 groundwork) -/

theorem asString_toList (s : String) : (s.toList).asString = s := by
  cases s; rfl

theorem toList_append (a b : String) : (a ++ b).toList = a.toList ++ b.toList :=
  String.data_append a b

theorem asString_data (s : String) : s.data.asString = s := by
  cases s; rfl

theorem hasColonSpace_cons_false {c : Char} {k : List Char}
    (h : hasColonSpace (c :: k) = false) : hasColonSpace k = false := by
  rw [hasColonSpace.eq_def] at h
  split at h <;> simp_all

/-- A header line rebuilt as `name: value` splits back at the first `': '`
exactly at the name boundary, provided the name itself is free of `': '`
(the value may contain the separator: the split is leftmost-first). -/
theorem splitColonAux_round (v : List Char) : ∀ k, hasColonSpace k = false →
    splitColonAux (k ++ ':' :: ' ' :: v) = some (k, v) := by
  intro k
  induction k with
  | nil => intro _; rfl
  | cons c k ih =>
    intro h
    have hk := hasColonSpace_cons_false h
    rw [List.cons_append, splitColonAux.eq_def]
    split
    · next heq => simp at heq
    · next rest heq =>
      exfalso
      rw [List.cons.injEq] at heq
      obtain ⟨hc, htail⟩ := heq
      subst hc
      cases k with
      | nil => simp at htail
      | cons d k' =>
        rw [List.cons_append, List.cons.injEq] at htail
        obtain ⟨hd, _⟩ := htail
        subst hd
        exact absurd h (by simp [hasColonSpace])
    · next c' rest hne heq =>
      rw [List.cons.injEq] at heq
      obtain ⟨hc, htail⟩ := heq
      subst hc
      rw [← htail, ih hk]
      rfl

theorem splitHeaderLine_round (k v : String)
    (h : hasColonSpace k.toList = false) :
    splitHeaderLine (k ++ ": " ++ v) = some (k, v) := by
  unfold splitHeaderLine
  have hl : (k ++ ": " ++ v).toList = k.toList ++ ':' :: ' ' :: v.toList := by
    rw [toList_append, toList_append, List.append_assoc]
    rfl
  rw [hl, splitColonAux_round v.toList k.toList h]
  simp [asString_data]

/-- `list.splitOn ' '` of a separator-free list. -/
theorem splitOn_no_sep {l : List Char} (h : ∀ c ∈ l, ¬ (c = ' ')) :
    l.splitOn ' ' = [l] := by
  induction l with
  | nil => rfl
  | cons c t ih =>
    rw [List.splitOn, List.splitOnP_cons]
    rw [if_neg (by simpa using h c (by simp))]
    have := ih (fun c hc => h c (by simp [hc]))
    rw [List.splitOn] at this
    rw [this]
    rfl

/-- `list.splitOn ' '` at the first separator. -/
theorem splitOn_first {a : List Char} (b : List Char)
    (h : ∀ c ∈ a, ¬ (c = ' ')) :
    (a ++ ' ' :: b).splitOn ' ' = a :: b.splitOn ' ' := by
  induction a with
  | nil =>
    rw [List.nil_append, List.splitOn, List.splitOnP_cons, if_pos (by simp)]
    rfl
  | cons c t ih =>
    rw [List.cons_append, List.splitOn, List.splitOnP_cons]
    rw [if_neg (by simpa using h c (by simp))]
    have := ih (fun c hc => h c (by simp [hc]))
    rw [List.splitOn] at this
    rw [this]
    rfl

/-- Pushing a whitespace-free prefix through the `str.split()` scanner. -/
theorem splitWsAux_push {a : List Char} (rest : List Char)
    (h : ∀ c ∈ a, c.isWhitespace = false) :
    ∀ cur, splitWsAux cur (a ++ rest) = splitWsAux (a.reverse ++ cur) rest := by
  induction a with
  | nil => intro cur; rfl
  | cons c t ih =>
    intro cur
    rw [List.cons_append, splitWsAux]
    rw [if_neg (by simp [h c (by simp)])]
    rw [ih (fun c hc => h c (by simp [hc])) (c :: cur)]
    simp

/-- `str.split()` of `a ++ ' ' ++ b` with whitespace-free non-empty
fields. -/
theorem splitWs_two (a b : String) (ha : a.toList ≠ [])
    (hb : b.toList ≠ []) (hwa : ∀ c ∈ a.toList, c.isWhitespace = false)
    (hwb : ∀ c ∈ b.toList, c.isWhitespace = false) :
    splitWs (a ++ " " ++ b) = [a, b] := by
  unfold splitWs
  have hl : (a ++ " " ++ b).toList = a.toList ++ ' ' :: b.toList := by
    rw [toList_append, toList_append, List.append_assoc]; rfl
  have hb2 : splitWsAux [] b.toList = [b.toList] := by
    have hpush := splitWsAux_push ([] : List Char) hwb []
    rw [List.append_nil, List.append_nil] at hpush
    rw [hpush, splitWsAux, if_neg (by simpa using hb)]
    simp
  rw [hl, splitWsAux_push (' ' :: b.toList) hwa []]
  rw [splitWsAux, if_pos (by decide)]
  rw [List.append_nil, if_neg (by simpa using ha)]
  rw [hb2]
  simp
  exact ⟨asString_data a, asString_data b⟩

/-- `takeWhile` stops exactly at the first failing character. -/
theorem takeWhile_append_stop {p : Char → Bool} {a : List Char} (c : Char)
    (b : List Char) (ha : ∀ x ∈ a, p x = true) (hc : p c = false) :
    (a ++ c :: b).takeWhile p = a := by
  induction a with
  | nil => simp [List.takeWhile_cons, hc]
  | cons x t ih =>
    rw [List.cons_append, List.takeWhile_cons, ha x (by simp)]
    rw [ih (fun x hx => ha x (by simp [hx])), if_pos rfl]

/-- The scanner of the request-line tail accepts a non-empty newline-free
URI followed by the literal `" SIP/2.0"`. -/
theorem reqTailCheck_ok (u : List Char) (hne : u ≠ [])
    (hnl : ∀ c ∈ u, c ≠ '\n') :
    reqTailCheck (u ++ " SIP/2.0".toList) = true := by
  induction u with
  | nil => exact absurd rfl hne
  | cons c t ih =>
    rw [List.cons_append, reqTailCheck]
    have hcnl : (c ≠ '\n' : Bool) = true := by
      simpa using hnl c (by simp)
    rw [hcnl, Bool.true_and]
    cases t with
    | nil =>
      rw [List.nil_append]
      have : (" SIP/2.0".toList.isPrefixOf " SIP/2.0".toList) = true := by
        decide
      rw [this, Bool.true_or]
    | cons d t' =>
      rw [ih (by simp) (fun x hx => hnl x (by simp [hx])), Bool.or_true]

theorem toList_eq_nil {s : String} : s.toList = [] ↔ s = "" := by
  constructor
  · intro h
    have := asString_toList s
    rw [h] at this
    exact this.symm
  · intro h; subst h; rfl

/-- The request-line pattern accepts `METHOD uri SIP/2.0` and captures the
method. -/
theorem parseReqLine_ok (me u : String) (hma : allAlpha me) (hne : me ≠ "")
    (hu : u.toList ≠ []) (hnl : noNl u) :
    parseReqLine (me ++ " " ++ u ++ " SIP/2.0") = some me := by
  simp only [parseReqLine]
  have hl : (me ++ " " ++ u ++ " SIP/2.0").toList =
      me.toList ++ ' ' :: (u.toList ++ " SIP/2.0".toList) := by
    rw [toList_append, toList_append, toList_append,
      List.append_assoc, List.append_assoc]
    rfl
  rw [hl, takeWhile_append_stop ' ' _ hma (by decide), List.drop_left]
  have hme : me.toList ≠ [] := fun h => hne (toList_eq_nil.mp h)
  show (if me.toList ≠ [] ∧ reqTailCheck (u.toList ++ " SIP/2.0".toList) = true
    then some me.toList.asString else none) = some me
  rw [if_pos ⟨hme, reqTailCheck_ok u.toList hu hnl⟩]
  rw [asString_toList]

/-- The response-line pattern accepts `SIP/2.0 ddd reason` and captures the
code and the reason. -/
theorem parseRespLine_ok {st : Nat} (re : String) (h1 : 100 ≤ st)
    (h2 : st ≤ 999) (hre : re ≠ "") (hnl : noNl re) :
    parseRespLine ("SIP/2.0 " ++ pyStr st ++ " " ++ re) = some (st, re) := by
  unfold parseRespLine
  have hl : ("SIP/2.0 " ++ pyStr st ++ " " ++ re).toList =
      'S' :: 'I' :: 'P' :: '/' :: '2' :: '.' :: '0' :: ' ' ::
        Char.ofNat (48 + st / 100) :: Char.ofNat (48 + st / 10 % 10) ::
        Char.ofNat (48 + st % 10) :: ' ' :: re.toList := by
    rw [toList_append, toList_append, toList_append,
      pyStr_three_digits h1 h2]
    rfl
  rw [hl]
  show (if (Char.ofNat (48 + st / 100)).isDigit = true ∧
      (Char.ofNat (48 + st / 10 % 10)).isDigit = true ∧
      (Char.ofNat (48 + st % 10)).isDigit = true then
    if re.toList.takeWhile (fun c => c ≠ '\n') = [] then none
    else some (100 * digitVal (Char.ofNat (48 + st / 100)) +
        10 * digitVal (Char.ofNat (48 + st / 10 % 10)) +
        digitVal (Char.ofNat (48 + st % 10)),
      (re.toList.takeWhile (fun c => c ≠ '\n')).asString)
    else none) = some (st, re)
  rw [if_pos ⟨ofNat_digit_isDigit _ (by omega), ofNat_digit_isDigit _ (by omega),
    ofNat_digit_isDigit _ (by omega)⟩]
  have htw : re.toList.takeWhile (fun c => c ≠ '\n') = re.toList :=
    List.takeWhile_eq_self_iff.mpr (fun x hx => by simpa using hnl x hx)
  rw [htw]
  have hrne : re.toList ≠ [] := fun h => hre (toList_eq_nil.mp h)
  rw [if_neg hrne]
  rw [digitVal_ofNat _ (by omega), digitVal_ofNat _ (by omega),
    digitVal_ofNat _ (by omega), asString_toList]
  have : 100 * (st / 100) + 10 * (st / 10 % 10) + st % 10 = st := by omega
  rw [this]

/-- A request line (alphabetic method, then a space and a `sip:` URI) never
matches the response pattern. -/
theorem parseRespLine_req_none (me : String) (tail : List Char)
    (hma : allAlpha me) (hne : me ≠ "") :
    parseRespLine ((me.toList ++ ' ' :: 's' :: tail).asString) = none := by
  unfold parseRespLine
  rw [show ((me.toList ++ ' ' :: 's' :: tail).asString).toList =
    me.toList ++ ' ' :: 's' :: tail from rfl]
  have hme : me.toList ≠ [] := fun h => hne (toList_eq_nil.mp h)
  rcases hm : me.toList with _ | ⟨a0, _ | ⟨a1, _ | ⟨a2, _ | ⟨a3, m4⟩⟩⟩⟩
  · exact absurd hm hme
  · simp only [List.cons_append, List.nil_append]
    split
    · next heq => simp at heq
    · rfl
  · simp only [List.cons_append, List.nil_append]
    split
    · next heq => simp at heq
    · rfl
  · simp only [List.cons_append, List.nil_append]
    split
    · next heq => simp at heq
    · rfl
  · simp only [List.cons_append]
    split
    · next heq =>
      exfalso
      simp only [List.cons.injEq] at heq
      obtain ⟨h0, h1, h2, h3, _⟩ := heq
      have hmem : a3 ∈ me.toList := by rw [hm]; simp
      have halpha := hma a3 hmem
      rw [h3] at halpha
      exact absurd halpha (by decide)
    · rfl

/-! ## Refolding rendered headers (C2 groundwork) -/

theorem hGet?_eq_none {h : Headers} {k : String}
    (hc : hContains h k = false) : hGet? h k = none := by
  rw [hContains_eq_isSome] at hc
  cases hg : hGet? h k
  · rfl
  · rw [hg] at hc; simp at hc

theorem hContains_append_one (h : Headers) (x : String × HVal) (k : String) :
    hContains (h ++ [x]) k = (hContains h k || ciEq x.1 k) := by
  simp [hContains, List.any_append]

theorem hGet?_append_one {h : Headers} {k : String} (x : String × HVal)
    (hc : hContains h k = false) :
    hGet? (h ++ [x]) k = hGet? [x] k := by
  unfold hGet?
  rw [List.find?_append]
  have : h.find? (fun e => ciEq e.1 k) = none := by
    rw [List.find?_eq_none]
    intro e he hx
    have hany : h.any (fun e => ciEq e.1 k) = true :=
      List.any_eq_true.mpr ⟨e, he, by simpa using hx⟩
    rw [show h.any (fun e => ciEq e.1 k) = hContains h k from rfl, hc] at hany
    exact absurd hany (by decide)
  rw [this]
  rfl

theorem hSet_append_last {h : Headers} {k : String} (c v : HVal)
    (hc : hContains h k = false) :
    hSet (h ++ [(k, c)]) k v = h ++ [(k, v)] := by
  induction h with
  | nil => simp [hSet, ciEq_refl]
  | cons e rest ih =>
    have he : ciEq e.1 k = false := by
      simp [hContains] at hc
      simpa using hc.1
    rw [List.cons_append, hSet, if_neg (by simp [he]), ih (by
      simp [hContains] at hc ⊢
      intro a b hab
      exact hc.2 a b hab)]
    rfl

theorem foldl_growVal_many (vs : List String) : ∀ acc,
    vs.foldl growVal (.many acc) = .many (acc ++ vs) := by
  induction vs with
  | nil => intro acc; simp
  | cons v vs ih =>
    intro acc
    rw [List.foldl_cons]
    show vs.foldl growVal (.many (acc ++ [v])) = _
    rw [ih (acc ++ [v])]
    simp

theorem addHeaderLine_eq (h : Headers) (dk : String) (v : String) (k : String)
    (hnorm : (match compactLookup (toLowerStr dk) with
      | some long => long
      | none => dk) = k) :
    addHeaderLine h dk v =
      (match hGet? h k with
        | some (.one s0) => hSet h k (.many [s0, v])
        | some (.many l) => hSet h k (.many (l ++ [v]))
        | none => h ++ [(k, .one v)]) := by
  unfold addHeaderLine
  rw [hnorm]

theorem parse_header_lines_cons (h : Headers) (line : String)
    (rest : List String) :
    parse_header_lines h (line :: rest) =
      (match splitHeaderLine line with
        | none => throw (.valueError "unpack")
        | some (k, v) => pure (addHeaderLine h k v) :
          Except SipErr Headers).bind
        (fun h' => parse_header_lines h' rest) := by
  rfl

theorem parse_header_lines_append (h : Headers) (l1 l2 : List String) :
    parse_header_lines h (l1 ++ l2) =
      (parse_header_lines h l1).bind (fun h' => parse_header_lines h' l2) := by
  unfold parse_header_lines
  rw [List.foldlM_append]
  rfl

/-- Refolding the remaining value lines of one multi-valued entry. -/
theorem parse_render_grow (k dk : String)
    (hsp : hasColonSpace dk.toList = false)
    (hnorm : (match compactLookup (toLowerStr dk) with
      | some long => long
      | none => dk) = k) :
    ∀ (vs : List String) (h : Headers) (cur : HVal),
      hContains h k = false →
      parse_header_lines (h ++ [(k, cur)])
          (vs.map (fun s => dk ++ ": " ++ s)) =
        .ok (h ++ [(k, vs.foldl growVal cur)]) := by
  intro vs
  induction vs with
  | nil => intro h cur _; rfl
  | cons v vs ih =>
    intro h cur hc
    rw [List.map_cons, parse_header_lines_cons, splitHeaderLine_round dk v hsp]
    dsimp only
    rw [addHeaderLine_eq _ dk v k hnorm]
    rw [hGet?_append_one (k, cur) hc]
    have hself : hGet? [(k, cur)] k = some cur := by
      simp [hGet?, List.find?, ciEq_refl]
    rw [hself]
    cases cur with
    | one s =>
      show (pure (hSet (h ++ [(k, .one s)]) k (.many [s, v])) :
        Except SipErr Headers).bind _ = _
      rw [hSet_append_last _ _ hc]
      show parse_header_lines (h ++ [(k, .many [s, v])]) _ = _
      rw [ih h (.many [s, v]) hc]
      rw [List.foldl_cons]
      rfl
    | many l =>
      show (pure (hSet (h ++ [(k, .many l)]) k (.many (l ++ [v]))) :
        Except SipErr Headers).bind _ = _
      rw [hSet_append_last _ _ hc]
      show parse_header_lines (h ++ [(k, .many (l ++ [v]))]) _ = _
      rw [ih h (.many (l ++ [v])) hc]
      rw [List.foldl_cons]
      rfl

/-- Refolding all rendered lines of one entry. -/
theorem parse_render_one (h : Headers) (k dk : String) (v : HVal)
    (hsp : hasColonSpace dk.toList = false)
    (hnorm : (match compactLookup (toLowerStr dk) with
      | some long => long
      | none => dk) = k)
    (hc : hContains h k = false) (hv : valWF v) :
    parse_header_lines h (renderEntry (dk, v)) = .ok (h ++ [(k, v)]) := by
  cases v with
  | one s =>
    show parse_header_lines h [dk ++ ": " ++ s] = _
    rw [parse_header_lines_cons, splitHeaderLine_round dk s hsp]
    dsimp only
    rw [addHeaderLine_eq _ dk s k hnorm, hGet?_eq_none hc]
    rfl
  | many l =>
    match l, hv with
    | v1 :: v2 :: vs, _ =>
      show parse_header_lines h
        ((dk ++ ": " ++ v1) :: (List.map _ (v2 :: vs))) = _
      rw [parse_header_lines_cons, splitHeaderLine_round dk v1 hsp]
      dsimp only
      rw [addHeaderLine_eq _ dk v1 k hnorm, hGet?_eq_none hc]
      show parse_header_lines (h ++ [(k, .one v1)])
        (List.map (fun s => dk ++ ": " ++ s) (v2 :: vs)) = _
      rw [parse_render_grow k dk hsp hnorm (v2 :: vs) h (.one v1) hc]
      rw [List.foldl_cons]
      show Except.ok (h ++ [(k, List.foldl growVal (HVal.many [v1, v2]) vs)]) =
        Except.ok (h ++ [(k, HVal.many (v1 :: v2 :: vs))])
      rw [foldl_growVal_many vs [v1, v2]]
      rfl

/-- Refolding the rendered lines of a whole entry list with
case-insensitively distinct, cycle-surviving names: the parser rebuilds the
entry list exactly, appended to its accumulator. -/
theorem parse_render_all (disp : String × HVal → String) :
    ∀ (entries : Headers) (h : Headers),
      (∀ e ∈ entries, hasColonSpace (disp e).toList = false ∧
        (match compactLookup (toLowerStr (disp e)) with
          | some long => long
          | none => disp e) = e.1 ∧ valWF e.2) →
      entries.Pairwise (fun a b => ciEq a.1 b.1 = false) →
      (∀ e ∈ entries, hContains h e.1 = false) →
      parse_header_lines h
          ((entries.map (fun e => renderEntry (disp e, e.2))).flatten) =
        .ok (h ++ entries) := by
  intro entries
  induction entries with
  | nil => intro h _ _ _; simp; rfl
  | cons e es ih =>
    intro h hwf hpw hdisj
    rw [List.map_cons, List.flatten_cons, parse_header_lines_append]
    obtain ⟨hsp, hnorm, hv⟩ := hwf e (by simp)
    rw [parse_render_one h e.1 (disp e) e.2 hsp hnorm (hdisj e (by simp)) hv]
    show parse_header_lines (h ++ [(e.1, e.2)]) _ = _
    have hdisj' : ∀ e' ∈ es, hContains (h ++ [(e.1, e.2)]) e'.1 = false := by
      intro e' he'
      rw [hContains_append_one]
      have h1 := hdisj e' (by simp [he'])
      have h2 := (List.pairwise_cons.mp hpw).1 e' he'
      simp [h1, h2]
    rw [ih (h ++ [(e.1, e.2)]) (fun e' he' => hwf e' (by simp [he']))
      (List.pairwise_cons.mp hpw).2 hdisj']
    simp

/-- `find?` is the head of `filter`. -/
theorem find?_eq_head?_filter {α : Type} (l : List α) (p : α → Bool) :
    l.find? p = (l.filter p).head? := by
  induction l with
  | nil => rfl
  | cons a t ih =>
    rw [List.find?_cons, List.filter_cons]
    by_cases h : p a
    · rw [if_pos h]; simp [h]
    · rw [if_neg h]; simp only [h]; exact ih

/-- Under case-insensitively distinct keys, at most one entry matches any
lookup. -/
theorem ciFilter_len_le_one {h : Headers} (hn : ciNodupKeys h) (k : String) :
    (h.filter (fun e => ciEq e.1 k)).length ≤ 1 := by
  rcases hfl : h.filter (fun e => ciEq e.1 k) with _ | ⟨a, _ | ⟨b, t⟩⟩
  · rw [hfl]; simp
  · rw [hfl]; simp
  · exfalso
    have hp := hn.filter (fun e => ciEq e.1 k)
    rw [hfl] at hp
    have hab := (List.pairwise_cons.mp hp).1 b (by simp)
    have ha : a ∈ h.filter (fun e => ciEq e.1 k) := by
      rw [hfl]; exact List.mem_cons_self a _
    have hb : b ∈ h.filter (fun e => ciEq e.1 k) := by
      rw [hfl]; simp
    have ha1 : ciEq a.1 k = true := by simpa using (List.mem_filter.mp ha).2
    have hb1 : ciEq b.1 k = true := by simpa using (List.mem_filter.mp hb).2
    rw [ciEq_trans ha1 (ciEq_symm hb1)] at hab
    exact absurd hab (by simp)

/-- Case-insensitive lookup is invariant under permutation when the target
list has case-insensitively distinct keys. -/
theorem hGet?_perm {l1 l2 : Headers} (hp : l1.Perm l2)
    (hn : ciNodupKeys l2) (k : String) : hGet? l1 k = hGet? l2 k := by
  unfold hGet?
  rw [find?_eq_head?_filter, find?_eq_head?_filter]
  have hpf := hp.filter (fun e => ciEq e.1 k)
  have hlen2 := ciFilter_len_le_one hn k
  have hlen1 : (l1.filter (fun e => ciEq e.1 k)).length ≤ 1 := by
    rw [hpf.length_eq]; exact hlen2
  rw [perm_eq_of_length_le_one hpf hlen1]

theorem hContains_perm {l1 l2 : Headers} (hp : l1.Perm l2)
    (hn : ciNodupKeys l2) (k : String) : hContains l1 k = hContains l2 k := by
  rw [hContains_eq_isSome, hContains_eq_isSome, hGet?_perm hp hn k]

/-- Membership after `hSet`. -/
theorem mem_hSet {h : Headers} {k : String} {v : HVal} :
    ∀ e ∈ hSet h k v, e = (k, v) ∨ e ∈ h := by
  induction h with
  | nil => intro e he; simp [hSet] at he; exact Or.inl he
  | cons x rest ih =>
    intro e he
    rw [hSet] at he
    by_cases hc : ciEq x.1 k = true
    · rw [if_pos hc] at he
      rcases List.mem_cons.mp he with he | he
      · exact Or.inl he
      · exact Or.inr (List.mem_cons.mpr (Or.inr (List.mem_of_mem_filter he)))
    · rw [if_neg hc] at he
      rcases List.mem_cons.mp he with he | he
      · exact Or.inr (by simp [he])
      · rcases ih e he with h' | h'
        · exact Or.inl h'
        · exact Or.inr (by simp [h'])

/-- `hSet` preserves case-insensitively distinct keys. -/
theorem ciNodup_hSet {h : Headers} (hn : ciNodupKeys h) (k : String)
    (v : HVal) : ciNodupKeys (hSet h k v) := by
  induction h with
  | nil => simp [hSet, ciNodupKeys]
  | cons x rest ih =>
    have hx := (List.pairwise_cons.mp hn).1
    have hrest := (List.pairwise_cons.mp hn).2
    rw [hSet]
    by_cases hc : ciEq x.1 k = true
    · rw [if_pos hc]
      refine List.pairwise_cons.mpr ⟨?_, hrest.filter _⟩
      intro e he
      have hek : ¬ (ciEq e.1 k = true) := by
        have := List.of_mem_filter he
        simpa using this
      cases hke : ciEq k e.1
      · rfl
      · exact absurd (ciEq_symm hke) hek
    · rw [if_neg hc]
      refine List.pairwise_cons.mpr ⟨?_, ih hrest⟩
      intro e he
      rcases mem_hSet e he with he' | he'
      · rw [he']
        show ciEq x.1 k = false
        simpa using hc
      · exact hx e he'

/-! ## The serialized header map as the parser sees it (C2 groundwork) -/

theorem hGet?_tail_other {h : Headers} (cl : String) {k : String}
    (h1 : ciEq "Content-Length" k = false)
    (h2 : ciEq "Max-Forwards" k = false) (h3 : ciEq "Call-ID" k = false) :
    hGet? (make_headers_tail h cl) k = hGet? h k := by
  unfold make_headers_tail
  have cidStep : ∀ h' : Headers,
      hGet? (if ¬ hContains h' "Call-ID" = true
        then hSet h' "Call-ID" (.one genUUID) else h') k = hGet? h' k := by
    intro h'
    by_cases hcid : hContains h' "Call-ID" = true
    · rw [if_neg (by simp [hcid])]
    · rw [if_pos (by simp [hcid]), hGet?_hSet_other _ _ h3]
  have mfStep : ∀ h' : Headers,
      hGet? (if ¬ hContains h' "Max-Forwards" = true
        then hSet h' "Max-Forwards" (.one "70") else h') k = hGet? h' k := by
    intro h'
    by_cases hmf : hContains h' "Max-Forwards" = true
    · rw [if_neg (by simp [hmf])]
    · rw [if_pos (by simp [hmf]), hGet?_hSet_other _ _ h2]
  rw [cidStep, mfStep, hGet?_hSet_other _ _ h1]

theorem ciNodup_make_headers_tail {h : Headers} (hn : ciNodupKeys h)
    (cl : String) : ciNodupKeys (make_headers_tail h cl) := by
  unfold make_headers_tail
  have n1 := ciNodup_hSet hn "Content-Length" (.one cl)
  have mfStep : ∀ h' : Headers, ciNodupKeys h' →
      ciNodupKeys (if ¬ hContains h' "Max-Forwards" = true
        then hSet h' "Max-Forwards" (.one "70") else h') := by
    intro h' hn'
    by_cases hmf : hContains h' "Max-Forwards" = true
    · rw [if_neg (by simp [hmf])]; exact hn'
    · rw [if_pos (by simp [hmf])]; exact ciNodup_hSet hn' _ _
  have cidStep : ∀ h' : Headers, ciNodupKeys h' →
      ciNodupKeys (if ¬ hContains h' "Call-ID" = true
        then hSet h' "Call-ID" (.one genUUID) else h') := by
    intro h' hn'
    by_cases hcid : hContains h' "Call-ID" = true
    · rw [if_neg (by simp [hcid])]; exact hn'
    · rw [if_pos (by simp [hcid])]; exact ciNodup_hSet hn' _ _
  exact cidStep _ (mfStep _ n1)

theorem mem_make_headers_tail {h : Headers} (cl : String) :
    ∀ e ∈ make_headers_tail h cl,
      e = ("Content-Length", .one cl) ∨ e = ("Max-Forwards", .one "70") ∨
      e = ("Call-ID", .one genUUID) ∨ e ∈ h := by
  unfold make_headers_tail
  intro e he
  have step : ∀ {h' : Headers},
      e ∈ (if ¬ hContains h' "Call-ID" = true
        then hSet h' "Call-ID" (.one genUUID) else h') →
      e = ("Call-ID", .one genUUID) ∨ e ∈ h' := by
    intro h' hmem
    by_cases hcid : hContains h' "Call-ID" = true
    · rw [if_neg (by simp [hcid])] at hmem
      exact Or.inr hmem
    · rw [if_pos (by simp [hcid])] at hmem
      exact mem_hSet e hmem
  rcases step he with he' | he'
  · exact Or.inr (Or.inr (Or.inl he'))
  · have step2 : ∀ {h' : Headers},
        e ∈ (if ¬ hContains h' "Max-Forwards" = true
          then hSet h' "Max-Forwards" (.one "70") else h') →
        e = ("Max-Forwards", .one "70") ∨ e ∈ h' := by
      intro h' hmem
      by_cases hmf : hContains h' "Max-Forwards" = true
      · rw [if_neg (by simp [hmf])] at hmem
        exact Or.inr hmem
      · rw [if_pos (by simp [hmf])] at hmem
        exact mem_hSet e hmem
    rcases step2 he' with he'' | he''
    · exact Or.inr (Or.inl he'')
    · rcases mem_hSet e he'' with he3 | he3
      · exact Or.inl he3
      · exact Or.inr (Or.inr (Or.inr he3))

/-- The compact table is consistent: an alias emitted by the compact
serializer normalizes back to the long name it stands for. -/
theorem longToCompact_norm {k a : String} (h : longToCompact k = some a) :
    hasColonSpace a.toList = false ∧
    (match compactLookup (toLowerStr a) with
      | some long => long
      | none => a) = k := by
  unfold longToCompact at h
  cases hf : compact_to_long.find? (fun e => e.2 == k) with
  | none => rw [hf] at h; simp at h
  | some p =>
    rw [hf] at h
    simp at h
    have hmem := List.mem_of_find?_eq_some hf
    have hk : p.2 = k := by simpa using List.find?_some hf
    have htab : ∀ q ∈ compact_to_long, hasColonSpace q.1.toList = false ∧
        compactLookup (toLowerStr q.1) = some q.2 := by decide
    obtain ⟨h1, h2⟩ := htab p hmem
    subst h
    refine ⟨h1, ?_⟩
    rw [h2, hk]

/-- The plain display name of a cycle-surviving key satisfies the refold
conditions. -/
theorem disp_wf_plain {k : String} (hk : keyWF k) :
    hasColonSpace k.toList = false ∧
    (match compactLookup (toLowerStr k) with
      | some long => long
      | none => k) = k := by
  refine ⟨hk.2.1, ?_⟩
  rw [hk.2.2.1]

/-- The compact display name of a cycle-surviving key satisfies the refold
conditions. -/
theorem disp_wf_compact {k : String} (hk : keyWF k) :
    hasColonSpace ((longToCompact k).getD k).toList = false ∧
    (match compactLookup (toLowerStr ((longToCompact k).getD k)) with
      | some long => long
      | none => (longToCompact k).getD k) = k := by
  cases hlc : longToCompact k with
  | none => simpa [hlc] using disp_wf_plain hk
  | some a => simpa [hlc] using longToCompact_norm hlc

/-! ## The raw-block split of `from_raw_headers` (C2 groundwork) -/

theorem ne_nl_of_not_ws {c : Char} (h : c.isWhitespace = false) :
    c ≠ '\n' := by
  intro hc
  rw [hc] at h
  exact absurd h (by decide)

theorem noNl_append {a b : String} (ha : noNl a) (hb : noNl b) :
    noNl (a ++ b) := by
  intro ch hch
  rw [toList_append] at hch
  rcases List.mem_append.mp hch with h | h
  · exact ha ch h
  · exact hb ch h

theorem noNl_pyStr (n : Nat) : noNl (pyStr n) :=
  fun ch hch => ne_nl_of_not_ws (pyStr_no_space n ch hch)

/-- A successful lookup names an entry of the map. -/
theorem hGet?_mem {h : Headers} {k : String} {v : HVal}
    (hg : hGet? h k = some v) : ∃ k', (k', v) ∈ h := by
  unfold hGet? at hg
  cases hf : h.find? (fun e => ciEq e.1 k) with
  | none => rw [hf] at hg; simp at hg
  | some e =>
    rw [hf] at hg
    simp only [Option.map_some', Option.some.injEq] at hg
    refine ⟨e.1, ?_⟩
    have hm := List.mem_of_find?_eq_some hf
    rw [← hg]
    exact hm

/-- The host-and-port fragment of a printed contact inherits its
newline-freeness. -/
theorem noNl_fhp {c : Contact} (h : noNl (printContact c)) :
    noNl (formatHostAndPort c.uri.host c.uri.port) := by
  intro ch hch
  apply h ch
  show ch ∈ (printContact c).toList
  unfold printContact shortUri
  rw [toList_append, toList_append, toList_append]
  refine List.mem_append.mpr (Or.inl ?_)
  refine List.mem_append.mpr (Or.inl ?_)
  refine List.mem_append.mpr (Or.inr ?_)
  rw [toList_append]
  exact List.mem_append.mpr (Or.inr hch)

/-- The `Via` template built from a newline-free printed contact is
newline-free. -/
theorem noNl_viaTemplate {c : Contact} (h : noNl (printContact c)) :
    noNl (viaTemplate c) := by
  unfold viaTemplate
  exact noNl_append (noNl_append
    (noNl_append (show noNl "SIP/2.0/%(protocol)s " by decide) (noNl_fhp h))
    (show noNl ";branch=" by decide)) (show noNl genBranch by decide)

/-- The displayed name of a cycle-surviving key (compact alias or not) is
newline-free. -/
theorem noNl_disp {k : String} (hk : keyWF k) :
    noNl ((longToCompact k).getD k) := by
  cases hlc : longToCompact k with
  | none => exact hk.2.2.2
  | some a =>
    show noNl a
    unfold longToCompact at hlc
    cases hf : compact_to_long.find? (fun e => e.2 == k) with
    | none => rw [hf] at hlc; simp at hlc
    | some p =>
      rw [hf] at hlc
      simp at hlc
      have hmem := List.mem_of_find?_eq_some hf
      have htab : ∀ q ∈ compact_to_long, noNl q.1 := by decide
      rw [← hlc]
      exact htab p hmem

/-- Each line a rendered entry emits is newline-free when its displayed
name and value are. -/
theorem renderEntry_noNl {dk : String} {v : HVal} (hd : noNl dk)
    (hv : valWF v) : ∀ line ∈ renderEntry (dk, v), noNl line := by
  cases v with
  | one s =>
    intro line hline
    have : line = dk ++ ": " ++ s := by simpa [renderEntry] using hline
    rw [this]
    exact noNl_append (noNl_append hd (by decide)) hv
  | many l =>
    intro line hline
    simp only [renderEntry, List.mem_map] at hline
    obtain ⟨s, hs, rfl⟩ := hline
    exact noNl_append (noNl_append hd (by decide)) (hv.2 s hs)

theorem hasCRLF_cons_false {c : Char} {l : List Char}
    (h : hasCRLF (c :: l) = false) : hasCRLF l = false := by
  rw [hasCRLF.eq_def] at h
  split at h <;> simp_all

/-- A newline-free line contains no `'\r\n'`. -/
theorem hasCRLF_of_no_nl : ∀ l : List Char, (∀ c ∈ l, c ≠ '\n') →
    hasCRLF l = false := by
  intro l
  induction l with
  | nil => intro _; rfl
  | cons c rest ih =>
    intro h
    rw [hasCRLF.eq_def]
    split
    · next heq => simp at heq
    · next heq =>
      exfalso
      rw [List.cons.injEq] at heq
      obtain ⟨_, htail⟩ := heq
      have : '\n' ∈ c :: rest := by rw [htail]; simp
      exact absurd rfl (h '\n' this)
    · next c' rest' _ heq =>
      rw [List.cons.injEq] at heq
      obtain ⟨_, htail⟩ := heq
      rw [← htail]
      exact ih (fun x hx => h x (by simp [hx]))

/-- `raw.split('\r\n')` of a separator-free block is the block itself. -/
theorem splitCRLF_of_noCRLF : ∀ l : List Char, hasCRLF l = false →
    splitCRLF l = [l] := by
  intro l
  induction l with
  | nil => intro _; rfl
  | cons c rest ih =>
    intro h
    rw [splitCRLF.eq_def]
    split
    · next heq => simp at heq
    · next rest' heq =>
      exfalso
      rw [List.cons.injEq] at heq
      obtain ⟨hc, htail⟩ := heq
      subst hc
      cases rest with
      | nil => simp at htail
      | cons d rest'' =>
        rw [List.cons.injEq] at htail
        obtain ⟨hd, _⟩ := htail
        subst hd
        exact absurd h (by simp [hasCRLF])
    · next c' rest' _ heq =>
      rw [List.cons.injEq] at heq
      obtain ⟨hc, htail⟩ := heq
      subst hc
      rw [← htail, ih (hasCRLF_cons_false h)]

/-- `raw.split('\r\n')` splits exactly at an `'\r\n'` that follows a
separator-free prefix. -/
theorem splitCRLF_head (rest : List Char) : ∀ l : List Char,
    hasCRLF l = false →
    splitCRLF (l ++ '\r' :: '\n' :: rest) = l :: splitCRLF rest := by
  intro l
  induction l with
  | nil => intro _; rfl
  | cons c l' ih =>
    intro h
    rw [List.cons_append, splitCRLF.eq_def]
    split
    · next heq => simp at heq
    · next rest' heq =>
      exfalso
      rw [List.cons.injEq] at heq
      obtain ⟨hc, htail⟩ := heq
      subst hc
      cases l' with
      | nil => simp at htail
      | cons d l'' =>
        rw [List.cons_append, List.cons.injEq] at htail
        obtain ⟨hd, _⟩ := htail
        subst hd
        exact absurd h (by simp [hasCRLF])
    · next c' rest' _ heq =>
      rw [List.cons.injEq] at heq
      obtain ⟨hc, htail⟩ := heq
      subst hc
      rw [← htail, ih (hasCRLF_cons_false h)]

/-- The character list of the tail-recursive `String.intercalate` loop. -/
theorem intercalate_go_toList (s : String) : ∀ (as : List String)
    (acc : String), (String.intercalate.go acc s as).toList =
      acc.toList ++ as.foldr (fun a r => s.toList ++ (a.toList ++ r)) [] := by
  intro as
  induction as with
  | nil =>
    intro acc
    rw [show String.intercalate.go acc s [] = acc from rfl]
    simp
  | cons a as ih =>
    intro acc
    rw [show String.intercalate.go acc s (a :: as) =
      String.intercalate.go (acc ++ s ++ a) s as from rfl, ih]
    rw [List.foldr_cons, toList_append, toList_append]
    simp [List.append_assoc]

/-- Splitting the `EOL`-joined block recovers the newline-free lines. -/
theorem splitCRLF_intercalate : ∀ (as : List String) (a : String),
    noNl a → (∀ l ∈ as, noNl l) →
    splitCRLF ((String.intercalate.go a EOL as).toList) =
      a.toList :: as.map String.toList := by
  intro as
  induction as with
  | nil =>
    intro a ha _
    rw [intercalate_go_toList]
    simp only [List.foldr_nil, List.append_nil, List.map_nil]
    exact splitCRLF_of_noCRLF a.toList (hasCRLF_of_no_nl a.toList ha)
  | cons x as ih =>
    intro a ha hl
    rw [intercalate_go_toList, List.foldr_cons]
    rw [show (EOL.toList ++ (x.toList ++
      as.foldr (fun a r => EOL.toList ++ (a.toList ++ r)) [])) =
      '\r' :: '\n' :: (x.toList ++
        as.foldr (fun a r => EOL.toList ++ (a.toList ++ r)) []) from rfl]
    rw [splitCRLF_head _ a.toList (hasCRLF_of_no_nl a.toList ha)]
    have := ih x (hl x (by simp)) (fun l hli => hl l (by simp [hli]))
    rw [intercalate_go_toList] at this
    rw [this]
    rfl

/-- On newline-free lines, `from_raw_headers` of the `EOL`-joined block is
`from_raw_headers` after the in-source `decode().split(EOL)`: the split
recovers the lines exactly. -/
theorem from_raw_headers_join (lines : List String) (hne : lines ≠ [])
    (hnl : ∀ l ∈ lines, noNl l) :
    from_raw_headers (String.intercalate EOL lines) = from_lines lines := by
  unfold from_raw_headers
  have harg : ((splitCRLF ((String.intercalate EOL lines).toList)).map
      List.asString) = lines := by
    cases lines with
    | nil => exact absurd rfl hne
    | cons a as =>
      rw [show String.intercalate EOL (a :: as) =
        String.intercalate.go a EOL as from rfl]
      rw [splitCRLF_intercalate as a (hnl a (by simp))
        (fun l hli => hnl l (by simp [hli]))]
      rw [List.map_cons, asString_toList, List.map_map]
      congr 1
      have : (List.asString ∘ String.toList) = id := by
        funext x
        exact asString_toList x
      rw [this, List.map_id]
  rw [harg]

/-- Parsing the serialized header block of a well-formed map rebuilds a
permutation of the map, for both serializers. -/
theorem wire_refold (HS : Headers) (compact : Bool) (hn : ciNodupKeys HS)
    (hwf : ∀ e ∈ HS, keyWF e.1 ∧ valWF e.2) :
    ∃ entries : Headers, entries.Perm HS ∧ ciNodupKeys entries ∧
      parse_header_lines []
        (if compact then compact_format_headers HS else format_headers HS) =
        .ok entries ∧
      (∀ line ∈ (if compact then compact_format_headers HS
        else format_headers HS), noNl line) := by
  classical
  set sorted := List.insertionSort hdrRel HS with hsorted
  have hperm : sorted.Perm HS := List.perm_insertionSort hdrRel HS
  have hns : ciNodupKeys sorted := ciNodupKeys_perm hperm.symm hn
  have hlen := via_filter_len_le_one hns
  set fva := sorted.filter (fun e => e.1 == "Via") with hfva
  set fnv := sorted.filter (fun e => ¬ (e.1 == "Via")) with hfnv
  have hpe : (fva ++ fnv).Perm HS := by
    refine List.Perm.trans ?_ hperm
    rw [hfva, hfnv]
    have := List.filter_append_perm (fun e => e.1 == "Via") sorted
    refine List.Perm.trans ?_ this
    apply List.Perm.append_left
    have : (fun e : String × HVal => ¬ (e.1 == "Via")) =
        (fun e : String × HVal => !(e.1 == "Via")) := by
      funext e
      by_cases hv : e.1 = "Via" <;> simp [hv]
    rw [this]
  have hmemHS : ∀ e ∈ fva ++ fnv, e ∈ HS := fun e he => hpe.mem_iff.mp he
  have hpw : (fva ++ fnv).Pairwise (fun a b => ciEq a.1 b.1 = false) :=
    ciNodupKeys_perm hpe.symm hn
  have hdisj : ∀ e ∈ fva ++ fnv, hContains ([] : Headers) e.1 = false :=
    fun e _ => rfl
  have hfoldF : format_headers HS =
      (((fva ++ fnv).map (fun e => renderEntry (e.1, e.2))).flatten) := by
    rw [format_headers, ← hsorted,
      foldl_format_split renderEntry formatStep (fun acc e => rfl)]
    unfold viaRevJoin nonViaJoin
    rw [list_eq_reverse_of_len_le_one (by simpa [hfva] using hlen)]
    rw [← hfva, ← hfnv, List.map_append, List.flatten_append]
    simp
  have hfoldT : compact_format_headers HS =
      (((fva ++ fnv).map
        (fun e => renderEntry ((longToCompact e.1).getD e.1, e.2))).flatten) := by
    rw [compact_format_headers, ← hsorted,
      foldl_format_split (fun e => renderEntry (compactDisp e))
        formatStepCompact (fun acc e => rfl)]
    unfold viaRevJoin nonViaJoin
    rw [list_eq_reverse_of_len_le_one (by simpa [hfva] using hlen)]
    rw [← hfva, ← hfnv, List.map_append, List.flatten_append]
    simp [compactDisp]
  refine ⟨fva ++ fnv, hpe, ciNodupKeys_perm hpe.symm hn, ?_, ?_⟩
  · cases compact with
    | false =>
      rw [if_neg (by simp), hfoldF]
      rw [parse_render_all (fun e => e.1) (fva ++ fnv) []
        (fun e he => by
          obtain ⟨hk, hv⟩ := hwf e (hmemHS e he)
          obtain ⟨hsp, hnorm⟩ := disp_wf_plain hk
          exact ⟨hsp, hnorm, hv⟩)
        hpw hdisj]
      rfl
    | true =>
      rw [if_pos rfl, hfoldT]
      rw [parse_render_all (fun e => (longToCompact e.1).getD e.1)
        (fva ++ fnv) []
        (fun e he => by
          obtain ⟨hk, hv⟩ := hwf e (hmemHS e he)
          obtain ⟨hsp, hnorm⟩ := disp_wf_compact hk
          exact ⟨hsp, hnorm, hv⟩)
        hpw hdisj]
      rfl
  · intro line hline
    cases compact with
    | false =>
      rw [if_neg (by simp), hfoldF] at hline
      rw [List.mem_flatten] at hline
      obtain ⟨block, hbm, hlb⟩ := hline
      rw [List.mem_map] at hbm
      obtain ⟨e, he, rfl⟩ := hbm
      obtain ⟨hk, hv⟩ := hwf e (hmemHS e he)
      exact renderEntry_noNl hk.2.2.2 hv line hlb
    | true =>
      rw [if_pos rfl, hfoldT] at hline
      rw [List.mem_flatten] at hline
      obtain ⟨block, hbm, hlb⟩ := hline
      rw [List.mem_map] at hbm
      obtain ⟨e, he, rfl⟩ := hbm
      obtain ⟨hk, hv⟩ := hwf e (hmemHS e he)
      exact renderEntry_noNl (noNl_disp hk) hv line hlb

/-! ## Constructor characterizations (C2 groundwork) -/

theorem message_init_cases {hs : Headers} {p : Option String} {f t : Contact}
    {cd : Option Contact} {m : Msg}
    (hb : message_init hs p (some f) (some t) cd = .ok m) :
    m.payloadTxt = p ∧ m.rawPayload = none ∧ m.fromCache = some f ∧
    m.toCache = some t ∧ m.cseqCache = none ∧ m.methodCache = none ∧
    m.statusCode = none ∧ m.statusMessage = none ∧ m.compact = false ∧
    hContains m.headers "Via" = true ∧
    ((hContains hs "Via" = true ∧ m.headers = hs ∧ m.contactCache = cd) ∨
     (hContains hs "Via" = false ∧ ∃ cRes,
        m.contactCache = some cRes ∧
        m.headers = hSet hs "Via" (.one (viaTemplate cRes)) ∧
        (cd = some cRes ∨ (cd = none ∧ ∃ s,
          hGet? hs "Contact" = some (.one s) ∧
          parseContact s = some cRes)))) := by
  unfold message_init at hb
  rw [if_neg (by simp)] at hb
  rw [if_neg (by simp)] at hb
  by_cases hvia : hContains hs "Via" = true
  · rw [if_pos hvia] at hb
    simp only [Bind.bind, Except.bind, Pure.pure, Except.pure,
      Except.ok.injEq] at hb
    subst hb
    refine ⟨rfl, rfl, rfl, rfl, rfl, rfl, rfl, rfl, rfl, hvia, ?_⟩
    exact Or.inl ⟨hvia, rfl, rfl⟩
  · rw [if_neg hvia] at hb
    simp only [Bool.not_eq_true] at hvia
    simp only [Bind.bind, Except.bind, Pure.pure, Except.pure] at hb
    cases cd with
    | some c0 =>
      have hcd : (Msg.contact_details
          { headers := hs, payloadTxt := p, rawPayload := none,
            fromCache := some f, toCache := some t, contactCache := some c0,
            cseqCache := none, methodCache := none, statusCode := none,
            statusMessage := none, firstLine := "", compact := false }) =
          .ok (some c0) := rfl
      rw [hcd] at hb
      simp only [Except.ok.injEq] at hb
      subst hb
      refine ⟨rfl, rfl, rfl, rfl, rfl, rfl, rfl, rfl, rfl, ?_, ?_⟩
      · exact hContains_hSet_self _ _ _
      · exact Or.inr ⟨hvia, c0, rfl, rfl, Or.inl rfl⟩
    | none =>
      have hcd : (Msg.contact_details
          { headers := hs, payloadTxt := p, rawPayload := none,
            fromCache := some f, toCache := some t, contactCache := none,
            cseqCache := none, methodCache := none, statusCode := none,
            statusMessage := none, firstLine := "", compact := false }) =
          (match hGet? hs "Contact" with
            | some (.one s) =>
              match parseContact s with
              | some c => .ok (some c)
              | none => .error (.valueError "contact parse")
            | some (.many _) => .error .typeError
            | none => .ok none) := rfl
      rw [hcd] at hb
      cases hg : hGet? hs "Contact" with
      | none =>
        rw [hg] at hb
        simp [except_throw] at hb
      | some v =>
        cases v with
        | many l =>
          rw [hg] at hb
          simp at hb
        | one s =>
          rw [hg] at hb
          dsimp only at hb
          cases hp : parseContact s with
          | none =>
            rw [hp] at hb
            simp at hb
          | some cRes =>
            rw [hp] at hb
            simp only [Except.ok.injEq] at hb
            subst hb
            refine ⟨rfl, rfl, rfl, rfl, rfl, rfl, rfl, rfl, rfl, ?_, ?_⟩
            · exact hContains_hSet_self _ _ _
            · exact Or.inr ⟨hvia, cRes, rfl, rfl,
                Or.inr ⟨rfl, s, rfl, hp⟩⟩

theorem response_build {st : Nat} {re : String} {f t : Contact}
    {cd : Option Contact} {hs : Headers} {p : Option String} {c : Nat}
    {me : String} {compact : Bool} {m : Msg}
    (hre : re ≠ "") (hc0 : c ≠ 0) (hme : me ≠ "")
    (hb : response_init st (some re) hs (some f) (some t) cd p (some c)
      (some me) none compact = .ok m) :
    ∃ mb, message_init hs p (some f) (some t) cd = .ok mb ∧
      m.headers = mb.headers ∧ m.payloadTxt = mb.payloadTxt ∧
      m.rawPayload = mb.rawPayload ∧ m.fromCache = mb.fromCache ∧
      m.toCache = mb.toCache ∧ m.contactCache = mb.contactCache ∧
      m.cseqCache = some c ∧ m.methodCache = some me ∧
      m.statusCode = some st ∧ m.statusMessage = some re ∧
      m.compact = compact ∧
      m.firstLine = "SIP/2.0 " ++ pyStr st ++ " " ++ re := by
  unfold response_init at hb
  cases hmi : message_init hs p (some f) (some t) cd with
  | error e =>
    rw [hmi] at hb
    simp [Bind.bind, Except.bind] at hb
  | ok mb =>
    rw [hmi] at hb
    simp only [Bind.bind, Except.bind] at hb
    rw [if_pos (show (some re : Option String).getD "" ≠ "" by
      simpa using hre)] at hb
    simp only [Pure.pure, Except.pure] at hb
    rw [if_pos (show (some c : Option Nat).getD 0 ≠ 0 by
      simpa using hc0)] at hb
    rw [if_pos (show (some me : Option String).getD "" ≠ "" by
      simpa using hme)] at hb
    simp only [Except.ok.injEq] at hb
    subst hb
    exact ⟨mb, rfl, rfl, rfl, rfl, rfl, rfl, rfl, rfl, rfl, rfl, rfl, rfl, rfl⟩

theorem request_build {meth : String} {cseqv : Nat} {f t : Contact}
    {cd : Option Contact} {hs : Headers} {p : Option String} {m : Msg}
    (hb : request_init meth cseqv (some f) (some t) cd hs p none = .ok m) :
    ∃ mb, message_init hs p (some f) (some t) cd = .ok mb ∧
      m.headers = mb.headers ∧ m.payloadTxt = mb.payloadTxt ∧
      m.rawPayload = mb.rawPayload ∧ m.fromCache = mb.fromCache ∧
      m.toCache = some t ∧ m.contactCache = mb.contactCache ∧
      m.cseqCache = some cseqv ∧ m.methodCache = some (toUpperStr meth) ∧
      m.statusCode = none ∧ m.statusMessage = none ∧
      m.compact = false ∧
      m.firstLine = toUpperStr meth ++ " " ++ shortUri t.uri ++
        " SIP/2.0" := by
  unfold request_init at hb
  cases hmi : message_init hs p (some f) (some t) cd with
  | error e =>
    rw [hmi] at hb
    simp [Bind.bind, Except.bind] at hb
  | ok mb =>
    rw [hmi] at hb
    simp only [Bind.bind, Except.bind] at hb
    have hmb := message_init_cases hmi
    have htd : (Msg.to_details
        { headers := mb.headers, payloadTxt := mb.payloadTxt,
          rawPayload := mb.rawPayload, fromCache := mb.fromCache,
          toCache := mb.toCache, contactCache := mb.contactCache,
          cseqCache := some cseqv, methodCache := some (toUpperStr meth),
          statusCode := mb.statusCode, statusMessage := mb.statusMessage,
          firstLine := mb.firstLine, compact := mb.compact }) = .ok t := by
      unfold Msg.to_details
      dsimp only
      rw [hmb.2.2.2.1]
    rw [htd] at hb
    simp only [Bind.bind, Except.bind, Pure.pure, Except.pure,
      Except.ok.injEq] at hb
    subst hb
    refine ⟨mb, rfl, rfl, rfl, rfl, rfl, rfl, rfl, rfl, rfl, ?_, ?_, ?_, rfl⟩
    · show mb.statusCode = none
      exact hmb.2.2.2.2.2.2.1
    · show mb.statusMessage = none
      exact hmb.2.2.2.2.2.2.2.1
    · show mb.compact = false
      exact hmb.2.2.2.2.2.2.2.2.1

theorem make_headers_via_caches {m : Msg} {c : Nat} {me : String}
    (hc : m.cseqCache = some c) (hme : m.methodCache = some me) :
    make_headers m = .ok (make_headers_tail
      (hSet (make_headers_details m) "CSeq" (.one (pyStr c ++ " " ++ me)))
      (pyStr m.encodedBody.utf8ByteSize)) := by
  unfold make_headers make_headers_cseq
  rw [if_pos (Or.inl (by rw [hc]; rfl))]
  have h1 : ∀ h : Headers, ({ m with headers := h } : Msg).cseq = .ok c := by
    intro h
    unfold Msg.cseq
    rw [show ({ m with headers := h } : Msg).cseqCache = m.cseqCache from rfl,
      hc]
  have h2 : ∀ h : Headers, ({ m with headers := h } : Msg).method = .ok me := by
    intro h
    unfold Msg.method
    rw [show ({ m with headers := h } : Msg).methodCache = m.methodCache
      from rfl, hme]
  rw [h1, h2]

/-- The serialized header map of a message with populated caches: what each
semantic key reads back as, plus the structural facts the refold needs. -/
theorem HS_gets {m : Msg} {f t : Contact} {c : Nat} {me : String}
    (hf : m.fromCache = some f) (ht : m.toCache = some t)
    (hc : m.cseqCache = some c) (hme : m.methodCache = some me) :
    ∃ HS, make_headers m = .ok HS ∧
      hGet? HS "From" = some (.one (printContact f)) ∧
      hGet? HS "To" = some (.one (printContact t)) ∧
      hGet? HS "CSeq" = some (.one (pyStr c ++ " " ++ me)) ∧
      (∀ cc, m.contactCache = some cc →
        hGet? HS "Contact" = some (.one (printContact cc))) ∧
      (m.contactCache = none →
        hGet? HS "Contact" = hGet? m.headers "Contact") ∧
      hGet? HS "Via" = hGet? m.headers "Via" ∧
      (ciNodupKeys m.headers → ciNodupKeys HS) ∧
      (∀ e ∈ HS,
        e = ("Content-Length", .one (pyStr m.encodedBody.utf8ByteSize)) ∨
        e = ("Max-Forwards", .one "70") ∨
        e = ("Call-ID", .one genUUID) ∨
        e = ("CSeq", .one (pyStr c ++ " " ++ me)) ∨
        e = ("From", .one (printContact f)) ∨
        e = ("To", .one (printContact t)) ∨
        (∃ cc, m.contactCache = some cc ∧
          e = ("Contact", .one (printContact cc))) ∨
        e ∈ m.headers) := by
  have hD : make_headers_details m =
      (match m.contactCache with
        | some cc => hSet (hSet (hSet m.headers "From"
            (.one (printContact f))) "To" (.one (printContact t)))
            "Contact" (.one (printContact cc))
        | none => hSet (hSet m.headers "From" (.one (printContact f)))
            "To" (.one (printContact t))) := by
    unfold make_headers_details
    rw [hf, ht]
  refine ⟨_, make_headers_via_caches hc hme, ?_, ?_, ?_, ?_, ?_, ?_, ?_, ?_⟩
  · rw [hGet?_tail_other _ (by decide) (by decide) (by decide),
      hGet?_hSet_other _ _ (by decide), hD]
    cases hcc : m.contactCache with
    | some cc =>
      rw [hGet?_hSet_other _ _ (by decide), hGet?_hSet_other _ _ (by decide),
        hGet?_hSet_self]
    | none =>
      rw [hGet?_hSet_other _ _ (by decide), hGet?_hSet_self]
  · rw [hGet?_tail_other _ (by decide) (by decide) (by decide),
      hGet?_hSet_other _ _ (by decide), hD]
    cases hcc : m.contactCache with
    | some cc =>
      rw [hGet?_hSet_other _ _ (by decide), hGet?_hSet_self]
    | none =>
      rw [hGet?_hSet_self]
  · rw [hGet?_tail_other _ (by decide) (by decide) (by decide),
      hGet?_hSet_self]
  · intro cc hcc
    rw [hGet?_tail_other _ (by decide) (by decide) (by decide),
      hGet?_hSet_other _ _ (by decide), hD, hcc]
    rw [hGet?_hSet_self]
  · intro hcc
    rw [hGet?_tail_other _ (by decide) (by decide) (by decide),
      hGet?_hSet_other _ _ (by decide), hD, hcc]
    rw [hGet?_hSet_other _ _ (by decide), hGet?_hSet_other _ _ (by decide)]
  · rw [hGet?_tail_other _ (by decide) (by decide) (by decide),
      hGet?_hSet_other _ _ (by decide), hD]
    cases hcc : m.contactCache with
    | some cc =>
      rw [hGet?_hSet_other _ _ (by decide), hGet?_hSet_other _ _ (by decide),
        hGet?_hSet_other _ _ (by decide)]
    | none =>
      rw [hGet?_hSet_other _ _ (by decide), hGet?_hSet_other _ _ (by decide)]
  · intro hn
    refine ciNodup_make_headers_tail (ciNodup_hSet ?_ _ _) _
    rw [hD]
    cases hcc : m.contactCache with
    | some cc => exact ciNodup_hSet (ciNodup_hSet (ciNodup_hSet hn _ _) _ _) _ _
    | none => exact ciNodup_hSet (ciNodup_hSet hn _ _) _ _
  · intro e he
    rcases mem_make_headers_tail _ e he with he' | he' | he' | he'
    · exact Or.inl he'
    · exact Or.inr (Or.inl he')
    · exact Or.inr (Or.inr (Or.inl he'))
    · rcases mem_hSet e he' with he'' | he''
      · exact Or.inr (Or.inr (Or.inr (Or.inl he'')))
      · rw [hD] at he''
        cases hcc : m.contactCache with
        | some cc =>
          rw [hcc] at he''
          rcases mem_hSet e he'' with h3 | h3
          · exact Or.inr (Or.inr (Or.inr (Or.inr (Or.inr (Or.inr
              (Or.inl ⟨cc, rfl, h3⟩))))))
          · rcases mem_hSet e h3 with h4 | h4
            · exact Or.inr (Or.inr (Or.inr (Or.inr (Or.inr (Or.inl h4)))))
            · rcases mem_hSet e h4 with h5 | h5
              · exact Or.inr (Or.inr (Or.inr (Or.inr (Or.inl h5))))
              · exact Or.inr (Or.inr (Or.inr (Or.inr (Or.inr (Or.inr
                  (Or.inr h5))))))
        | none =>
          rw [hcc] at he''
          rcases mem_hSet e he'' with h3 | h3
          · exact Or.inr (Or.inr (Or.inr (Or.inr (Or.inr (Or.inl h3)))))
          · rcases mem_hSet e h3 with h4 | h4
            · exact Or.inr (Or.inr (Or.inr (Or.inr (Or.inl h4))))
            · exact Or.inr (Or.inr (Or.inr (Or.inr (Or.inr (Or.inr
                (Or.inr h4))))))

/-- What `from_raw_headers` builds for a response start line: the plain
record with only status fields populated. -/
theorem response_parse_ok (st : Nat) (msgTxt : String) (entries : Headers)
    (first : String) (hmt : msgTxt ≠ "")
    (hFrom : hContains entries "From" = true)
    (hTo : hContains entries "To" = true)
    (hVia : hContains entries "Via" = true)
    (hCSeq : hContains entries "CSeq" = true) :
    response_init st (some msgTxt) entries none none none none none none
      (some first) false = .ok
      { headers := entries, payloadTxt := none, rawPayload := none,
        fromCache := none, toCache := none, contactCache := none,
        cseqCache := none, methodCache := none, statusCode := some st,
        statusMessage := some msgTxt, firstLine := first,
        compact := false } := by
  unfold response_init message_init
  rw [if_neg (by simp [hFrom])]
  rw [if_neg (by simp [hTo])]
  rw [if_pos hVia]
  simp only [Bind.bind, Except.bind, Pure.pure, Except.pure]
  rw [if_pos (show (some msgTxt : Option String).getD "" ≠ "" by
    simpa using hmt)]
  rw [if_neg (show ¬ ((none : Option Nat).getD 0 ≠ 0) by simp)]
  rw [if_neg (show ¬ (¬ hContains entries "CSeq" = true) by simp [hCSeq])]
  rw [if_neg (show ¬ ((none : Option String).getD "" ≠ "") by simp)]
  rw [if_neg (show ¬ (¬ hContains entries "CSeq" = true) by simp [hCSeq])]
  rfl

/-- What `from_raw_headers` builds for a request start line. -/
theorem request_parse_ok (meth : String) (cs : Nat) (entries : Headers)
    (first : String)
    (hFrom : hContains entries "From" = true)
    (hTo : hContains entries "To" = true)
    (hVia : hContains entries "Via" = true) :
    request_init meth cs none none none entries none (some first) = .ok
      { headers := entries, payloadTxt := none, rawPayload := none,
        fromCache := none, toCache := none, contactCache := none,
        cseqCache := some cs, methodCache := some (toUpperStr meth),
        statusCode := none, statusMessage := none, firstLine := first,
        compact := false } := by
  unfold request_init message_init
  rw [if_neg (by simp [hFrom])]
  rw [if_neg (by simp [hTo])]
  rw [if_pos hVia]
  simp only [Bind.bind, Except.bind, Pure.pure, Except.pure]

/-- The `cseq` and `method` properties of a parsed message read the `CSeq`
header back. -/
theorem cseq_accessor_of_header {entries : Headers} {c : Nat} {me : String}
    (hg : hGet? entries "CSeq" = some (.one (pyStr c ++ " " ++ me)))
    (hmews : allNoWs me) (hmene : me ≠ "") (mp : Msg)
    (hmp : mp.headers = entries) (hcc : mp.cseqCache = none)
    (hmc : mp.methodCache = none) :
    mp.cseq = .ok c ∧ mp.method = .ok me := by
  unfold Msg.cseq Msg.method
  rw [hcc, hmc, hmp, hg]
  dsimp only
  have hnos : ∀ x ∈ (pyStr c).toList, ¬ (x = ' ') := by
    intro x hx hsp
    have := pyStr_no_space c x hx
    rw [hsp] at this
    exact absurd this (by decide)
  have hnom : ∀ x ∈ me.toList, ¬ (x = ' ') := by
    intro x hx hsp
    have := hmews x hx
    rw [hsp] at this
    exact absurd this (by decide)
  have hsplit : ((pyStr c ++ " " ++ me).toList).splitOn ' ' =
      [(pyStr c).toList, me.toList] := by
    have h1 : (pyStr c ++ " " ++ me).toList =
        (pyStr c).toList ++ ' ' :: me.toList := by
      rw [toList_append, toList_append, List.append_assoc]
      rfl
    rw [h1, splitOn_first me.toList hnos, splitOn_no_sep hnom]
  rw [hsplit]
  constructor
  · show (match [(pyStr c).toList, me.toList].head? with
      | some w =>
        match pyToNat? w.asString with
        | some n => Except.ok n
        | none => Except.error (SipErr.valueError "int")
      | none => Except.error (SipErr.valueError "int")) = Except.ok c
    rw [show [(pyStr c).toList, me.toList].head? = some (pyStr c).toList
      from rfl]
    show (match pyToNat? ((pyStr c).toList.asString) with
      | some n => Except.ok n
      | none => Except.error (SipErr.valueError "int")) = Except.ok c
    rw [asString_toList, pyToNat?_pyStr]
  · show (match [(pyStr c).toList, me.toList].get? 1 with
      | some w => Except.ok w.asString
      | none => Except.error SipErr.indexError) = Except.ok me
    rw [show [(pyStr c).toList, me.toList].get? 1 = some me.toList from rfl]
    show Except.ok (me.toList.asString) = Except.ok me
    rw [asString_toList]

/-- Round-trip of a constructed response through `encode`/`from_raw_headers`
at the accessor level. -/
theorem resp_roundtrip {st : Nat} {re : String} {f t : Contact}
    {cd : Option Contact} {hs : Headers} {p : Option String} {c : Nat}
    {me : String} {compact : Bool} {m : Msg} {lines : List String}
    (hnod : ciNodupKeys hs) (hewf : ∀ e ∈ hs, keyWF e.1 ∧ valWF e.2)
    (hrtf : contactRT f) (hrtt : contactRT t)
    (hnlf : noNl (printContact f)) (hnlt : noNl (printContact t))
    (hcarg : contactArgWF hs cd)
    (h100 : 100 ≤ st) (h999 : st ≤ 999) (hrne : re ≠ "") (hrenl : noNl re)
    (hc0 : c ≠ 0) (hmene : me ≠ "") (hmews : allNoWs me)
    (hb : response_init st (some re) hs (some f) (some t) cd p (some c)
      (some me) none compact = .ok m)
    (hl : m.enc_lines = .ok lines) :
    ∃ mp, from_lines lines = .ok mp ∧ accessorsAgree m mp ∧
      mp.payload = "" ∧ (mp.payload = m.payload ↔ m.payload = "") ∧
      (∀ line ∈ lines, noNl line) := by
  obtain ⟨mb, hmi, hH, hP, hR, hF, hT, hCC, hCs, hMe, hSc, hSm, hCp, hFl⟩ :=
    response_build hrne hc0 hmene hb
  have hmb := message_init_cases hmi
  have hf' : m.fromCache = some f := hF.trans hmb.2.2.1
  have ht' : m.toCache = some t := hT.trans hmb.2.2.2.1
  have hnlcc : ∀ cc, m.contactCache = some cc →
      contactRT cc ∧ noNl (printContact cc) := by
    intro cc hccm
    rcases hmb.2.2.2.2.2.2.2.2.2.2 with ⟨hvhs, hhs, hcc⟩ |
      ⟨hvhs, cRes, hcc, hhs, hres⟩
    · have hcd : cd = some cc := by rw [← hcc, ← hCC]; exact hccm
      rw [hcd] at hcarg
      exact hcarg
    · have hcr : cc = cRes := by
        have h2 := hccm
        rw [hCC, hcc] at h2
        simpa using h2.symm
      subst hcr
      rcases hres with hres | ⟨hcdn, s, hgs, hps⟩
      · rw [hres] at hcarg
        exact hcarg
      · rw [hcdn] at hcarg
        rcases (hcarg : hContains hs "Via" = true ∨ _) with hv | hv
        · rw [hvhs] at hv; exact absurd hv (by simp)
        · obtain ⟨c', hgc', hrt'⟩ := hv
          rw [hgc'] at hgs
          have hsp : s = printContact c' := by
            have h3 := hgs
            simp at h3
            exact h3.symm
          rw [hsp] at hps
          rw [hrt'] at hps
          have hcrc : cc = c' := by simpa using hps.symm
          subst hcrc
          refine ⟨hrt', ?_⟩
          obtain ⟨k', hk'⟩ := hGet?_mem hgc'
          exact (hewf (k', .one (printContact cc)) hk').2
  obtain ⟨HS, hmk, hgF, hgT, hgCs, hgCsome, hgCnone, hgVia, hnodHS', hmemHS⟩ :=
    HS_gets hf' ht' hCs hMe
  have hviam : hContains m.headers "Via" = true := by
    rw [hH]; exact hmb.2.2.2.2.2.2.2.2.2.1
  have hnodm : ciNodupKeys m.headers := by
    rw [hH]
    rcases hmb.2.2.2.2.2.2.2.2.2.2 with ⟨_, hhs, _⟩ | ⟨_, cRes, _, hhs, _⟩
    · rw [hhs]; exact hnod
    · rw [hhs]; exact ciNodup_hSet hnod _ _
  have hnodHS : ciNodupKeys HS := hnodHS' hnodm
  have hwfm : ∀ e ∈ m.headers, keyWF e.1 ∧ valWF e.2 := by
    rw [hH]
    rcases hmb.2.2.2.2.2.2.2.2.2.2 with ⟨_, hhs, _⟩ |
      ⟨_, cRes, hcc, hhs, _⟩
    · rw [hhs]; exact hewf
    · rw [hhs]
      intro e he
      rcases mem_hSet e he with he' | he'
      · rw [he']
        exact ⟨show keyWF "Via" by decide,
          noNl_viaTemplate (hnlcc cRes (hCC.trans hcc)).2⟩
      · exact hewf e he'
  have hnlme : noNl me := fun ch hch => ne_nl_of_not_ws (hmews ch hch)
  have hwfHS : ∀ e ∈ HS, keyWF e.1 ∧ valWF e.2 := by
    intro e he
    rcases hmemHS e he with he' | he' | he' | he' | he' | he' |
      ⟨cc, hccm, he'⟩ | he'
    · rw [he']
      exact ⟨show keyWF "Content-Length" by decide, noNl_pyStr _⟩
    · rw [he']
      exact ⟨show keyWF "Max-Forwards" by decide, show noNl "70" by decide⟩
    · rw [he']
      exact ⟨show keyWF "Call-ID" by decide, show noNl genUUID by decide⟩
    · rw [he']
      exact ⟨show keyWF "CSeq" by decide,
        noNl_append (noNl_append (noNl_pyStr c)
          (show noNl " " by decide)) hnlme⟩
    · rw [he']
      exact ⟨show keyWF "From" by decide, hnlf⟩
    · rw [he']
      exact ⟨show keyWF "To" by decide, hnlt⟩
    · rw [he']
      exact ⟨show keyWF "Contact" by decide, (hnlcc cc hccm).2⟩
    · exact hwfm e he'
  obtain ⟨entries, hpe, hne, hparse, hnlwire⟩ :=
    wire_refold HS m.compact hnodHS hwfHS
  have hlines : lines = ("SIP/2.0 " ++ pyStr st ++ " " ++ re) ::
      (if m.compact then compact_format_headers HS
       else format_headers HS) := by
    unfold Msg.enc_lines Msg.header_lines at hl
    rw [hmk] at hl
    simp only [Bind.bind, Except.bind, Pure.pure, Except.pure,
      Except.ok.injEq] at hl
    rw [← hl, hFl]
  have hgeF : hGet? entries "From" = some (.one (printContact f)) :=
    (hGet?_perm hpe hnodHS "From").trans hgF
  have hgeT : hGet? entries "To" = some (.one (printContact t)) :=
    (hGet?_perm hpe hnodHS "To").trans hgT
  have hgeCs : hGet? entries "CSeq" = some (.one (pyStr c ++ " " ++ me)) :=
    (hGet?_perm hpe hnodHS "CSeq").trans hgCs
  have hgeV : hGet? entries "Via" = hGet? m.headers "Via" :=
    (hGet?_perm hpe hnodHS "Via").trans hgVia
  have hcF : hContains entries "From" = true := by
    rw [hContains_eq_isSome, hgeF]; rfl
  have hcT : hContains entries "To" = true := by
    rw [hContains_eq_isSome, hgeT]; rfl
  have hcCs : hContains entries "CSeq" = true := by
    rw [hContains_eq_isSome, hgeCs]; rfl
  have hcV : hContains entries "Via" = true := by
    rw [hContains_eq_isSome, hgeV, ← hContains_eq_isSome]
    exact hviam
  have hflines : from_lines lines = .ok
      { headers := entries, payloadTxt := none, rawPayload := none,
        fromCache := none, toCache := none, contactCache := none,
        cseqCache := none, methodCache := none, statusCode := some st,
        statusMessage := some re,
        firstLine := "SIP/2.0 " ++ pyStr st ++ " " ++ re,
        compact := false } := by
    rw [hlines]
    unfold from_lines
    dsimp only
    rw [hparse]
    simp only [Bind.bind, Except.bind]
    rw [parseRespLine_ok re h100 h999 hrne hrenl]
    exact response_parse_ok st re entries _ hrne hcF hcT hcV hcCs
  have hnlall : ∀ line ∈ lines, noNl line := by
    rw [hlines]
    intro line hline
    rcases List.mem_cons.mp hline with hline | hline
    · rw [hline]
      exact noNl_append (noNl_append (noNl_append
        (show noNl "SIP/2.0 " by decide) (noNl_pyStr st))
        (show noNl " " by decide)) hrenl
    · exact hnlwire line hline
  refine ⟨_, hflines, ?_, rfl, ?_, hnlall⟩
  · obtain ⟨hacc_cs, hacc_me⟩ := cseq_accessor_of_header hgeCs hmews hmene
      { headers := entries, payloadTxt := none, rawPayload := none,
        fromCache := none, toCache := none, contactCache := none,
        cseqCache := none, methodCache := none, statusCode := some st,
        statusMessage := some re,
        firstLine := "SIP/2.0 " ++ pyStr st ++ " " ++ re,
        compact := false } rfl rfl rfl
    refine ⟨?_, ?_, ?_, ?_, ?_, ?_, ?_⟩
    · show (match hGet? entries "From" with
        | some (.one s) =>
          match parseContact s with
          | some c => Except.ok c
          | none => Except.error (.valueError "contact parse")
        | some (.many _) => Except.error .typeError
        | none => Except.error .keyError) = m.from_details
      rw [hgeF]
      unfold Msg.from_details
      rw [hf']
      dsimp only
      rw [hrtf]
    · show (match hGet? entries "To" with
        | some (.one s) =>
          match parseContact s with
          | some c => Except.ok c
          | none => Except.error (.valueError "contact parse")
        | some (.many _) => Except.error .typeError
        | none => Except.error .keyError) = m.to_details
      rw [hgeT]
      unfold Msg.to_details
      rw [ht']
      dsimp only
      rw [hrtt]
    · have hgeC : hGet? entries "Contact" = hGet? HS "Contact" :=
        hGet?_perm hpe hnodHS "Contact"
      cases hccm : m.contactCache with
      | some c0 =>
        show (match hGet? entries "Contact" with
          | some (.one s) =>
            match parseContact s with
            | some c => Except.ok (some c)
            | none => Except.error (.valueError "contact parse")
          | some (.many _) => Except.error .typeError
          | none => Except.ok none) = m.contact_details
        rw [hgeC, hgCsome c0 hccm]
        unfold Msg.contact_details
        rw [hccm]
        dsimp only
        rw [(hnlcc c0 hccm).1]
      | none =>
        show (match hGet? entries "Contact" with
          | some (.one s) =>
            match parseContact s with
            | some c => Except.ok (some c)
            | none => Except.error (.valueError "contact parse")
          | some (.many _) => Except.error .typeError
          | none => Except.ok none) = m.contact_details
        rw [hgeC, hgCnone hccm]
        unfold Msg.contact_details
        rw [hccm]
    · rw [hacc_cs]
      unfold Msg.cseq
      rw [hCs]
    · rw [hacc_me]
      unfold Msg.method
      rw [hMe]
    · show some st = m.statusCode
      rw [hSc]
    · show some re = m.statusMessage
      rw [hSm]
  · show ("" : String) = m.payload ↔ m.payload = ""
    exact eq_comm

/-- Round-trip of a constructed request through `encode`/`from_raw_headers`
at the accessor level. -/
theorem req_roundtrip {meth : String} {cseqv : Nat} {f t : Contact}
    {cd : Option Contact} {hs : Headers} {p : Option String} {m : Msg}
    {lines : List String}
    (hnod : ciNodupKeys hs) (hewf : ∀ e ∈ hs, keyWF e.1 ∧ valWF e.2)
    (hrtf : contactRT f) (hrtt : contactRT t) (hcarg : contactArgWF hs cd)
    (hmene : meth ≠ "") (hma : allAlpha meth) (hup : toUpperStr meth = meth)
    (hnlu : noNl (shortUri t.uri))
    (hnlf : noNl (printContact f)) (hnlt : noNl (printContact t))
    (hb : request_init meth cseqv (some f) (some t) cd hs p none = .ok m)
    (hl : m.enc_lines = .ok lines) :
    ∃ mp, from_lines lines = .ok mp ∧ accessorsAgree m mp ∧
      mp.payload = "" ∧ (mp.payload = m.payload ↔ m.payload = "") ∧
      (∀ line ∈ lines, noNl line) := by
  obtain ⟨mb, hmi, hH, hP, hR, hF, hT, hCC, hCs, hMe, hSc, hSm, hCp, hFl⟩ :=
    request_build hb
  rw [hup] at hMe hFl
  have hmb := message_init_cases hmi
  have hf' : m.fromCache = some f := hF.trans hmb.2.2.1
  have hnlcc : ∀ cc, m.contactCache = some cc →
      contactRT cc ∧ noNl (printContact cc) := by
    intro cc hccm
    rcases hmb.2.2.2.2.2.2.2.2.2.2 with ⟨hvhs, hhs, hcc⟩ |
      ⟨hvhs, cRes, hcc, hhs, hres⟩
    · have hcd : cd = some cc := by rw [← hcc, ← hCC]; exact hccm
      rw [hcd] at hcarg
      exact hcarg
    · have hcr : cc = cRes := by
        have h2 := hccm
        rw [hCC, hcc] at h2
        simpa using h2.symm
      subst hcr
      rcases hres with hres | ⟨hcdn, s, hgs, hps⟩
      · rw [hres] at hcarg
        exact hcarg
      · rw [hcdn] at hcarg
        rcases (hcarg : hContains hs "Via" = true ∨ _) with hv | hv
        · rw [hvhs] at hv; exact absurd hv (by simp)
        · obtain ⟨c', hgc', hrt'⟩ := hv
          rw [hgc'] at hgs
          have hsp : s = printContact c' := by
            have h3 := hgs
            simp at h3
            exact h3.symm
          rw [hsp] at hps
          rw [hrt'] at hps
          have hcrc : cc = c' := by simpa using hps.symm
          subst hcrc
          refine ⟨hrt', ?_⟩
          obtain ⟨k', hk'⟩ := hGet?_mem hgc'
          exact (hewf (k', .one (printContact cc)) hk').2
  obtain ⟨HS, hmk, hgF, hgT, hgCs, hgCsome, hgCnone, hgVia, hnodHS', hmemHS⟩ :=
    HS_gets hf' hT hCs hMe
  have hviam : hContains m.headers "Via" = true := by
    rw [hH]; exact hmb.2.2.2.2.2.2.2.2.2.1
  have hnodm : ciNodupKeys m.headers := by
    rw [hH]
    rcases hmb.2.2.2.2.2.2.2.2.2.2 with ⟨_, hhs, _⟩ | ⟨_, cRes, _, hhs, _⟩
    · rw [hhs]; exact hnod
    · rw [hhs]; exact ciNodup_hSet hnod _ _
  have hnodHS : ciNodupKeys HS := hnodHS' hnodm
  have hwfm : ∀ e ∈ m.headers, keyWF e.1 ∧ valWF e.2 := by
    rw [hH]
    rcases hmb.2.2.2.2.2.2.2.2.2.2 with ⟨_, hhs, _⟩ |
      ⟨_, cRes, hcc, hhs, _⟩
    · rw [hhs]; exact hewf
    · rw [hhs]
      intro e he
      rcases mem_hSet e he with he' | he'
      · rw [he']
        exact ⟨show keyWF "Via" by decide,
          noNl_viaTemplate (hnlcc cRes (hCC.trans hcc)).2⟩
      · exact hewf e he'
  have hnlme : noNl meth := fun ch hch =>
    ne_nl_of_not_ws (isAlpha_not_ws (hma ch hch))
  have hwfHS : ∀ e ∈ HS, keyWF e.1 ∧ valWF e.2 := by
    intro e he
    rcases hmemHS e he with he' | he' | he' | he' | he' | he' |
      ⟨cc, hccm, he'⟩ | he'
    · rw [he']
      exact ⟨show keyWF "Content-Length" by decide, noNl_pyStr _⟩
    · rw [he']
      exact ⟨show keyWF "Max-Forwards" by decide, show noNl "70" by decide⟩
    · rw [he']
      exact ⟨show keyWF "Call-ID" by decide, show noNl genUUID by decide⟩
    · rw [he']
      exact ⟨show keyWF "CSeq" by decide,
        noNl_append (noNl_append (noNl_pyStr cseqv)
          (show noNl " " by decide)) hnlme⟩
    · rw [he']
      exact ⟨show keyWF "From" by decide, hnlf⟩
    · rw [he']
      exact ⟨show keyWF "To" by decide, hnlt⟩
    · rw [he']
      exact ⟨show keyWF "Contact" by decide, (hnlcc cc hccm).2⟩
    · exact hwfm e he'
  obtain ⟨entries, hpe, hne, hparse, hnlwire⟩ :=
    wire_refold HS m.compact hnodHS hwfHS
  have hlines : lines = (meth ++ " " ++ shortUri t.uri ++ " SIP/2.0") ::
      (if m.compact then compact_format_headers HS
       else format_headers HS) := by
    unfold Msg.enc_lines Msg.header_lines at hl
    rw [hmk] at hl
    simp only [Bind.bind, Except.bind, Pure.pure, Except.pure,
      Except.ok.injEq] at hl
    rw [← hl, hFl]
  have hgeF : hGet? entries "From" = some (.one (printContact f)) :=
    (hGet?_perm hpe hnodHS "From").trans hgF
  have hgeT : hGet? entries "To" = some (.one (printContact t)) :=
    (hGet?_perm hpe hnodHS "To").trans hgT
  have hgeCs : hGet? entries "CSeq" =
      some (.one (pyStr cseqv ++ " " ++ meth)) :=
    (hGet?_perm hpe hnodHS "CSeq").trans hgCs
  have hgeV : hGet? entries "Via" = hGet? m.headers "Via" :=
    (hGet?_perm hpe hnodHS "Via").trans hgVia
  have hcF : hContains entries "From" = true := by
    rw [hContains_eq_isSome, hgeF]; rfl
  have hcT : hContains entries "To" = true := by
    rw [hContains_eq_isSome, hgeT]; rfl
  have hcV : hContains entries "Via" = true := by
    rw [hContains_eq_isSome, hgeV, ← hContains_eq_isSome]
    exact hviam
  have huri : (shortUri t.uri).toList =
      's' :: ("ip:" ++ formatHostAndPort t.uri.host t.uri.port).toList := by
    unfold shortUri
    rw [toList_append]
    rfl
  have hune : (shortUri t.uri).toList ≠ [] := by
    rw [huri]; simp
  have hresp_none : parseRespLine
      (meth ++ " " ++ shortUri t.uri ++ " SIP/2.0") = none := by
    have h1 : (meth ++ " " ++ shortUri t.uri ++ " SIP/2.0").toList =
        meth.toList ++ ' ' :: 's' ::
          (("ip:" ++ formatHostAndPort t.uri.host t.uri.port).toList ++
            " SIP/2.0".toList) := by
      rw [toList_append, toList_append, toList_append, List.append_assoc,
        List.append_assoc, huri]
      rfl
    have h2 := parseRespLine_req_none meth
      (("ip:" ++ formatHostAndPort t.uri.host t.uri.port).toList ++
        " SIP/2.0".toList) hma hmene
    rw [show (meth ++ " " ++ shortUri t.uri ++ " SIP/2.0") =
      ((meth.toList ++ ' ' :: 's' ::
        (("ip:" ++ formatHostAndPort t.uri.host t.uri.port).toList ++
          " SIP/2.0".toList)).asString) from by
        rw [← h1, asString_toList]]
    exact h2
  have hreq_some : parseReqLine
      (meth ++ " " ++ shortUri t.uri ++ " SIP/2.0") = some meth :=
    parseReqLine_ok meth (shortUri t.uri) hma hmene hune hnlu
  have hcsq : cseqFromHeaders entries = pure cseqv := by
    unfold cseqFromHeaders
    rw [hgeCs]
    dsimp only
    have hsw : splitWs (pyStr cseqv ++ " " ++ meth) =
        [pyStr cseqv, meth] := by
      refine splitWs_two (pyStr cseqv) meth (pyStr_ne_empty cseqv)
        (fun h => hmene (toList_eq_nil.mp h)) (pyStr_no_space cseqv) ?_
      intro x hx
      exact isAlpha_not_ws (hma x hx)
    rw [hsw]
    show (match pyToNat? (pyStr cseqv) with
      | some n => (pure n : Except SipErr Nat)
      | none => throw (SipErr.valueError "int")) = pure cseqv
    rw [pyToNat?_pyStr]
  have hflines : from_lines lines = .ok
      { headers := entries, payloadTxt := none, rawPayload := none,
        fromCache := none, toCache := none, contactCache := none,
        cseqCache := some cseqv, methodCache := some (toUpperStr meth),
        statusCode := none, statusMessage := none,
        firstLine := meth ++ " " ++ shortUri t.uri ++ " SIP/2.0",
        compact := false } := by
    rw [hlines]
    unfold from_lines
    dsimp only
    rw [hparse]
    simp only [Bind.bind, Except.bind]
    rw [hresp_none]
    dsimp only
    rw [hreq_some]
    dsimp only
    rw [hcsq]
    simp only [Pure.pure, Except.pure]
    exact request_parse_ok meth cseqv entries _ hcF hcT hcV
  have hnlall : ∀ line ∈ lines, noNl line := by
    rw [hlines]
    intro line hline
    rcases List.mem_cons.mp hline with hline | hline
    · rw [hline]
      exact noNl_append (noNl_append (noNl_append hnlme
        (show noNl " " by decide)) hnlu)
        (show noNl " SIP/2.0" by decide)
    · exact hnlwire line hline
  refine ⟨_, hflines, ?_, rfl, ?_, hnlall⟩
  · refine ⟨?_, ?_, ?_, ?_, ?_, ?_, ?_⟩
    · show (match hGet? entries "From" with
        | some (.one s) =>
          match parseContact s with
          | some c => Except.ok c
          | none => Except.error (.valueError "contact parse")
        | some (.many _) => Except.error .typeError
        | none => Except.error .keyError) = m.from_details
      rw [hgeF]
      unfold Msg.from_details
      rw [hf']
      dsimp only
      rw [hrtf]
    · show (match hGet? entries "To" with
        | some (.one s) =>
          match parseContact s with
          | some c => Except.ok c
          | none => Except.error (.valueError "contact parse")
        | some (.many _) => Except.error .typeError
        | none => Except.error .keyError) = m.to_details
      rw [hgeT]
      unfold Msg.to_details
      rw [hT]
      dsimp only
      rw [hrtt]
    · have hgeC : hGet? entries "Contact" = hGet? HS "Contact" :=
        hGet?_perm hpe hnodHS "Contact"
      cases hccm : m.contactCache with
      | some c0 =>
        show (match hGet? entries "Contact" with
          | some (.one s) =>
            match parseContact s with
            | some c => Except.ok (some c)
            | none => Except.error (.valueError "contact parse")
          | some (.many _) => Except.error .typeError
          | none => Except.ok none) = m.contact_details
        rw [hgeC, hgCsome c0 hccm]
        unfold Msg.contact_details
        rw [hccm]
        dsimp only
        rw [(hnlcc c0 hccm).1]
      | none =>
        show (match hGet? entries "Contact" with
          | some (.one s) =>
            match parseContact s with
            | some c => Except.ok (some c)
            | none => Except.error (.valueError "contact parse")
          | some (.many _) => Except.error .typeError
          | none => Except.ok none) = m.contact_details
        rw [hgeC, hgCnone hccm]
        unfold Msg.contact_details
        rw [hccm]
    · show Except.ok cseqv = m.cseq
      unfold Msg.cseq
      rw [hCs]
    · show Except.ok (toUpperStr meth) = m.method
      unfold Msg.method
      rw [hup, hMe]
    · show (none : Option Nat) = m.statusCode
      rw [hSc]
    · show (none : Option String) = m.statusMessage
      rw [hSm]
  · show ("" : String) = m.payload ↔ m.payload = ""
    exact eq_comm

/-- **C2 (corrected).** Parsing the encoded form of a constructed message
— the header block, joined with `EOL` and fed to `from_raw_headers` exactly
as `Dialog.receive_message` feeds the wire bytes — yields a message that
agrees with the original on `from_details`, `to_details`, `contact_details`,
`cseq`, `method`, `status_code` and `status_message`, for every well-formed
constructor description (round-trip-safe, newline-free headers and contacts,
three-digit status, delimiter-free reason and method, non-zero response
cseq) — for the plain and the compact serializer alike.  The `payload`
accessor is *not* preserved: `from_raw_headers` only ever receives the
header section, so the parsed message's payload is always the empty string,
and payload agreement holds exactly when the original payload is empty. -/
theorem parse_encode_accessors (ms : MsgSpec) (m : Msg) (lines : List String)
    (hwf : specWF ms) (hb : buildMsg ms = .ok m)
    (hl : m.enc_lines = .ok lines) :
    ∃ mp, from_raw_headers (String.intercalate EOL lines) = .ok mp ∧
      accessorsAgree m mp ∧ mp.payload = "" ∧
      (mp.payload = m.payload ↔ m.payload = "") := by
  cases ms with
  | req me c f t cd hs p =>
    obtain ⟨⟨hnod, hewf⟩, hrtf, hrtt, hcarg, hmene, hma, hup, hnlu,
      hnlf, hnlt⟩ := hwf
    obtain ⟨mp, hfl, hacc, hpe, hpiff, hnl⟩ :=
      req_roundtrip hnod hewf hrtf hrtt hcarg hmene hma hup hnlu hnlf hnlt
        hb hl
    have hlne : lines ≠ [] := by
      intro h
      rw [h, show from_lines [] = Except.error SipErr.indexError from rfl]
        at hfl
      cases hfl
    rw [from_raw_headers_join lines hlne hnl]
    exact ⟨mp, hfl, hacc, hpe, hpiff⟩
  | resp st re f t cd hs p c me compact =>
    obtain ⟨⟨hnod, hewf⟩, hrtf, hrtt, hcarg, h100, h999, hrne, hrenl, hc0,
      hmene, hmews, hnlf, hnlt⟩ := hwf
    obtain ⟨mp, hfl, hacc, hpe, hpiff, hnl⟩ :=
      resp_roundtrip hnod hewf hrtf hrtt hnlf hnlt hcarg h100 h999 hrne
        hrenl hc0 hmene hmews hb hl
    have hlne : lines ≠ [] := by
      intro h
      rw [h, show from_lines [] = Except.error SipErr.indexError from rfl]
        at hfl
      cases hfl
    rw [from_raw_headers_join lines hlne hnl]
    exact ⟨mp, hfl, hacc, hpe, hpiff⟩

/-- The claimed payload preservation is false: a response built with the
payload `"hello"` encodes, and `from_raw_headers` on its EOL-joined header
block parses back with payload `""`. -/
theorem parse_encode_claim_false :
    buildMsg specPayload = .ok msgPayload ∧
    msgPayload.enc_lines = .ok wirePayload ∧
    msgPayload.payload = "hello" ∧
    (from_raw_headers (String.intercalate EOL wirePayload)).toOption.map
      Msg.payload = some "" ∧
    ¬ ((from_raw_headers (String.intercalate EOL wirePayload)).toOption.map
        Msg.payload = some msgPayload.payload) := by
  decide

/-- Witness: the corrected round-trip at a concrete response. -/
theorem parse_encode_accessors_witness :
    specWF specRT ∧ buildMsg specRT = .ok msgRT ∧
    msgRT.enc_lines = .ok wireRT ∧
    ∃ mp, from_raw_headers (String.intercalate EOL wireRT) = .ok mp ∧
      accessorsAgree msgRT mp ∧
      mp.payload = "" ∧ (mp.payload = msgRT.payload ↔ msgRT.payload = "") :=
  have hwf : specWF specRT :=
    ⟨⟨by decide, by decide⟩, by decide, by decide,
      show contactRT cBob ∧ noNl (printContact cBob) from
        ⟨by decide, by decide⟩, by decide, by decide, by decide,
      by decide, by decide, by decide, by decide, by decide, by decide⟩
  ⟨hwf, by decide, by decide,
    parse_encode_accessors specRT msgRT wireRT hwf (by decide) (by decide)⟩

end Aiosip
